import Mathlib

/-!
# Gateway: wire codec, short timestamps, nonce tracker, validation orchestrator

A shallow embedding of `bxmessage/tx.go`, `services/eth_tx_store.go` and the transaction
feed loop of `servers/client_handler_grpc.go`.

Conventions of the embedding
* Go `int64` values are `Int`s, wrapped with `wrapI64` wherever the source does
  arithmetic on them; `uint64`/`uint32`/`uint16` values are `Nat`s reduced
  modulo `2^64`/`2^32`/`2^16`.
* `time.Time` values are `Int`s: nanoseconds since the Unix epoch (`UnixNano`).
* A byte is a `Fin 256`; byte slices, byte arrays and Go strings are lists of bytes.
* `clock.Now()` is an explicit argument `now`.
* A panic is the `none` of an `Option`; goroutines that meet on a channel are a step
  relation on their program points.
-/

namespace Gateway

/-! ## Machine integers -/

/-- Conversion `uint64(x)` of a signed 64-bit value. -/
def wrapU64 (x : Int) : Nat := (x % 2 ^ 64).toNat

/-- Two's-complement wrap-around of a mathematical integer into `int64`. -/
def wrapI64 (x : Int) : Int := (x + 2 ^ 63) % 2 ^ 64 - 2 ^ 63

/-- Range of `int64`. -/
def IsI64 (x : Int) : Prop := -(2 ^ 63) ≤ x ∧ x < 2 ^ 63

instance (x : Int) : Decidable (IsI64 x) := by unfold IsI64; infer_instance

/-! ## Short timestamps (`tx.go`, lines 267-270 and 404-435) -/

/-- `time.Hour.Nanoseconds()`. -/
def hourNanos : Int := 3600000000000

/-- The wrap period `0x40000000000 = 2^42` nanoseconds. -/
def wrapPeriod : Int := 0x40000000000

/-- The field written by `Pack` for protocols from `FullTxTimeStampProtocol` on:
`uint32(m.timestamp.UnixNano() >> 10)`. -/
def packShortTimestamp (t : Int) : Nat := ((t / 1024) % 2 ^ 32).toNat

/-- `decodeTimestamp(timestamp uint32) int64`, with the clock reading `now`. -/
def decodeTimestamp (now : Int) (timestamp : Nat) : Int :=
  let toMerge : Nat := (timestamp % 2 ^ 32 * 2 ^ 10) % 2 ^ 64
  let nanoseconds : Nat := toMerge ||| (wrapU64 now &&& 0xFFFFFC0000000000)
  let result : Int := wrapI64 nanoseconds
  let result := if wrapI64 (result - now) ≥ hourNanos then wrapI64 (result - wrapPeriod) else result
  let result := if wrapI64 (now - result) ≥ hourNanos then wrapI64 (result + wrapPeriod) else result
  result

/-- Whether the overflow branch (first correction) of `decodeTimestamp` is taken. -/
def overflowTaken (now : Int) (timestamp : Nat) : Bool :=
  let toMerge : Nat := (timestamp % 2 ^ 32 * 2 ^ 10) % 2 ^ 64
  let nanoseconds : Nat := toMerge ||| (wrapU64 now &&& 0xFFFFFC0000000000)
  decide (wrapI64 (wrapI64 nanoseconds - now) ≥ hourNanos)

/-- Whether the underflow branch (second correction) of `decodeTimestamp` is taken. -/
def underflowTaken (now : Int) (timestamp : Nat) : Bool :=
  let toMerge : Nat := (timestamp % 2 ^ 32 * 2 ^ 10) % 2 ^ 64
  let nanoseconds : Nat := toMerge ||| (wrapU64 now &&& 0xFFFFFC0000000000)
  let result : Int := wrapI64 nanoseconds
  let result := if wrapI64 (result - now) ≥ hourNanos then wrapI64 (result - wrapPeriod) else result
  decide (wrapI64 (now - result) ≥ hourNanos)

/-- The merge-and-correct computation of `decodeTimestamp` in unbounded integer
arithmetic; `decodeTimestamp_eq_arith` shows the two agree away from the ends
of the `int64` range. -/
def decodeArith (now : Int) (x : Nat) : Int :=
  let r0 : Int := now / 2 ^ 42 * 2 ^ 42 + (x : Int) * 1024
  let r1 : Int := if r0 - now ≥ 3600000000000 then r0 - 2 ^ 42 else r0
  if now - r1 ≥ 3600000000000 then r1 + 2 ^ 42 else r1

/-! ## Bytes and buffers -/

/-- A byte. -/
abbrev Byte := Fin 256

/-- Byte slices, byte arrays and Go strings. -/
abbrev Bytes := List Byte

/-- A zero-filled byte array, as produced by `make([]byte, n)` or `[n]byte{}`. -/
def zeros (n : Nat) : Bytes := List.replicate n 0

/-- Little-endian encoding of `v` on `k` bytes (`binary.LittleEndian.PutUintN`). -/
def putLE : Nat → Nat → Bytes
  | 0, _ => []
  | k + 1, v => ⟨v % 256, Nat.mod_lt _ (by decide)⟩ :: putLE k (v / 256)

/-- Little-endian decoding (`binary.LittleEndian.UintN`). -/
def getLE : Bytes → Nat
  | [] => 0
  | b :: bs => b.val + 256 * getLE bs

/-- `binary.LittleEndian.PutUintN(buf[offset:], v)` with `bs` the encoding of `v`:
the slice expression and the bounds check of `PutUintN` panic (`none`) unless
`offset + len bs ≤ len buf`. -/
def putAt (buf : Bytes) (offset : Nat) (bs : Bytes) : Option Bytes :=
  if offset + bs.length ≤ buf.length then
    some (buf.take offset ++ bs ++ buf.drop (offset + bs.length))
  else none

/-- `copy(buf[offset:], src)`: panics (`none`) when `offset > len buf`, otherwise copies
`min (len buf - offset) (len src)` bytes. -/
def copyAt (buf : Bytes) (offset : Nat) (src : Bytes) : Option Bytes :=
  if offset ≤ buf.length then
    some (buf.take offset ++ src.take (min (buf.length - offset) src.length)
      ++ buf.drop (offset + min (buf.length - offset) src.length))
  else none

/-- `copy(buf[offset:offset+width], src)`: panics (`none`) when `offset + width` exceeds
the capacity of `buf` (equal to its length for a buffer from `make`), otherwise copies
`min width (len src)` bytes. -/
def copySlot (buf : Bytes) (offset width : Nat) (src : Bytes) : Option Bytes :=
  if offset + width ≤ buf.length then
    some (buf.take offset ++ src.take (min width src.length)
      ++ buf.drop (offset + min width src.length))
  else none

/-- `copy(dst[:], src)` into a fixed array `dst`: the first `min (len dst) (len src)`
bytes of `dst` are replaced. -/
def copyInto (dst src : Bytes) : Bytes :=
  src.take (min dst.length src.length) ++ dst.drop (min dst.length src.length)

/-- `binary.LittleEndian.UintN(buf[offset:])` on `k` bytes. -/
def readLE (buf : Bytes) (offset k : Nat) : Nat := getLE ((buf.drop offset).take k)

/-! ## Constants and code that are not part of the excerpt -/

/-- Constants of the packages `types` and `bxmessage` whose declarations are not in the
sources at hand; every definition below takes them as a parameter. -/
structure Consts where
  BroadcastHeaderLen : Nat
  AccountIDLen : Nat
  WalletIDLen : Nat
  NextValidatorProtocol : Nat
  NextValidatorMultipleProtocol : Nat
  TFPaidTx : Nat
  TFStatusMonitoring : Nat
  TFNonceMonitoring : Nat
  TFRePropagate : Nat
  TFEnterpriseSender : Nat
  TFEliteSender : Nat
  TFDeliverToNode : Nat
  TFReusedNonce : Nat
  TFNextValidator : Nat
deriving DecidableEq, Repr

/-- `types.ShortIDLen`: a short ID is a `uint32`. -/
def ShortIDLen : Nat := 4
/-- `types.TxFlagsLen`: the flags are a `uint16`. -/
def TxFlagsLen : Nat := 2
/-- `types.UInt32Len`. -/
def UInt32Len : Nat := 4
/-- `types.UInt16Len`. -/
def UInt16Len : Nat := 2
/-- `TimestampLen`: the eight bytes of a `float64`. -/
def TimestampLen : Nat := 8
/-- `ShortTimestampLen`: the four bytes of the truncated timestamp. -/
def ShortTimestampLen : Nat := 4
/-- `SenderLen`: a sender address has 20 bytes. -/
def SenderLen : Nat := 20
/-- `ControlByteLen`: the one-byte trailer of a message. -/
def ControlByteLen : Nat := 1
/-- `FullTxTimeStampProtocol` ("as of protocol version 25"). -/
def FullTxTimeStampProtocol : Nat := 25
/-- `SenderProtocol` ("sender nonce added in protocol 25"). -/
def SenderProtocol : Nat := 25

/-- `BroadcastHeader`: the fields the claims mention. -/
structure BroadcastHeader where
  hash : Bytes
  networkNum : Nat
  sourceID : Bytes
deriving DecidableEq, Repr

/-- Code outside the excerpt that `Pack` and `Unpack` call: the layout of the broadcast
header, the control byte, and the `float64` arithmetic of the timestamp encodings of
the protocols before `FullTxTimeStampProtocol`, which has no exact counterpart here. -/
structure Ext where
  /-- The bytes `BroadcastHeader.Pack` writes at the start of a buffer of the given
  length for the given protocol. -/
  packHeader : BroadcastHeader → Nat → Nat → Bytes
  /-- The header fields `BroadcastHeader.Unpack` reads from a buffer. -/
  unpackHeader : Bytes → Nat → BroadcastHeader
  /-- The value of the trailing control byte. -/
  controlByte : Byte
  /-- `uint32(float64(ns) / nanosInSecond + 1.0)` for `ns = m.timestamp.UnixNano()`. -/
  secondsPlusOne : Int → Nat
  /-- `math.Float64bits(float64(ns) / nanosInSecond)`. -/
  secondsBits : Int → Nat
  /-- `int64(math.Float64frombits(bits))`. -/
  secondsOfBits : Nat → Int

/-! ## Transaction flags -/

/-- `flags &^ mask` on bit sets. -/
def clearFlags (flags mask : Nat) : Nat := flags ^^^ (flags &&& mask)

/-- `TxFlags.IsNextValidator`. -/
def IsNextValidator (c : Consts) (flags : Nat) : Bool := flags &&& c.TFNextValidator != 0
/-- `TxFlags.IsPaid`. -/
def IsPaid (c : Consts) (flags : Nat) : Bool := flags &&& c.TFPaidTx != 0
/-- `TxFlags.IsReuseSenderNonce`. -/
def IsReuseSenderNonce (c : Consts) (flags : Nat) : Bool := flags &&& c.TFReusedNonce != 0
/-- `TxFlags.ShouldDeliverToNode`. -/
def ShouldDeliverToNode (c : Consts) (flags : Nat) : Bool := flags &&& c.TFDeliverToNode != 0

/-- The flags kept by `Pack` below protocol 20. -/
def legacyFlagMask (c : Consts) : Nat :=
  c.TFStatusMonitoring ||| c.TFPaidTx ||| c.TFNonceMonitoring ||| c.TFRePropagate
    ||| c.TFEnterpriseSender

/-! ## The transaction message (`tx.go`) -/

/-- `Tx`, the message that carries a transaction. -/
structure Tx where
  header : BroadcastHeader
  shortID : Nat
  flags : Nat
  walletIDs : List Bytes
  fallback : Nat
  timestamp : Int
  accountID : Bytes
  content : Bytes
  quota : Byte
  sender : Bytes
deriving DecidableEq, Repr

/-- The zero value `Tx{}` that `Unpack` is called on. -/
def Tx.empty (c : Consts) : Tx :=
  { header := { hash := zeros 32, networkNum := 0, sourceID := zeros 16 }
    shortID := 0, flags := 0, walletIDs := [], fallback := 0, timestamp := 0
    accountID := zeros c.AccountIDLen, content := [], quota := 0
    sender := zeros SenderLen }

/-- Modelled from the spec: `BroadcastHeader.Size` is not in the sources at hand. The
header occupies the first `BroadcastHeaderLen` bytes and the message ends with the
control byte, which `Unpack` leaves out of the content. -/
def BroadcastHeader.Size (c : Consts) : Nat := c.BroadcastHeaderLen + ControlByteLen

/-- `Tx.size`, in `uint32` arithmetic. -/
def Tx.size (c : Consts) (m : Tx) (protocol : Nat) : Nat :=
  if protocol < 19 then 0
  else if protocol < 21 then
    (BroadcastHeader.Size c + ShortIDLen + TxFlagsLen + ShortTimestampLen
      + m.content.length) % 2 ^ 32
  else if protocol < 22 then
    (BroadcastHeader.Size c + ShortIDLen + TxFlagsLen + TimestampLen
      + m.content.length) % 2 ^ 32
  else if protocol < SenderProtocol then
    (BroadcastHeader.Size c + ShortIDLen + TxFlagsLen + TimestampLen + c.AccountIDLen
      + m.content.length) % 2 ^ 32
  else
    let contentSize := m.content.length
    let contentSize := if contentSize % 2 ^ 32 > 0 then contentSize + SenderLen else contentSize
    let contentSize :=
      if protocol ≥ c.NextValidatorProtocol && IsNextValidator c m.flags then
        contentSize + (UInt16Len + c.WalletIDLen)
      else contentSize
    let contentSize :=
      if protocol ≥ c.NextValidatorMultipleProtocol && IsNextValidator c m.flags then
        contentSize + c.WalletIDLen
      else contentSize
    (BroadcastHeader.Size c + ShortIDLen + TxFlagsLen + ShortTimestampLen + c.AccountIDLen
      + contentSize) % 2 ^ 32

/-- Modelled from the spec: `BroadcastHeader.Pack` is not in the sources at hand. It
fills the first `BroadcastHeaderLen` bytes and the trailing control byte of the buffer,
and panics (`none`) on a buffer shorter than `BroadcastHeader.Size`. -/
def BroadcastHeader.Pack (c : Consts) (x : Ext) (h : BroadcastHeader) (buf : Bytes)
    (protocol : Nat) : Option Bytes :=
  if BroadcastHeader.Size c ≤ buf.length then
    (copySlot buf 0 c.BroadcastHeaderLen
        (x.packHeader h buf.length protocol ++ zeros c.BroadcastHeaderLen)).bind
      fun buf => putAt buf (buf.length - ControlByteLen) [x.controlByte]
  else none

/-- The writes of the wallet IDs in the loop `for _, walletID := range m.walletIDs`. -/
def packWalletIDs (c : Consts) : Bytes → Nat → List Bytes → Option (Bytes × Nat)
  | buf, offset, [] => some (buf, offset)
  | buf, offset, walletID :: rest =>
    (copySlot buf offset c.WalletIDLen walletID).bind
      fun buf => packWalletIDs c buf (offset + c.WalletIDLen) rest

/-- `Tx.Pack`, lines 241-256: the buffer, the header, the short ID and the flags. The
result is the buffer and the offset reached. -/
def Tx.packHead (c : Consts) (x : Ext) (m : Tx) (protocol : Nat) : Option (Bytes × Nat) := do
  let bufLen := Tx.size c m protocol
  let buf := zeros bufLen
  let buf ← BroadcastHeader.Pack c x m.header buf protocol
  let offset := c.BroadcastHeaderLen
  let buf ← putAt buf offset (putLE 4 (m.shortID % 2 ^ 32))
  let offset := offset + ShortIDLen
  let flags := if protocol < 20 then m.flags &&& legacyFlagMask c else m.flags
  let buf ← putAt buf offset (putLE 2 (flags % 2 ^ 16))
  pure (buf, offset + TxFlagsLen)

/-- `Tx.Pack`, lines 258-271: the timestamp. -/
def Tx.packTimestamp (x : Ext) (m : Tx) (protocol : Nat) (buf : Bytes) (offset : Nat) :
    Option (Bytes × Nat) :=
  if protocol < 21 then
    (putAt buf offset (putLE 4 (x.secondsPlusOne m.timestamp % 2 ^ 32))).map
      fun buf => (buf, offset + UInt32Len)
  else if protocol < FullTxTimeStampProtocol then
    (putAt buf offset (putLE 8 (x.secondsBits m.timestamp % 2 ^ 64))).map
      fun buf => (buf, offset + TimestampLen)
  else
    (putAt buf offset (putLE 4 (packShortTimestamp m.timestamp))).map
      fun buf => (buf, offset + ShortTimestampLen)

/-- `Tx.Pack`, lines 272-290: fallback and wallet IDs. -/
def Tx.packNextValidator (c : Consts) (m : Tx) (protocol : Nat) (buf : Bytes) (offset : Nat) :
    Option (Bytes × Nat) :=
  if protocol ≥ c.NextValidatorMultipleProtocol then
    if IsNextValidator c m.flags then
      (putAt buf offset (putLE 2 (m.fallback % 2 ^ 16))).bind
        fun buf => packWalletIDs c buf (offset + UInt16Len) m.walletIDs
    else some (buf, offset)
  else if protocol ≥ c.NextValidatorProtocol then
    if IsNextValidator c m.flags then
      (putAt buf offset (putLE 2 (m.fallback % 2 ^ 16))).bind fun buf =>
        match m.walletIDs with
        | [] => none
        | walletID :: _ =>
          (copySlot buf (offset + UInt16Len) c.WalletIDLen walletID).map
            fun buf => (buf, offset + UInt16Len + c.WalletIDLen)
    else some (buf, offset)
  else some (buf, offset)

/-- `Tx.Pack`, lines 292-298: the account ID. -/
def Tx.packAccountID (c : Consts) (m : Tx) (protocol : Nat) (buf : Bytes) (offset : Nat) :
    Option (Bytes × Nat) :=
  if protocol < 22 then some (buf, offset)
  else (copyAt buf offset m.accountID).map fun buf => (buf, offset + c.AccountIDLen)

/-- `Tx.Pack`, lines 300-313: content and sender. -/
def Tx.packContent (m : Tx) (protocol : Nat) (buf : Bytes) (offset : Nat) : Option Bytes :=
  if m.content.length > 0 then
    (copyAt buf offset m.content).bind fun buf =>
      if protocol < SenderProtocol then some buf
      else copyAt buf (offset + m.content.length) m.sender
  else some buf

/-- `Tx.Pack`: `none` is a run-time panic, `some buf` the return of `buf, nil`. -/
def Tx.Pack (c : Consts) (x : Ext) (m : Tx) (protocol : Nat) : Option Bytes :=
  (Tx.packHead c x m protocol).bind fun s1 =>
  (Tx.packTimestamp x m protocol s1.1 s1.2).bind fun s2 =>
  (Tx.packNextValidator c m protocol s2.1 s2.2).bind fun s3 =>
  (Tx.packAccountID c m protocol s3.1 s3.2).bind fun s4 =>
  Tx.packContent m protocol s4.1 s4.2

/-- The outcomes of `Unpack` other than success. -/
inductive UnpackError where
  /-- The error of `checkBufSize`: `size` bytes needed at `offset`, buffer of `len`. -/
  | bufferTooSmall (offset size len : Nat)
  /-- A run-time panic: index or slice bounds out of range. -/
  | outOfRange
deriving DecidableEq, Repr

/-- Modelled from the spec: `checkBufSize` is not in the sources at hand. It fails with
the buffer-too-small error, naming offset and required length, when the buffer does not
hold `size` bytes at `offset`. -/
def checkBufSize (buf : Bytes) (offset size : Nat) : Except UnpackError Unit :=
  if buf.length < offset + size then .error (.bufferTooSmall offset size buf.length)
  else .ok ()

/-- Modelled from the spec: `BroadcastHeader.Unpack` is not in the sources at hand. It
checks that the buffer holds `BroadcastHeader.Size` bytes and reads the header. -/
def BroadcastHeader.Unpack (c : Consts) (x : Ext) (buf : Bytes) (protocol : Nat) :
    Except UnpackError BroadcastHeader := do
  checkBufSize buf 0 (BroadcastHeader.Size c)
  pure (x.unpackHeader buf protocol)

/-- `Tx.SetWalletID`. -/
def Tx.SetWalletID (m : Tx) (index : Nat) (id : Bytes) : Tx :=
  if index ≥ 2 then m else { m with walletIDs := m.walletIDs.set index id }

/-- The slice expression `buf[lo:hi]` for `hi ≤ len buf`, with `hi` a signed integer as
in the source: a panic unless `0 ≤ lo ≤ hi`. -/
def sliceTo (buf : Bytes) (lo : Nat) (hi : Int) : Except UnpackError Bytes :=
  if (lo : Int) ≤ hi then .ok ((buf.take hi.toNat).drop lo) else .error .outOfRange

/-- `Tx.Unpack`, lines 318-328: the header, the short ID and the flags. The result is
the receiver and the offset reached. -/
def Tx.unpackHead (c : Consts) (x : Ext) (m : Tx) (buf : Bytes) (protocol : Nat) :
    Except UnpackError (Tx × Nat) := do
  let header ← BroadcastHeader.Unpack c x buf protocol
  let m := { m with header := header }
  let offset := c.BroadcastHeaderLen
  checkBufSize buf offset (ShortIDLen + TxFlagsLen)
  let m := { m with shortID := readLE buf offset 4 }
  let offset := offset + ShortIDLen
  let m := { m with flags := readLE buf offset 2 }
  pure (m, offset + TxFlagsLen)

/-- `Tx.Unpack`, lines 329-355: the timestamp. -/
def Tx.unpackTimestamp (x : Ext) (now : Int) (m : Tx) (buf : Bytes) (protocol : Nat)
    (offset : Nat) : Except UnpackError (Tx × Nat) :=
  if protocol < 21 then do
    checkBufSize buf offset UInt32Len
    let timestamp := readLE buf offset 4
    let nanoseconds := wrapI64 ((timestamp : Int) * 1000000000)
    pure ({ m with timestamp := nanoseconds }, offset + UInt32Len)
  else if protocol < FullTxTimeStampProtocol then do
    checkBufSize buf offset TimestampLen
    let tmp := readLE buf offset 8
    let nanoseconds := wrapI64 (x.secondsOfBits tmp * 1000000000)
    pure ({ m with timestamp := nanoseconds }, offset + TimestampLen)
  else do
    checkBufSize buf offset ShortTimestampLen
    let timestamp := readLE buf offset 4
    pure ({ m with timestamp := decodeTimestamp now timestamp }, offset + ShortTimestampLen)

/-- `Tx.Unpack`, lines 357-383: fallback and wallet IDs. -/
def Tx.unpackNextValidator (c : Consts) (m : Tx) (buf : Bytes) (protocol : Nat)
    (offset : Nat) : Except UnpackError (Tx × Nat) :=
  if protocol ≥ c.NextValidatorMultipleProtocol then do
    let m := { m with walletIDs := [[], []] }
    if IsNextValidator c m.flags then do
      checkBufSize buf offset (UInt16Len + c.WalletIDLen + c.WalletIDLen)
      let m := { m with fallback := readLE buf offset 2 }
      let offset := offset + UInt16Len
      let m := m.SetWalletID 0 ((buf.drop offset).take c.WalletIDLen)
      let offset := offset + c.WalletIDLen
      let m := m.SetWalletID 1 ((buf.drop offset).take c.WalletIDLen)
      let offset := offset + c.WalletIDLen
      pure (m, offset)
    else pure (m, offset)
  else if protocol ≥ c.NextValidatorProtocol then do
    let m := { m with walletIDs := [[], []] }
    if IsNextValidator c m.flags then do
      checkBufSize buf offset (UInt16Len + c.WalletIDLen)
      let m := { m with fallback := readLE buf offset 2 }
      let offset := offset + UInt16Len
      let m := m.SetWalletID 0 ((buf.drop offset).take c.WalletIDLen)
      let offset := offset + c.WalletIDLen
      pure (m, offset)
    else pure (m, offset)
  else pure (m, offset)

/-- `Tx.Unpack`, lines 385-391: the account ID. The slice expression `buf[offset:]`
panics when `offset` exceeds the length of the buffer. -/
def Tx.unpackAccountID (c : Consts) (m : Tx) (buf : Bytes) (protocol : Nat) (offset : Nat) :
    Except UnpackError (Tx × Nat) :=
  if protocol < 22 then pure (m, offset)
  else if offset ≤ buf.length then
    pure ({ m with accountID := copyInto m.accountID (buf.drop offset) },
      offset + c.AccountIDLen)
  else .error .outOfRange

/-- `Tx.Unpack`, lines 393-401: content and sender. -/
def Tx.unpackContent (m : Tx) (buf : Bytes) (protocol : Nat) (offset : Nat) :
    Except UnpackError Tx :=
  if (buf.length : Int) - offset - ControlByteLen = 0 ∨ protocol < SenderProtocol then do
    let content ← sliceTo buf offset ((buf.length : Int) - ControlByteLen)
    pure { m with content := content }
  else do
    let content ← sliceTo buf offset ((buf.length : Int) - SenderLen - ControlByteLen)
    let m := { m with content := content }
    let offset := offset + content.length
    if offset ≤ buf.length then
      pure { m with sender := copyInto m.sender (buf.drop offset) }
    else .error .outOfRange

/-- `Tx.Unpack` on the receiver `m`, with the clock reading `now`. -/
def Tx.Unpack (c : Consts) (x : Ext) (now : Int) (m : Tx) (buf : Bytes) (protocol : Nat) :
    Except UnpackError Tx :=
  (Tx.unpackHead c x m buf protocol).bind fun s1 =>
  (Tx.unpackTimestamp x now s1.1 buf protocol s1.2).bind fun s2 =>
  (Tx.unpackNextValidator c s2.1 buf protocol s2.2).bind fun s3 =>
  (Tx.unpackAccountID c s3.1 buf protocol s3.2).bind fun s4 =>
  Tx.unpackContent s4.1 buf protocol s4.2

/-! ## The nonce tracker (`eth_tx_store.go`, lines 131-250) -/

/-- Modelled from the spec: `types.EthTransaction` is not in the sources at hand. A parsed
transaction exposes its hash, sender address (`From`), nonce, effective gas fee cap,
effective gas tip cap and chain identifier (`ChainID.Int64()`). -/
structure EthTransaction where
  hash : Bytes
  From : Bytes
  Nonce : Nat
  EffectiveGasFeeCap : Int
  EffectiveGasTipCap : Int
  ChainID : Int
deriving DecidableEq, Repr

/-- A finite `float64` value `mant * 2^exp`. -/
structure Float64 where
  mant : Int
  exp : Int
deriving DecidableEq, Repr

/-- The per-network configuration entry, with the fields the tracker reads;
`AllowTimeReuseSenderNonce` is the value of `time.Duration(AllowTimeReuseSenderNonce)`. -/
structure BlockchainNetwork where
  EnableCheckSenderNonce : Bool
  AllowGasPriceChangeReuseSenderNonce : Float64
  AllowTimeReuseSenderNonce : Int
deriving DecidableEq, Repr

/-- Number of binary digits of `n`, with `fuel` bounding their count. -/
def bitLenAux : Nat → Nat → Nat
  | 0, _ => 0
  | fuel + 1, n => if n = 0 then 0 else bitLenAux fuel (n / 2) + 1

/-- `big.Int.BitLen` of a magnitude. -/
def bitLen (n : Nat) : Nat := bitLenAux n n

/-- Rounding of a mantissa to `prec` bits, to nearest even, as `big.Float` does after
`Mul`: the rounded mantissa and the number of low bits dropped. -/
def roundMant (prec mag : Nat) : Nat × Nat :=
  if bitLen mag ≤ prec then (mag, 0)
  else
    let k := bitLen mag - prec
    let q := mag / 2 ^ k
    let r := mag % 2 ^ k
    let half := 2 ^ (k - 1)
    (if r > half ∨ (r = half ∧ q % 2 = 1) then q + 1 else q, k)

/-- `big.Float.Int` on the magnitude `mag * 2^e`: truncation. -/
def truncMag (mag : Nat) (e : Int) : Nat :=
  if 0 ≤ e then mag * 2 ^ e.toNat else mag / 2 ^ (-e).toNat

/-- The threshold computed in `setTransaction`:
`new(big.Float).SetInt(cap).Mul(·, new(big.Float).SetFloat64(factor)).Int(·)`.
`SetInt` gives the product the precision `max(cap.BitLen(), 64)`, `Mul` rounds the exact
product to it, `Int` truncates toward zero. -/
def scaleCap (cap : Int) (factor : Float64) : Int :=
  let prec := max (bitLen cap.natAbs) 64
  let prod : Int := cap * factor.mant
  let rounded := roundMant prec prod.natAbs
  let t : Int := truncMag rounded.1 (factor.exp + rounded.2)
  if prod < 0 then -t else t

/-- `trackedTx`. -/
structure trackedTx where
  tx : EthTransaction
  gasFeeCap : Int
  gasTipCap : Int
  expireTime : Int
deriving DecidableEq, Repr

/-- `strconv.FormatUint(n, 10)`, with `fuel` bounding the number of digits. -/
def formatUintAux : Nat → Nat → Bytes → Bytes
  | 0, _, acc => acc
  | fuel + 1, n, acc =>
    if n < 10 then ⟨(48 + n) % 256, Nat.mod_lt _ (by decide)⟩ :: acc
    else formatUintAux fuel (n / 10) (⟨(48 + n % 10) % 256, Nat.mod_lt _ (by decide)⟩ :: acc)

/-- `strconv.FormatUint(n, 10)` as bytes. -/
def formatUint (n : Nat) : Bytes := formatUintAux (n + 1) n []

/-- `fromNonceKey`: the address bytes, a colon, the nonce in decimal. -/
def fromNonceKey (sender : Bytes) (nonce : Nat) : Bytes :=
  sender ++ [58] ++ formatUint nonce

/-- `nonceTracker`: the map from key to tracked entry and the per-network configuration.
The clock is passed to each operation as its reading `now`; the cleaning interval and
the quit channel play no part in the operations below. -/
structure nonceTracker where
  addressNonceToTx : Bytes → Option trackedTx
  networkConfig : Nat → Option BlockchainNetwork

/-- `nonceTracker.getTransaction`. -/
def nonceTracker.getTransaction (nt : nonceTracker) (sender : Bytes) (nonce : Nat) :
    Option trackedTx :=
  nt.addressNonceToTx (fromNonceKey sender nonce)

/-- `SyncMap.Store`. -/
def mapStore (m : Bytes → Option trackedTx) (k : Bytes) (v : trackedTx) :
    Bytes → Option trackedTx :=
  fun k' => if k' = k then some v else m k'

/-- The entry `setTransaction` builds for `tx` under a configuration entry at clock
reading `now`. -/
def trackedOf (config : BlockchainNetwork) (now : Int) (tx : EthTransaction) : trackedTx :=
  let reuseNonceGasChange := config.AllowGasPriceChangeReuseSenderNonce
  let reuseNonceDelay := wrapI64 (config.AllowTimeReuseSenderNonce * 1000000000)
  { tx := tx
    expireTime := now + reuseNonceDelay
    gasFeeCap := scaleCap tx.EffectiveGasFeeCap reuseNonceGasChange
    gasTipCap := scaleCap tx.EffectiveGasTipCap reuseNonceGasChange }

/-- `nonceTracker.setTransaction`: `none` is the nil dereference of a missing
configuration entry. -/
def nonceTracker.setTransaction (nt : nonceTracker) (now : Int) (tx : EthTransaction)
    (network : Nat) : Option nonceTracker :=
  match nt.networkConfig network with
  | none => none
  | some config =>
    some { nt with
      addressNonceToTx :=
        mapStore nt.addressNonceToTx (fromNonceKey tx.From tx.Nonce) (trackedOf config now tx) }

/-- `nonceTracker.isReuseNonceActive`. -/
def nonceTracker.isReuseNonceActive (nt : nonceTracker) (networkNum : Nat) : Bool :=
  match nt.networkConfig networkNum with
  | none => false
  | some config => config.EnableCheckSenderNonce

/-- `nonceTracker.track`: the verdict, the hash of the occupant on a duplicate, and the
tracker afterwards; `none` is a panic. -/
def nonceTracker.track (nt : nonceTracker) (now : Int) (tx : EthTransaction) (network : Nat) :
    Option (Bool × Option Bytes × nonceTracker) :=
  match nt.getTransaction tx.From tx.Nonce with
  | none => (nt.setTransaction now tx network).map fun nt => (false, none, nt)
  | some oldTx =>
    if (tx.EffectiveGasFeeCap ≥ oldTx.gasFeeCap ∧ tx.EffectiveGasTipCap ≥ oldTx.gasTipCap)
        ∨ now > oldTx.expireTime then
      (nt.setTransaction now tx network).map fun nt => (false, none, nt)
    else some (true, some oldTx.tx.hash, nt)

/-- `nonceTracker.clean`: every entry whose expiry lies before `now` is deleted. -/
def nonceTracker.clean (nt : nonceTracker) (now : Int) : nonceTracker :=
  { nt with
    addressNonceToTx := fun k =>
      match nt.addressNonceToTx k with
      | none => none
      | some tracked => if now > tracked.expireTime then none else some tracked }

/-! ## The validation orchestrator (`eth_tx_store.go`, lines 25-122) -/

/-- Modelled from the spec: `types.BxTransaction` is not in the sources at hand. The
in-memory transaction object carries hash, content, flags, network number, timestamp,
sender and short identifiers. -/
structure BxTransaction where
  hash : Bytes
  content : Bytes
  flags : Nat
  networkNum : Nat
  timestamp : Int
  sender : Bytes
  shortIDs : List Nat
deriving DecidableEq, Repr

/-- `types.EmptySender`: the all-zero sender. -/
def EmptySender : Bytes := zeros SenderLen

/-- `types.NewBxTransaction(hash, network, flags, timestamp)`. -/
def NewBxTransaction (hash : Bytes) (network flags : Nat) (timestamp : Int) : BxTransaction :=
  { hash := hash, content := [], flags := flags, networkNum := network
    timestamp := timestamp, sender := EmptySender, shortIDs := [] }

/-- `BxTransaction.AddFlags`. -/
def BxTransaction.AddFlags (tx : BxTransaction) (flags : Nat) : BxTransaction :=
  { tx with flags := tx.flags ||| flags }

/-- `BxTransaction.RemoveFlags`. -/
def BxTransaction.RemoveFlags (tx : BxTransaction) (flags : Nat) : BxTransaction :=
  { tx with flags := clearFlags tx.flags flags }

/-- The values stored in `TransactionResult.DebugData`. -/
inductive DebugData where
  /-- The error of the chain-specific decoder. -/
  | parseError
  /-- The chain-ID mismatch error of `add`. -/
  | chainIDMismatch (hash : Bytes) (txChainID : Int) (network : Nat) (networkChainID : Int)
  /-- The reuse-nonce message of `add`. -/
  | reuseNonce (hash sender : Bytes) (nonce : Nat) (otherTx : Option Bytes)
      (networkChainID : Int)
  /-- Debug data written by the base store. -/
  | fromStore (code : Nat)
deriving DecidableEq, Repr

/-- `TransactionResult`, the return record of every store operation. -/
structure TransactionResult where
  Transaction : BxTransaction
  NewContent : Bool := false
  FailedValidation : Bool := false
  Reprocess : Bool := false
  Nonce : Nat := 0
  DebugData : Option DebugData := none
deriving DecidableEq, Repr

/-- The embedded `BxTxStore`, which is not in the sources at hand: its state and the two
methods `add` calls on it. -/
structure BaseStore (σ : Type) where
  HasContent : σ → Bytes → Bool
  Add : σ → Bytes → Bytes → Nat → Nat → Bool → Nat → Int → Int → Bytes → TransactionResult × σ

/-- `EthTxStore`: the embedded base store and nonce tracker. -/
structure EthTxStore (σ : Type) where
  BxTxStore : σ
  nonceTracker : nonceTracker

/-- The calls `add` makes on its collaborators, in order. -/
inductive Event where
  /-- `BlockchainTransaction(sender)`, the chain-specific decoder. -/
  | parse (sender : Bytes)
  /-- `BxTxStore.Add`. -/
  | storeAdd
  /-- `nonceTracker.track`. -/
  | track
deriving DecidableEq, Repr

/-- Lines 89-121 of `EthTxStore.add`: the call of the base store and the nonce policy.
`blockchainTx` is the transaction parsed during validation, if any. -/
def EthTxStore.addStored {σ : Type} (c : Consts) (base : BaseStore σ)
    (parse : BxTransaction → Bytes → Option EthTransaction) (now : Int) (t : EthTxStore σ)
    (hash content : Bytes) (shortID network flags : Nat) (timestamp networkChainID : Int)
    (sender : Bytes) (blockchainTx : Option EthTransaction) (log : List Event) :
    Option (TransactionResult × EthTxStore σ × List Event) :=
  let stored := base.Add t.BxTxStore hash content shortID network false flags timestamp
    networkChainID sender
  let result := stored.1
  let t := { t with BxTxStore := stored.2 }
  let log := log ++ [Event.storeAdd]
  if !result.NewContent || result.FailedValidation then some (result, t, log)
  else if !t.nonceTracker.isReuseNonceActive network then some (result, t, log)
  else
    let parsed : Option EthTransaction × List Event :=
      match blockchainTx with
      | some ethTx => (some ethTx, log)
      | none => (parse result.Transaction sender, log ++ [Event.parse sender])
    match parsed.1 with
    | none => some ({ result with FailedValidation := true }, t, parsed.2)
    | some ethTx =>
      let result := { result with Nonce := ethTx.Nonce }
      match t.nonceTracker.track now ethTx network with
      | none => none
      | some (seenNonce, otherTx, nt) =>
        let t := { t with nonceTracker := nt }
        let log := parsed.2 ++ [Event.track]
        if !seenNonce then some (result, t, log)
        else
          some ({ result with
            Transaction := result.Transaction.AddFlags c.TFReusedNonce
            DebugData := some (DebugData.reuseNonce result.Transaction.hash ethTx.From
              ethTx.Nonce otherTx networkChainID) }, t, log)

/-- `EthTxStore.add`: the result, the store afterwards and the calls made; `none` is a
panic. -/
def EthTxStore.add {σ : Type} (c : Consts) (base : BaseStore σ)
    (parse : BxTransaction → Bytes → Option EthTransaction) (now : Int) (t : EthTxStore σ)
    (hash content : Bytes) (shortID network : Nat) (validate : Bool) (flags : Nat)
    (timestamp networkChainID : Int) (sender : Bytes) :
    Option (TransactionResult × EthTxStore σ × List Event) :=
  let transaction := NewBxTransaction hash network flags timestamp
  if validate && !base.HasContent t.BxTxStore hash then
    let transaction := { transaction with content := content }
    match parse transaction EmptySender with
    | none =>
      some ({ Transaction := transaction, FailedValidation := true
              DebugData := some DebugData.parseError }, t, [Event.parse EmptySender])
    | some ethTx =>
      let txChainID := ethTx.ChainID
      if networkChainID ≠ 0 ∧ txChainID ≠ 0 ∧ networkChainID ≠ txChainID then
        some ({ Transaction := transaction, FailedValidation := true
                DebugData := some (DebugData.chainIDMismatch hash txChainID network
                  networkChainID) }, t, [Event.parse EmptySender])
      else
        EthTxStore.addStored c base parse now t hash content shortID network transaction.flags
          timestamp networkChainID (copyInto sender ethTx.From) (some ethTx)
          [Event.parse EmptySender]
  else
    EthTxStore.addStored c base parse now t hash content shortID network transaction.flags
      timestamp networkChainID sender none []

/-- `EthTxStore.Add`. -/
def EthTxStore.Add {σ : Type} (c : Consts) (base : BaseStore σ)
    (parse : BxTransaction → Bytes → Option EthTransaction) (now : Int) (t : EthTxStore σ)
    (hash content : Bytes) (shortID network : Nat) (validate : Bool) (flags : Nat)
    (timestamp networkChainID : Int) (sender : Bytes) :
    Option (TransactionResult × EthTxStore σ × List Event) :=
  (EthTxStore.add c base parse now t hash content shortID network validate flags timestamp
      networkChainID sender).map fun out =>
    let result := out.1
    if IsReuseSenderNonce c result.Transaction.flags then
      ({ result with
          Transaction := result.Transaction.RemoveFlags c.TFDeliverToNode
          Reprocess := false }, out.2)
    else out

/-! ## Sample data for the tracker -/

/-- A configuration entry with checking enabled, change factor `1.0` and a reuse delay
of 60 seconds. -/
def sampleNetwork : BlockchainNetwork :=
  { EnableCheckSenderNonce := true
    AllowGasPriceChangeReuseSenderNonce := ⟨1, 0⟩
    AllowTimeReuseSenderNonce := 60 }

/-- A tracker with no entries whose configuration knows the single network `network`. -/
def emptyTracker (network : Nat) (config : BlockchainNetwork) : nonceTracker :=
  { addressNonceToTx := fun _ => none
    networkConfig := fun n => if n = network then some config else none }

/-- A parsed transaction of the given sender and nonce with the given hash and caps. -/
def sampleTx (hash sender : Bytes) (nonce : Nat) (feeCap tipCap : Int) : EthTransaction :=
  { hash := hash, From := sender, Nonce := nonce
    EffectiveGasFeeCap := feeCap, EffectiveGasTipCap := tipCap, ChainID := 1 }

/-- A tracker whose only entry is the one recorded for `tx` at clock reading `now`. -/
def occupiedTracker (network : Nat) (config : BlockchainNetwork) (now : Int)
    (tx : EthTransaction) : nonceTracker :=
  { addressNonceToTx :=
      mapStore (fun _ => none) (fromNonceKey tx.From tx.Nonce) (trackedOf config now tx)
    networkConfig := fun n => if n = network then some config else none }

/-! ## Sample data for the orchestrator -/

/-- A choice of the constants: header of 72 bytes, account ID of 36, wallet ID of 42,
next-validator protocols 23 and 24, and one bit per flag. -/
def sampleConsts : Consts :=
  { BroadcastHeaderLen := 72, AccountIDLen := 36, WalletIDLen := 42
    NextValidatorProtocol := 23, NextValidatorMultipleProtocol := 24
    TFPaidTx := 1, TFStatusMonitoring := 1024, TFNonceMonitoring := 2048
    TFRePropagate := 4096, TFEnterpriseSender := 8192, TFEliteSender := 16384
    TFDeliverToNode := 4, TFReusedNonce := 512, TFNextValidator := 256 }

/-- A stateless base store that holds no content and reports every transaction as new. -/
def sampleStore : BaseStore Unit :=
  { HasContent := fun _ _ => false
    Add := fun s hash content _ network _ flags timestamp _ sender =>
      ({ Transaction :=
           { NewBxTransaction hash network flags timestamp with
               content := content, sender := sender }
         NewContent := true }, s) }

/-- A stateless base store that holds no content, reports every transaction as new and
sets `Reprocess` on its result. -/
def reprocessStore : BaseStore Unit :=
  { HasContent := fun _ _ => false
    Add := fun s hash content _ network _ flags timestamp _ sender =>
      ({ Transaction :=
           { NewBxTransaction hash network flags timestamp with
               content := content, sender := sender }
         NewContent := true
         Reprocess := true }, s) }

/-- A decoder that accepts exactly the non-empty contents, reading the nonce from the
first byte. -/
def sampleParse (tx : BxTransaction) (_ : Bytes) : Option EthTransaction :=
  match tx.content with
  | [] => none
  | b :: _ => some (sampleTx tx.hash [7] b.val 100 10)

/-! ## The wire layout of §4.1 -/

/-- A source string in a slot of `w` bytes: cut to `w` bytes, or followed by the zero
bytes of the slot it does not cover. -/
def padTo (w : Nat) (src : Bytes) : Bytes := src.take w ++ zeros (w - src.length)

/-- The first `BroadcastHeaderLen` bytes of a packed message. -/
def Tx.headerBytes (c : Consts) (x : Ext) (m : Tx) (protocol : Nat) : Bytes :=
  (x.packHeader m.header (Tx.size c m protocol) protocol ++ zeros c.BroadcastHeaderLen).take
    c.BroadcastHeaderLen

/-- The flags as `Pack` writes them: masked below protocol 20. -/
def Tx.wireFlags (c : Consts) (m : Tx) (protocol : Nat) : Nat :=
  if protocol < 20 then m.flags &&& legacyFlagMask c else m.flags

/-- The timestamp field of the layout table. -/
def Tx.timestampBytes (x : Ext) (m : Tx) (protocol : Nat) : Bytes :=
  if protocol < 21 then putLE 4 (x.secondsPlusOne m.timestamp % 2 ^ 32)
  else if protocol < FullTxTimeStampProtocol then putLE 8 (x.secondsBits m.timestamp % 2 ^ 64)
  else putLE 4 (packShortTimestamp m.timestamp)

/-- The fallback and wallet-ID fields of the layout table. -/
def Tx.nextValidatorBytes (c : Consts) (m : Tx) (protocol : Nat) : Bytes :=
  if protocol ≥ c.NextValidatorMultipleProtocol then
    if IsNextValidator c m.flags then
      putLE 2 (m.fallback % 2 ^ 16) ++ (m.walletIDs.map (padTo c.WalletIDLen)).flatten
    else []
  else if protocol ≥ c.NextValidatorProtocol then
    if IsNextValidator c m.flags then
      putLE 2 (m.fallback % 2 ^ 16) ++ padTo c.WalletIDLen (m.walletIDs.headD [])
    else []
  else []

/-- The account-ID field of the layout table. -/
def Tx.accountIDBytes (m : Tx) (protocol : Nat) : Bytes :=
  if protocol < 22 then [] else m.accountID

/-- The sender field of the layout table: present only with content, from
`SenderProtocol` on. -/
def Tx.senderBytes (m : Tx) (protocol : Nat) : Bytes :=
  if m.content.length > 0 ∧ ¬ protocol < SenderProtocol then m.sender else []

/-- The message of the layout table: header, short ID, flags, timestamp, fallback and
wallet IDs, account ID, content, sender, control byte. -/
def Tx.wire (c : Consts) (x : Ext) (m : Tx) (protocol : Nat) : Bytes :=
  Tx.headerBytes c x m protocol ++ putLE 4 (m.shortID % 2 ^ 32)
    ++ putLE 2 (Tx.wireFlags c m protocol % 2 ^ 16)
    ++ Tx.timestampBytes x m protocol ++ Tx.nextValidatorBytes c m protocol
    ++ Tx.accountIDBytes m protocol ++ m.content ++ Tx.senderBytes m protocol
    ++ [x.controlByte]

/-- The timestamp `Unpack` reconstructs from the timestamp field `Pack` wrote for `t`,
with the decoder's clock at `now`. -/
def Tx.decodedTimestamp (x : Ext) (now : Int) (protocol : Nat) (t : Int) : Int :=
  if protocol < 21 then wrapI64 (((x.secondsPlusOne t % 2 ^ 32 : Nat) : Int) * 1000000000)
  else if protocol < FullTxTimeStampProtocol then
    wrapI64 (x.secondsOfBits (x.secondsBits t % 2 ^ 64) * 1000000000)
  else decodeTimestamp now (packShortTimestamp t)

/-- The field types of `Tx`: the account ID is an array of `AccountIDLen` bytes, the
sender one of `SenderLen` bytes, the short ID a `uint32`, flags and fallback `uint16`. -/
def Tx.WellTyped (c : Consts) (m : Tx) : Prop :=
  m.accountID.length = c.AccountIDLen ∧ m.sender.length = SenderLen ∧
    m.shortID < 2 ^ 32 ∧ m.flags < 2 ^ 16 ∧ m.fallback < 2 ^ 16

instance (c : Consts) (m : Tx) : Decidable (Tx.WellTyped c m) := by
  unfold Tx.WellTyped; infer_instance

/-- The optional fields of `m` are consistent with the feature set of `protocol`: a field
the protocol does not carry has the value a fresh receiver holds. No account ID below
protocol 22; no sender below `SenderProtocol` or without content; below
`NextValidatorProtocol` no wallet-ID slots and no fallback; from it on, two wallet IDs
of `WalletIDLen` bytes when the next-validator flag is set, and two empty wallet IDs and
no fallback when it is clear. -/
def Tx.ConsistentWith (c : Consts) (m : Tx) (protocol : Nat) : Prop :=
  (protocol < 22 → m.accountID = zeros c.AccountIDLen) ∧
  (protocol < SenderProtocol ∨ m.content = [] → m.sender = zeros SenderLen) ∧
  (protocol < c.NextValidatorProtocol → m.walletIDs = [] ∧ m.fallback = 0) ∧
  (c.NextValidatorProtocol ≤ protocol → IsNextValidator c m.flags = true →
    m.walletIDs.length = 2 ∧ ∀ w ∈ m.walletIDs, w.length = c.WalletIDLen) ∧
  (c.NextValidatorProtocol ≤ protocol → IsNextValidator c m.flags = false →
    m.walletIDs = [[], []] ∧ m.fallback = 0)

instance (c : Consts) (m : Tx) (protocol : Nat) : Decidable (Tx.ConsistentWith c m protocol) := by
  unfold Tx.ConsistentWith; infer_instance

/-! ## Sample data for the codec -/

/-- A stand-in for the code outside the excerpt: a header of four start bytes, a
twelve-byte type, the payload length, the hash, the network number and the source ID;
control byte `1`; whole seconds in place of the `float64` encodings. -/
def sampleExt : Ext :=
  { packHeader := fun h len _ =>
      [0xff, 0xfe, 0xfd, 0xfc] ++ [116, 120] ++ zeros 10 ++ putLE 4 (len - 20)
        ++ (h.hash ++ zeros 32).take 32 ++ putLE 4 h.networkNum
        ++ (h.sourceID ++ zeros 16).take 16
    unpackHeader := fun buf _ =>
      { hash := (buf.drop 20).take 32, networkNum := readLE buf 52 4
        sourceID := (buf.drop 56).take 16 }
    controlByte := 1
    secondsPlusOne := fun ns => (ns / 1000000000 + 1).toNat
    secondsBits := fun ns => (ns / 1000000000).toNat
    secondsOfBits := fun bits => bits }

/-- A transaction as `NewTx` builds it: two empty wallet IDs, no short ID, the given
flags, content, timestamp and account ID. -/
def sampleMsg (flags : Nat) (content : Bytes) (timestamp : Int) (accountID : Bytes) : Tx :=
  { header := { hash := zeros 32, networkNum := 5, sourceID := zeros 16 }
    shortID := 0, flags := flags, walletIDs := [[], []], fallback := 0
    timestamp := timestamp, accountID := accountID, content := content, quota := 0
    sender := zeros SenderLen }

/-! ## The threshold of `setTransaction` in the words of §4.3 -/

/-- The threshold as the specification words it: the product of the cap and the factor
`mant * 2^exp`, converted to an integer by truncation toward zero. -/
def specThreshold (cap : Int) (factor : Float64) : Int :=
  if 0 ≤ factor.exp then cap * factor.mant * 2 ^ factor.exp.toNat
  else (cap * factor.mant).tdiv (2 ^ (-factor.exp).toNat)

/-- The exact product of the cap and the factor's mantissa is representable with the
precision `max(cap.BitLen(), 64)` of the `big.Float` that receives it: the bits beyond
the precision are zero. -/
def FitsPrecision (cap : Int) (factor : Float64) : Prop :=
  2 ^ (bitLen (cap * factor.mant).natAbs - max (bitLen cap.natAbs) 64)
    ∣ (cap * factor.mant).natAbs

instance (cap : Int) (factor : Float64) : Decidable (FitsPrecision cap factor) := by
  unfold FitsPrecision; infer_instance

/-! ## The sweep of the nonce tracker as a loop (`eth_tx_store.go`, lines 240-246) -/

/-- `SyncMap.Delete`. -/
def mapDelete (m : Bytes → Option trackedTx) (k : Bytes) : Bytes → Option trackedTx :=
  fun k' => if k' = k then none else m k'

/-- The `Range` loop of `nonceTracker.clean` over the keys `Range` visits: the callback
deletes the entry of a visited key when `currentTime.After(tracked.expireTime)`. -/
def cleanRange (currentTime : Int) :
    (Bytes → Option trackedTx) → List Bytes → (Bytes → Option trackedTx)
  | m, [] => m
  | m, key :: rest =>
    match m key with
    | none => cleanRange currentTime m rest
    | some tracked =>
      if currentTime > tracked.expireTime then cleanRange currentTime (mapDelete m key) rest
      else cleanRange currentTime m rest

/-! ## Construction, clearing and cloning (`tx.go`, lines 37-59 and 138-237) -/

/-- Modelled from the spec: `SourceIDLen` is not in the sources at hand; the source
identifier of the header is an array of 16 bytes, as in `Tx.empty`. -/
def SourceIDLen : Nat := 16

/-- Modelled from the spec: `types.ShortIDEmpty` is not in the sources at hand; the short
identifier "may be unset", and the unset value of the `uint32` is zero. -/
def ShortIDEmpty : Nat := 0

/-- Modelled from the spec: `types.EmptyAccountID` is not in the sources at hand; it is
the empty string of the string type `types.AccountID`. -/
def EmptyAccountID : Bytes := []

/-- The operand `^mask` of `m.flags &= ^mask` on the 16-bit flag type. -/
def notFlags (mask : Nat) : Nat := (2 ^ 16 - 1) ^^^ (mask % 2 ^ 16)

/-- `Tx.SetAccountID`: `copy(m.accountID[:], accountID)`. -/
def Tx.SetAccountID (m : Tx) (accountID : Bytes) : Tx :=
  { m with accountID := copyInto m.accountID accountID }

/-- `NewTx`, with the clock reading `now`; `none` is one of its two panics. The setters
of the embedded header, `SetNetworkNum` and `SetHash`, assign the field. -/
def NewTx (c : Consts) (now : Int) (hash content : Bytes) (networkNum flags : Nat)
    (accountID : Bytes) : Option Tx := do
  let tx := Tx.empty c
  let tx ←
    if accountID ≠ EmptyAccountID then
      if !IsPaid c flags then none else some (tx.SetAccountID accountID)
    else some tx
  if accountID = EmptyAccountID ∧ IsPaid c flags = true then none
  else
    let tx := { tx with flags := flags }
    let tx := { tx with header := { tx.header with networkNum := networkNum } }
    let tx := { tx with content := content }
    let tx := { tx with header := { tx.header with hash := hash } }
    let tx := { tx with timestamp := now }
    some { tx with walletIDs := [[], []] }

/-- `Tx.ClearProtectedAttributes`. -/
def Tx.ClearProtectedAttributes (c : Consts) (m : Tx) : Tx :=
  let m := { m with shortID := ShortIDEmpty }
  let m := { m with header := { m.header with sourceID := zeros SourceIDLen } }
  let m := { m with flags := m.flags &&& notFlags c.TFDeliverToNode }
  let m := { m with flags := m.flags &&& notFlags c.TFEnterpriseSender }
  let m := { m with flags := m.flags &&& notFlags c.TFEliteSender }
  if !IsPaid c m.flags then { m with accountID := zeros c.AccountIDLen } else m

/-- `Tx.ClearInternalAttributes`. -/
def Tx.ClearInternalAttributes (c : Consts) (m : Tx) : Tx :=
  let m := { m with header := { m.header with sourceID := zeros SourceIDLen } }
  let m := { m with accountID := zeros c.AccountIDLen }
  let m := { m with walletIDs := [[], []] }
  let m := { m with flags := m.flags &&& notFlags c.TFEnterpriseSender }
  let m := { m with flags := m.flags &&& notFlags c.TFEliteSender }
  { m with flags := m.flags &&& notFlags c.TFPaidTx }

/-- `Tx.CompactClone`: the fields the composite literal leaves out hold their zero
values, as in `Tx.empty`. -/
def Tx.CompactClone (c : Consts) (m : Tx) : Tx :=
  let tx : Tx :=
    { Tx.empty c with
      header := m.header
      shortID := m.shortID
      timestamp := m.timestamp
      flags := m.flags
      accountID := m.accountID
      content := []
      quota := m.quota }
  tx.ClearInternalAttributes c

/-- `Tx.CleanClone`: the fields the composite literal leaves out hold their zero values,
as in `Tx.empty`. -/
def Tx.CleanClone (c : Consts) (m : Tx) : Tx :=
  let tx : Tx :=
    { Tx.empty c with
      header := m.header
      shortID := m.shortID
      timestamp := m.timestamp
      flags := m.flags
      accountID := m.accountID
      content := m.content
      quota := m.quota
      sender := m.sender
      walletIDs := [[], []] }
  tx.ClearInternalAttributes c

/-- `Tx.Clone`: every field is copied. -/
def Tx.Clone (m : Tx) : Tx :=
  { header := m.header, shortID := m.shortID, flags := m.flags, walletIDs := m.walletIDs
    fallback := m.fallback, timestamp := m.timestamp, accountID := m.accountID
    content := m.content, quota := m.quota, sender := m.sender }

/-! ## Wallet-ID slots with the index checked (`tx.go`, lines 124-131) -/

/-- `Tx.SetWalletID` with the index an `int` as in the source and the index expression
`m.walletIDs[index]` checked: `none` is the run-time panic of an index that is negative
or not below the number of slots. On an index in range it is `Tx.SetWalletID`. -/
def Tx.SetWalletIDChecked (m : Tx) (index : Int) (id : Bytes) : Option Tx :=
  if index ≥ 2 then some m
  else if 0 ≤ index ∧ index.toNat < m.walletIDs.length then
    some { m with walletIDs := m.walletIDs.set index.toNat id }
  else none

/-! ## Reading a decimal string back -/

/-- The number a string of decimal digits denotes. -/
def digitsValue (ds : Bytes) : Nat := ds.foldl (fun v d => 10 * v + (d.val - 48)) 0

/-! ## Shutdown of the sweep (`eth_tx_store.go`, lines 124-129 and 222-233) -/

/-- What a goroutine is ready to do on the unbuffered channel `quit` at a program
point: a communication happens when one goroutine is ready to send and another to
receive. -/
inductive ChanOp where
  | send
  | recv
  | idle
deriving DecidableEq, Repr

/-- The program points of `EthTxStore.Stop`: before `t.BxTxStore.Stop()` returns, at
`t.nonceTracker.quit <- true`, at `<-t.nonceTracker.quit`, and after its return. -/
inductive StopPoint where
  | baseStop
  | sendQuit
  | recvQuit
  | returned
deriving DecidableEq, Repr

/-- The program points of `nonceTracker.cleanLoop`: at the `select`, and after the
`return` of the case `<-nt.quit`. -/
inductive LoopPoint where
  | atSelect
  | exited
deriving DecidableEq, Repr

/-- The operation of `Stop` on `quit` at each of its program points. -/
def StopPoint.quitOp : StopPoint → ChanOp
  | .sendQuit => .send
  | .recvQuit => .recv
  | _ => .idle

/-- The operation of `cleanLoop` on `quit` at each of its program points: the `select`
receives from it; the case `<-nt.quit` stops the ticker and returns, and no statement
of the loop sends on it. -/
def LoopPoint.quitOp : LoopPoint → ChanOp
  | .atSelect => .recv
  | .exited => .idle

/-- The state of a shutdown: where `Stop` and the sweep goroutine stand, and how many
times `clean()` has run. -/
structure Shutdown where
  stop : StopPoint
  loop : LoopPoint
  cleans : Nat
deriving DecidableEq, Repr

/-- The steps of the two goroutines. -/
inductive Move where
  /-- Modelled from the spec: `BxTxStore.Stop()` is not in the sources at hand; it
  "terminates the periodic sweep and waits for its termination", so it returns. -/
  | baseStopReturns
  /-- The ticker fires and the `select` takes the case that runs `clean()`. -/
  | alert
  /-- A value passes on `quit` from `Stop` to the loop. -/
  | quitToLoop
  /-- A value passes on `quit` from the loop to `Stop`. -/
  | quitToStop
deriving DecidableEq, Repr

/-- One step of the shutdown; `none` when the step is not enabled. -/
def Shutdown.step (s : Shutdown) : Move → Option Shutdown
  | .baseStopReturns =>
    if s.stop = .baseStop then some { s with stop := .sendQuit } else none
  | .alert =>
    if s.loop = .atSelect then some { s with cleans := s.cleans + 1 } else none
  | .quitToLoop =>
    if s.stop.quitOp = .send ∧ s.loop.quitOp = .recv then
      some { s with stop := .recvQuit, loop := .exited }
    else none
  | .quitToStop =>
    if s.loop.quitOp = .send ∧ s.stop.quitOp = .recv then
      some { s with stop := .returned }
    else none

/-- A sequence of steps. -/
def Shutdown.run : Shutdown → List Move → Option Shutdown
  | s, [] => some s
  | s, m :: rest => (s.step m).bind fun s => Shutdown.run s rest

/-- The call of `Stop` on a store whose sweep goroutine stands at its `select`. -/
def Shutdown.init : Shutdown := { stop := .baseStop, loop := .atSelect, cleans := 0 }

/-! ## Batches of the gRPC transaction feed (`client_handler_grpc.go`) -/

/-- `maxTxsInSingleResponse`. -/
def maxTxsInSingleResponse : Nat := 50

/-- Modelled from the spec: `types.NewTransactionNotification` is not in the sources at
hand; these are the values `makeTransaction` reads from it. -/
structure NewTransactionNotification where
  Sender : Bytes
  LocalRegion : Bool
  RawTx : Bytes
deriving DecidableEq, Repr

/-- `pb.Tx`, with the fields `makeTransaction` fills. -/
structure PbTx where
  From : Bytes
  LocalRegion : Bool
  Time : Int
  RawTx : Bytes
deriving DecidableEq, Repr

/-- `makeTransaction`, with `time.Now().UnixNano()` the reading `now`. -/
def makeTransaction (now : Int) (transaction : NewTransactionNotification) : PbTx :=
  { From := transaction.Sender, LocalRegion := transaction.LocalRegion, Time := now
    RawTx := transaction.RawTx }

/-- `processTx`: `filterAndInclude`, which is not in the sources at hand, is a parameter
that tells whether it returned a result for the transaction. -/
def processTx (filterAndInclude : NewTransactionNotification → Bool) (now : Int)
    (notification : NewTransactionNotification) (multiTxsResponse : List PbTx) : List PbTx :=
  if filterAndInclude notification then
    multiTxsResponse ++ [makeTransaction now notification]
  else multiTxsResponse

/-- One iteration of the loop of `handleTransactions` as the environment shapes it: the
notification received, the clock reading, `len(sub.FeedChan)` after the receive, and
whether `stream.Send` succeeds. -/
structure FeedStep where
  notification : NewTransactionNotification
  now : Int
  feedChanLen : Nat
  sendOk : Bool
deriving DecidableEq, Repr

/-- The loop of `handleTransactions` (lines 217-230) from the pending batch
`txsResponse`: the replies handed to `stream.Send`, in order, and whether the handler
returns `nil` (the feed channel was closed) rather than the error of a send. -/
def handleLoop (filterAndInclude : NewTransactionNotification → Bool) :
    List PbTx → List FeedStep → List (List PbTx) × Bool
  | _, [] => ([], true)
  | txsResponse, step :: rest =>
    let txsResponse := processTx filterAndInclude step.now step.notification txsResponse
    if step.feedChanLen = 0 ∨ txsResponse.length = maxTxsInSingleResponse then
      if step.sendOk then
        let out := handleLoop filterAndInclude [] rest
        (txsResponse :: out.1, out.2)
      else ([txsResponse], false)
    else handleLoop filterAndInclude txsResponse rest

/-- `handleTransactions` after a successful subscription: the loop starts with an empty
batch (`var txsResponse []*pb.Tx`). -/
def handleTransactions (filterAndInclude : NewTransactionNotification → Bool)
    (steps : List FeedStep) : List (List PbTx) × Bool :=
  handleLoop filterAndInclude [] steps

/-! # Lemmas and theorems -/

/-! ### Arithmetic form of the merge -/

theorem and_highMask (n : Nat) (h : n < 2 ^ 64) :
    n &&& 0xFFFFFC0000000000 = n / 2 ^ 42 * 2 ^ 42 := by
  apply Nat.eq_of_testBit_eq
  intro i
  have hm : (0xFFFFFC0000000000 : Nat) = 2 ^ 42 * (2 ^ 22 - 1) := by norm_num
  rw [Nat.testBit_and, hm, Nat.mul_comm (n / 2 ^ 42), Nat.testBit_mul_pow_two,
    Nat.testBit_mul_pow_two, Nat.testBit_two_pow_sub_one, ← Nat.shiftRight_eq_div_pow,
    Nat.testBit_shiftRight]
  by_cases h1 : 42 ≤ i
  · by_cases h2 : i - 42 < 22
    · have : 42 + (i - 42) = i := by omega
      simp [h1, h2, this]
    · have h3 : n.testBit i = false := by
        apply Nat.testBit_lt_two_pow
        calc n < 2 ^ 64 := h
          _ ≤ 2 ^ i := Nat.pow_le_pow_right (by norm_num) (by omega)
      have : 42 + (i - 42) = i := by omega
      simp [h1, h2, this, h3]
  · simp [h1]

theorem merge_eq (a n : Nat) (ha : a < 2 ^ 42) (h : n < 2 ^ 64) :
    a ||| (n &&& 0xFFFFFC0000000000) = n / 2 ^ 42 * 2 ^ 42 + a := by
  rw [and_highMask n h, Nat.or_comm, Nat.mul_comm]
  exact (Nat.mul_add_lt_is_or ha _).symm

theorem wrapU64_cast (now : Int) : ((wrapU64 now : Nat) : Int) = now % 2 ^ 64 := by
  unfold wrapU64
  have : (0 : Int) ≤ now % 2 ^ 64 := Int.emod_nonneg _ (by norm_num)
  omega

theorem wrapU64_lt (now : Int) : wrapU64 now < 2 ^ 64 := by
  have h := wrapU64_cast now
  have : now % 2 ^ 64 < 2 ^ 64 := Int.emod_lt_of_pos _ (by norm_num)
  omega

theorem merged_cast (now : Int) (x : Nat) (hx : x < 2 ^ 32) :
    (((x % 2 ^ 32 * 2 ^ 10) % 2 ^ 64 ||| (wrapU64 now &&& 0xFFFFFC0000000000) : Nat) : Int)
      = (now % 2 ^ 64) / 2 ^ 42 * 2 ^ 42 + (x : Int) * 1024 := by
  have h1 : (x % 2 ^ 32 * 2 ^ 10) % 2 ^ 64 = x * 1024 := by omega
  rw [h1, merge_eq (x * 1024) (wrapU64 now) (by omega) (wrapU64_lt now)]
  push_cast
  rw [wrapU64_cast]
  norm_num

theorem decodeTimestamp_eq_arith (now : Int) (x : Nat) (hx : x < 2 ^ 32)
    (hlo : -(2 ^ 62) ≤ now) (hhi : now < 2 ^ 62) :
    decodeTimestamp now x = decodeArith now x := by
  unfold decodeTimestamp decodeArith
  simp only [merged_cast now x hx, wrapI64, hourNanos, wrapPeriod]
  have hx' : ((x : Nat) : Int) < 4294967296 := by omega
  have hx0 : (0 : Int) ≤ (x : Int) := by omega
  generalize (x : Int) = y at hx' hx0 ⊢
  split_ifs <;> omega

/-- Unfolded form of the two branch conditions and of the result of `decodeTimestamp`,
for a clock reading anywhere in the `int64` range. -/
theorem decodeTimestamp_unfold (now : Int) (x : Nat) (hx : x < 2 ^ 32) :
    decodeTimestamp now x =
      (let r0 : Int := wrapI64 ((now % 2 ^ 64) / 2 ^ 42 * 2 ^ 42 + (x : Int) * 1024)
       let r1 : Int := if wrapI64 (r0 - now) ≥ 3600000000000 then wrapI64 (r0 - 2 ^ 42) else r0
       if wrapI64 (now - r1) ≥ 3600000000000 then wrapI64 (r1 + 2 ^ 42) else r1) := by
  unfold decodeTimestamp
  simp only [merged_cast now x hx, hourNanos, wrapPeriod]
  norm_num

theorem overflowTaken_unfold (now : Int) (x : Nat) (hx : x < 2 ^ 32) :
    overflowTaken now x =
      decide (wrapI64 (wrapI64 ((now % 2 ^ 64) / 2 ^ 42 * 2 ^ 42 + (x : Int) * 1024) - now)
        ≥ 3600000000000) := by
  unfold overflowTaken
  simp only [merged_cast now x hx, hourNanos]

theorem underflowTaken_unfold (now : Int) (x : Nat) (hx : x < 2 ^ 32) :
    underflowTaken now x =
      (let r0 : Int := wrapI64 ((now % 2 ^ 64) / 2 ^ 42 * 2 ^ 42 + (x : Int) * 1024)
       let r1 : Int := if wrapI64 (r0 - now) ≥ 3600000000000 then wrapI64 (r0 - 2 ^ 42) else r0
       decide (wrapI64 (now - r1) ≥ 3600000000000)) := by
  unfold underflowTaken
  simp only [merged_cast now x hx, hourNanos, wrapPeriod]
  norm_num

theorem packShortTimestamp_lt (t : Int) : packShortTimestamp t < 2 ^ 32 := by
  unfold packShortTimestamp
  have : t / 1024 % 2 ^ 32 < 2 ^ 32 := Int.emod_lt_of_pos _ (by norm_num)
  omega

theorem packShortTimestamp_cast (t : Int) :
    ((packShortTimestamp t : Nat) : Int) = t / 1024 % 2 ^ 32 := by
  unfold packShortTimestamp
  have : (0 : Int) ≤ t / 1024 % 2 ^ 32 := Int.emod_nonneg _ (by norm_num)
  omega

/-! ## C4: timestamp compression under small skew -/

/-- C4 (as stated, refuted): with the original timestamp one nanosecond before a
`2^42` ns boundary and the decoder clock 798046510082 ns (about 13.3 minutes, well
inside 30 minutes) later, `decodeTimestamp` applies no correction and returns a value
`2^42 - 1023` ns after the original. -/
theorem decodeTimestamp_small_skew_counterexample :
    (0 : Int) ≤ 1759218604441599999 ∧
    (1759219402488110081 : Int) - 1759218604441599999 ≤ 1800000000000 ∧
    (1759218604441599999 : Int) - 1759219402488110081 ≤ 1800000000000 ∧
    decodeTimestamp 1759219402488110081 (packShortTimestamp 1759218604441599999)
      = 1759218604441599999 + 4398046510081 ∧
    overflowTaken 1759219402488110081 (packShortTimestamp 1759218604441599999) = false ∧
    underflowTaken 1759219402488110081 (packShortTimestamp 1759218604441599999) = false :=
  ⟨by decide, by decide, by decide, by rfl, by rfl, by rfl⟩

/-- C4 (amended): for every non-negative original timestamp `t` and every decoder
clock value `now` (both `int64`) with `|now - t| ≤ 2^42 - 3600000000000 - 1023` ns
(798046510081 ns, about 13.3 minutes), `decodeTimestamp` applied to the packed field
`uint32(t >> 10)` with the clock at `now` returns `r` with `|r - t| < 1024`; in fact
`r` is `t` with its low ten bits cleared. -/
theorem decodeTimestamp_small_skew (t now : Int) (ht0 : 0 ≤ t) (ht : t < 2 ^ 63)
    (hnow : IsI64 now)
    (h1 : now - t ≤ 798046510081) (h2 : t - now ≤ 798046510081) :
    -1024 < decodeTimestamp now (packShortTimestamp t) - t ∧
    decodeTimestamp now (packShortTimestamp t) - t < 1024 ∧
    decodeTimestamp now (packShortTimestamp t) = t - t % 1024 := by
  rw [decodeTimestamp_unfold now _ (packShortTimestamp_lt t), packShortTimestamp_cast]
  unfold IsI64 at hnow
  simp only [wrapI64]
  split_ifs <;> omega

theorem decodeTimestamp_small_skew_witness :
    -1024 < decodeTimestamp 1759218609441600777 (packShortTimestamp 1759218604441600777)
        - 1759218604441600777 ∧
    decodeTimestamp 1759218609441600777 (packShortTimestamp 1759218604441600777)
        - 1759218604441600777 < 1024 ∧
    decodeTimestamp 1759218609441600777 (packShortTimestamp 1759218604441600777)
        = 1759218604441600777 - 1759218604441600777 % 1024 :=
  decodeTimestamp_small_skew 1759218604441600777 1759218609441600777 (by decide) (by decide)
    (by decide) (by decide) (by decide)

/-! ## C5: the overflow/underflow correction -/

/-- C5 (as stated, refuted): with the decoder clock one hour and one nanosecond after
the original timestamp, `decodeTimestamp` takes the underflow branch and returns a
value exactly `2^42` ns after the original, not one within 1024 ns of it. -/
theorem decodeTimestamp_hour_skew_counterexample :
    (1759222304441600001 : Int) - 1759218704441600000 = 3600000000000 + 1 ∧
    overflowTaken 1759222304441600001 (packShortTimestamp 1759218704441600000) = false ∧
    underflowTaken 1759222304441600001 (packShortTimestamp 1759218704441600000) = true ∧
    decodeTimestamp 1759222304441600001 (packShortTimestamp 1759218704441600000)
      = 1759218704441600000 + 4398046511104 :=
  ⟨by decide, by rfl, by rfl, by rfl⟩

/-- C5 (amended): for every non-negative original timestamp `t` and decoder clock value
`now` lying on opposite sides of a `2^42` ns boundary with
`|now - t| ≤ 2^42 - 3600000000000 - 1023` ns (the case in which merging the clock's high
22 bits gives a value at least one hour away from the clock), `decodeTimestamp` applied
to `uint32(t >> 10)` applies exactly one correction, the overflow one when the clock is
past the boundary and the underflow one when the timestamp is, and returns a value
within 1024 ns of `t`. -/
theorem decodeTimestamp_boundary_correction (t now : Int) (ht0 : 0 ≤ t) (ht : t < 2 ^ 63)
    (hnow : IsI64 now)
    (h1 : now - t ≤ 798046510081) (h2 : t - now ≤ 798046510081)
    (hb : t / 2 ^ 42 ≠ now / 2 ^ 42) :
    ((now / 2 ^ 42 = t / 2 ^ 42 + 1 ∧
        overflowTaken now (packShortTimestamp t) = true ∧
        underflowTaken now (packShortTimestamp t) = false) ∨
     (t / 2 ^ 42 = now / 2 ^ 42 + 1 ∧
        overflowTaken now (packShortTimestamp t) = false ∧
        underflowTaken now (packShortTimestamp t) = true)) ∧
    -1024 < decodeTimestamp now (packShortTimestamp t) - t ∧
    decodeTimestamp now (packShortTimestamp t) - t < 1024 := by
  rw [decodeTimestamp_unfold now _ (packShortTimestamp_lt t),
    overflowTaken_unfold now _ (packShortTimestamp_lt t),
    underflowTaken_unfold now _ (packShortTimestamp_lt t), packShortTimestamp_cast]
  unfold IsI64 at hnow
  simp only [wrapI64, decide_eq_true_eq, decide_eq_false_iff_not]
  split_ifs <;> omega

theorem decodeTimestamp_boundary_correction_witness :
    ((1759219402488110080 / 2 ^ 42 = (1759218604441599999 : Int) / 2 ^ 42 + 1 ∧
        overflowTaken 1759219402488110080 (packShortTimestamp 1759218604441599999) = true ∧
        underflowTaken 1759219402488110080 (packShortTimestamp 1759218604441599999) = false) ∨
     ((1759218604441599999 : Int) / 2 ^ 42 = 1759219402488110080 / 2 ^ 42 + 1 ∧
        overflowTaken 1759219402488110080 (packShortTimestamp 1759218604441599999) = false ∧
        underflowTaken 1759219402488110080 (packShortTimestamp 1759218604441599999) = true)) ∧
    -1024 < decodeTimestamp 1759219402488110080 (packShortTimestamp 1759218604441599999)
        - 1759218604441599999 ∧
    decodeTimestamp 1759219402488110080 (packShortTimestamp 1759218604441599999)
        - 1759218604441599999 < 1024 :=
  decodeTimestamp_boundary_correction 1759218604441599999 1759219402488110080
    (by decide) (by decide) (by decide) (by decide) (by decide) (by decide)

/-! ## C6, C7, C8: the nonce tracker -/

theorem mapStore_same (m : Bytes → Option trackedTx) (k : Bytes) (v : trackedTx) :
    mapStore m k v k = some v := by
  simp [mapStore]

theorem mapStore_other (m : Bytes → Option trackedTx) (k k' : Bytes) (v : trackedTx)
    (h : k' ≠ k) : mapStore m k v k' = m k' := by
  simp [mapStore, h]

theorem setTransaction_of_config (nt : nonceTracker) (now : Int) (tx : EthTransaction)
    (network : Nat) (config : BlockchainNetwork) (hc : nt.networkConfig network = some config) :
    nt.setTransaction now tx network =
      some { nt with
        addressNonceToTx :=
          mapStore nt.addressNonceToTx (fromNonceKey tx.From tx.Nonce)
            (trackedOf config now tx) } := by
  simp [nonceTracker.setTransaction, hc]

/-- C6: for every tracker state, transaction `tx` and network with a configuration entry,
`track` returns, and it reports not-a-duplicate (`false`, no hash) if and only if no
entry exists for `(tx.From, tx.Nonce)`, or the entry's expiry is strictly before the
clock reading, or `tx`'s effective gas fee cap and tip cap both reach the entry's
thresholds; and whenever it reports not-a-duplicate, the entry for `(tx.From, tx.Nonce)`
afterwards is the one computed from `tx` and every other key is unchanged. -/
theorem track_not_duplicate_iff (nt : nonceTracker) (now : Int) (tx : EthTransaction)
    (network : Nat) (config : BlockchainNetwork)
    (hc : nt.networkConfig network = some config) :
    ∃ dup hash nt', nt.track now tx network = some (dup, hash, nt') ∧
      (dup = false ↔
        (nt.getTransaction tx.From tx.Nonce = none ∨
          ∃ old, nt.getTransaction tx.From tx.Nonce = some old ∧
            (old.expireTime < now ∨
              (tx.EffectiveGasFeeCap ≥ old.gasFeeCap ∧
                tx.EffectiveGasTipCap ≥ old.gasTipCap)))) ∧
      (dup = false →
        hash = none ∧
        nt'.getTransaction tx.From tx.Nonce = some (trackedOf config now tx) ∧
        (∀ k, k ≠ fromNonceKey tx.From tx.Nonce →
          nt'.addressNonceToTx k = nt.addressNonceToTx k) ∧
        nt'.networkConfig = nt.networkConfig) := by
  have hset := setTransaction_of_config nt now tx network config hc
  unfold nonceTracker.track
  cases hget : nt.getTransaction tx.From tx.Nonce with
  | none =>
    refine ⟨false, none, { nt with
      addressNonceToTx := mapStore nt.addressNonceToTx (fromNonceKey tx.From tx.Nonce)
        (trackedOf config now tx) }, ?_, ?_, ?_⟩
    · simp [hset]
    · simp
    · intro _
      refine ⟨rfl, ?_, ?_, rfl⟩
      · simp [nonceTracker.getTransaction, mapStore_same]
      · intro k hk
        simp [mapStore_other _ _ _ _ hk]
  | some old =>
    by_cases hcond : (tx.EffectiveGasFeeCap ≥ old.gasFeeCap ∧
        tx.EffectiveGasTipCap ≥ old.gasTipCap) ∨ now > old.expireTime
    · refine ⟨false, none, { nt with
        addressNonceToTx := mapStore nt.addressNonceToTx (fromNonceKey tx.From tx.Nonce)
          (trackedOf config now tx) }, ?_, ?_, ?_⟩
      · simp only [if_pos hcond, hset]
        rfl
      · simp only [true_iff]
        right
        refine ⟨old, rfl, ?_⟩
        rcases hcond with h | h
        · exact Or.inr h
        · exact Or.inl h
      · intro _
        refine ⟨rfl, ?_, ?_, rfl⟩
        · simp [nonceTracker.getTransaction, mapStore_same]
        · intro k hk
          simp [mapStore_other _ _ _ _ hk]
    · refine ⟨true, some old.tx.hash, nt, ?_, ?_, ?_⟩
      · simp only [if_neg hcond]
      · constructor
        · intro h; cases h
        · rintro (h | ⟨old', h', h''⟩)
          · cases h
          · cases h'
            exfalso
            apply hcond
            rcases h'' with h | h
            · exact Or.inr h
            · exact Or.inl h
      · intro h; cases h

theorem track_not_duplicate_iff_witness :
    ∃ dup hash nt',
      (emptyTracker 5 sampleNetwork).track 1000 (sampleTx [1] [7] 5 100 10) 5
        = some (dup, hash, nt') ∧
      (dup = false ↔
        ((emptyTracker 5 sampleNetwork).getTransaction
            (sampleTx [1] [7] 5 100 10).From (sampleTx [1] [7] 5 100 10).Nonce = none ∨
          ∃ old, (emptyTracker 5 sampleNetwork).getTransaction
              (sampleTx [1] [7] 5 100 10).From (sampleTx [1] [7] 5 100 10).Nonce = some old ∧
            (old.expireTime < 1000 ∨
              ((sampleTx [1] [7] 5 100 10).EffectiveGasFeeCap ≥ old.gasFeeCap ∧
                (sampleTx [1] [7] 5 100 10).EffectiveGasTipCap ≥ old.gasTipCap)))) ∧
      (dup = false →
        hash = none ∧
        nt'.getTransaction (sampleTx [1] [7] 5 100 10).From (sampleTx [1] [7] 5 100 10).Nonce
          = some (trackedOf sampleNetwork 1000 (sampleTx [1] [7] 5 100 10)) ∧
        (∀ k, k ≠ fromNonceKey (sampleTx [1] [7] 5 100 10).From
              (sampleTx [1] [7] 5 100 10).Nonce →
          nt'.addressNonceToTx k = (emptyTracker 5 sampleNetwork).addressNonceToTx k) ∧
        nt'.networkConfig = (emptyTracker 5 sampleNetwork).networkConfig) :=
  track_not_duplicate_iff (emptyTracker 5 sampleNetwork) 1000 (sampleTx [1] [7] 5 100 10) 5
    sampleNetwork (by rfl)

/-- C7: whenever `track` reports a duplicate, the returned hash is the hash of the
transaction stored in the `(tx.From, tx.Nonce)` entry before the call, and the tracker
after the call is the tracker before it: that entry's transaction, thresholds and
expiry and every other entry are unchanged. -/
theorem track_duplicate_readonly (nt : nonceTracker) (now : Int) (tx : EthTransaction)
    (network : Nat) (hash : Option Bytes) (nt' : nonceTracker)
    (hrun : nt.track now tx network = some (true, hash, nt')) :
    (∃ old, nt.getTransaction tx.From tx.Nonce = some old ∧ hash = some old.tx.hash) ∧
    nt' = nt ∧ ∀ k, nt'.addressNonceToTx k = nt.addressNonceToTx k := by
  unfold nonceTracker.track at hrun
  cases hget : nt.getTransaction tx.From tx.Nonce with
  | none =>
    rw [hget] at hrun
    cases hs : nt.setTransaction now tx network with
    | none => simp [hs] at hrun
    | some nt2 => simp [hs] at hrun
  | some old =>
    rw [hget] at hrun
    by_cases hcond : (tx.EffectiveGasFeeCap ≥ old.gasFeeCap ∧
        tx.EffectiveGasTipCap ≥ old.gasTipCap) ∨ now > old.expireTime
    · simp only [if_pos hcond] at hrun
      cases hs : nt.setTransaction now tx network with
      | none => simp [hs] at hrun
      | some nt2 => simp [hs] at hrun
    · simp only [if_neg hcond, Option.some.injEq, Prod.mk.injEq, true_and] at hrun
      obtain ⟨h1, h2⟩ := hrun
      subst h1 h2
      exact ⟨⟨old, rfl, rfl⟩, rfl, fun _ => rfl⟩

theorem track_duplicate_readonly_witness :
    (∃ old, (occupiedTracker 5 sampleNetwork 1000 (sampleTx [1] [7] 5 100 10)).getTransaction
        (sampleTx [2] [7] 5 90 10).From (sampleTx [2] [7] 5 90 10).Nonce = some old ∧
      some [(1 : Byte)] = some old.tx.hash) ∧
    occupiedTracker 5 sampleNetwork 1000 (sampleTx [1] [7] 5 100 10)
      = occupiedTracker 5 sampleNetwork 1000 (sampleTx [1] [7] 5 100 10) ∧
    ∀ k, (occupiedTracker 5 sampleNetwork 1000 (sampleTx [1] [7] 5 100 10)).addressNonceToTx k
      = (occupiedTracker 5 sampleNetwork 1000 (sampleTx [1] [7] 5 100 10)).addressNonceToTx k :=
  track_duplicate_readonly (occupiedTracker 5 sampleNetwork 1000 (sampleTx [1] [7] 5 100 10))
    2000 (sampleTx [2] [7] 5 90 10) 5 (some [1])
    (occupiedTracker 5 sampleNetwork 1000 (sampleTx [1] [7] 5 100 10)) (by rfl)

theorem track_of_absent (nt : nonceTracker) (now : Int) (tx : EthTransaction)
    (network : Nat) (config : BlockchainNetwork)
    (hc : nt.networkConfig network = some config)
    (hget : nt.addressNonceToTx (fromNonceKey tx.From tx.Nonce) = none) :
    nt.track now tx network = some (false, none, { nt with
      addressNonceToTx := mapStore nt.addressNonceToTx (fromNonceKey tx.From tx.Nonce)
        (trackedOf config now tx) }) := by
  simp [nonceTracker.track, nonceTracker.getTransaction, hget,
    setTransaction_of_config nt now tx network config hc]

theorem track_of_present (nt : nonceTracker) (now : Int) (tx : EthTransaction)
    (network : Nat) (config : BlockchainNetwork) (old : trackedTx)
    (hc : nt.networkConfig network = some config)
    (hget : nt.addressNonceToTx (fromNonceKey tx.From tx.Nonce) = some old) :
    nt.track now tx network =
      if (tx.EffectiveGasFeeCap ≥ old.gasFeeCap ∧ tx.EffectiveGasTipCap ≥ old.gasTipCap)
          ∨ now > old.expireTime then
        some (false, none, { nt with
          addressNonceToTx := mapStore nt.addressNonceToTx (fromNonceKey tx.From tx.Nonce)
            (trackedOf config now tx) })
      else some (true, some old.tx.hash, nt) := by
  simp only [nonceTracker.track, nonceTracker.getTransaction, hget,
    setTransaction_of_config nt now tx network config hc]
  split_ifs <;> rfl

/-- C8: starting from an empty tracker whose network has change factor `1.0`, for a
sender `S` and nonce 5: tracking tx1 (fee cap 100, tip cap 10) reports not-a-duplicate;
tracking tx2 (90, 10) no later than tx1's expiry reports a duplicate with tx1's hash and
leaves the tracker as it is; tracking tx3 (150, 20) reports not-a-duplicate and makes
tx3 the occupant; tracking tx4 (50, 5) after the reuse delay has elapsed since tx3 was
recorded reports not-a-duplicate. -/
theorem nonce_conflict_scenario (S h1 h2 h3 h4 : Bytes) (network : Nat)
    (config : BlockchainNetwork) (t1 t2 t3 t4 : Int)
    (hfactor : config.AllowGasPriceChangeReuseSenderNonce = ⟨1, 0⟩)
    (hbefore : t2 ≤ t1 + wrapI64 (config.AllowTimeReuseSenderNonce * 1000000000))
    (hafter : t4 > t3 + wrapI64 (config.AllowTimeReuseSenderNonce * 1000000000)) :
    ∃ nt1 nt3 nt4,
      (emptyTracker network config).track t1 (sampleTx h1 S 5 100 10) network
        = some (false, none, nt1) ∧
      nt1.track t2 (sampleTx h2 S 5 90 10) network = some (true, some h1, nt1) ∧
      nt1.track t3 (sampleTx h3 S 5 150 20) network = some (false, none, nt3) ∧
      (nt3.getTransaction S 5).map (fun e => e.tx) = some (sampleTx h3 S 5 150 20) ∧
      nt3.track t4 (sampleTx h4 S 5 50 5) network = some (false, none, nt4) := by
  have hcfg : (emptyTracker network config).networkConfig network = some config := by
    simp [emptyTracker]
  have hs100 : scaleCap 100 ⟨1, 0⟩ = 100 := by rfl
  have hs10 : scaleCap 10 ⟨1, 0⟩ = 10 := by rfl
  have hs150 : scaleCap 150 ⟨1, 0⟩ = 150 := by rfl
  have hs20 : scaleCap 20 ⟨1, 0⟩ = 20 := by rfl
  let key := fromNonceKey S 5
  let nt1 : nonceTracker :=
    { addressNonceToTx := mapStore (emptyTracker network config).addressNonceToTx key
        (trackedOf config t1 (sampleTx h1 S 5 100 10))
      networkConfig := (emptyTracker network config).networkConfig }
  let nt3 : nonceTracker :=
    { addressNonceToTx := mapStore nt1.addressNonceToTx key
        (trackedOf config t3 (sampleTx h3 S 5 150 20))
      networkConfig := nt1.networkConfig }
  let nt4 : nonceTracker :=
    { addressNonceToTx := mapStore nt3.addressNonceToTx key
        (trackedOf config t4 (sampleTx h4 S 5 50 5))
      networkConfig := nt3.networkConfig }
  have hcfg1 : nt1.networkConfig network = some config := hcfg
  have hcfg3 : nt3.networkConfig network = some config := hcfg
  have hget1 : ∀ h f t, nt1.addressNonceToTx
      (fromNonceKey (sampleTx h S 5 f t).From (sampleTx h S 5 f t).Nonce)
        = some (trackedOf config t1 (sampleTx h1 S 5 100 10)) := by
    intro h f t
    exact mapStore_same _ _ _
  have hget3 : ∀ h f t, nt3.addressNonceToTx
      (fromNonceKey (sampleTx h S 5 f t).From (sampleTx h S 5 f t).Nonce)
        = some (trackedOf config t3 (sampleTx h3 S 5 150 20)) := by
    intro h f t
    exact mapStore_same _ _ _
  refine ⟨nt1, nt3, nt4, ?_, ?_, ?_, ?_, ?_⟩
  · exact track_of_absent _ t1 _ network config hcfg (by simp [emptyTracker])
  · rw [track_of_present nt1 t2 _ network config _ hcfg1 (hget1 h2 90 10)]
    have hne : ¬ (((sampleTx h2 S 5 90 10).EffectiveGasFeeCap
          ≥ (trackedOf config t1 (sampleTx h1 S 5 100 10)).gasFeeCap ∧
        (sampleTx h2 S 5 90 10).EffectiveGasTipCap
          ≥ (trackedOf config t1 (sampleTx h1 S 5 100 10)).gasTipCap) ∨
        t2 > (trackedOf config t1 (sampleTx h1 S 5 100 10)).expireTime) := by
      simp only [trackedOf, sampleTx, hfactor, hs100, hs10]
      omega
    rw [if_neg hne]
    rfl
  · rw [track_of_present nt1 t3 _ network config _ hcfg1 (hget1 h3 150 20)]
    have hyes : ((sampleTx h3 S 5 150 20).EffectiveGasFeeCap
          ≥ (trackedOf config t1 (sampleTx h1 S 5 100 10)).gasFeeCap ∧
        (sampleTx h3 S 5 150 20).EffectiveGasTipCap
          ≥ (trackedOf config t1 (sampleTx h1 S 5 100 10)).gasTipCap) ∨
        t3 > (trackedOf config t1 (sampleTx h1 S 5 100 10)).expireTime := by
      simp only [trackedOf, sampleTx, hfactor, hs100, hs10]
      omega
    rw [if_pos hyes]
    rfl
  · have : nt3.getTransaction S 5 = some (trackedOf config t3 (sampleTx h3 S 5 150 20)) :=
      mapStore_same _ _ _
    rw [this]
    rfl
  · rw [track_of_present nt3 t4 _ network config _ hcfg3 (hget3 h4 50 5)]
    have hyes : ((sampleTx h4 S 5 50 5).EffectiveGasFeeCap
          ≥ (trackedOf config t3 (sampleTx h3 S 5 150 20)).gasFeeCap ∧
        (sampleTx h4 S 5 50 5).EffectiveGasTipCap
          ≥ (trackedOf config t3 (sampleTx h3 S 5 150 20)).gasTipCap) ∨
        t4 > (trackedOf config t3 (sampleTx h3 S 5 150 20)).expireTime := by
      simp only [trackedOf, sampleTx, hfactor, hs150, hs20]
      omega
    rw [if_pos hyes]
    rfl

theorem nonce_conflict_scenario_witness :
    ∃ nt1 nt3 nt4,
      (emptyTracker 5 sampleNetwork).track 1000 (sampleTx [1] [7] 5 100 10) 5
        = some (false, none, nt1) ∧
      nt1.track 2000 (sampleTx [2] [7] 5 90 10) 5 = some (true, some [1], nt1) ∧
      nt1.track 3000 (sampleTx [3] [7] 5 150 20) 5 = some (false, none, nt3) ∧
      (nt3.getTransaction [7] 5).map (fun e => e.tx) = some (sampleTx [3] [7] 5 150 20) ∧
      nt3.track 60000003001 (sampleTx [4] [7] 5 50 5) 5 = some (false, none, nt4) :=
  nonce_conflict_scenario [7] [1] [2] [3] [4] 5 sampleNetwork 1000 2000 3000 60000003001
    (by rfl) (by decide) (by decide)

/-! ## C9, C10: the validation orchestrator -/

theorem clearFlags_and (flags mask : Nat) : clearFlags flags mask &&& mask = 0 := by
  apply Nat.eq_of_testBit_eq
  intro i
  simp only [clearFlags, Nat.testBit_and, Nat.testBit_xor, Nat.zero_testBit]
  cases flags.testBit i <;> cases mask.testBit i <;> rfl

theorem config_of_active (nt : nonceTracker) (network : Nat)
    (h : nt.isReuseNonceActive network = true) :
    ∃ config, nt.networkConfig network = some config := by
  unfold nonceTracker.isReuseNonceActive at h
  cases hc : nt.networkConfig network with
  | none => simp [hc] at h
  | some config => exact ⟨config, rfl⟩

theorem track_total (nt : nonceTracker) (now : Int) (tx : EthTransaction) (network : Nat)
    (config : BlockchainNetwork) (hc : nt.networkConfig network = some config) :
    ∃ out, nt.track now tx network = some out := by
  cases hget : nt.addressNonceToTx (fromNonceKey tx.From tx.Nonce) with
  | none => exact ⟨_, track_of_absent nt now tx network config hc hget⟩
  | some old =>
    rw [track_of_present nt now tx network config old hc hget]
    split_ifs
    · exact ⟨_, rfl⟩
    · exact ⟨_, rfl⟩

/-- `addStored` returns, and the `Reprocess` field of its result is the one the base
store reported. -/
theorem addStored_reprocess {σ : Type} (c : Consts) (base : BaseStore σ)
    (parse : BxTransaction → Bytes → Option EthTransaction) (now : Int) (t : EthTxStore σ)
    (hash content : Bytes) (shortID network flags : Nat) (timestamp networkChainID : Int)
    (sender : Bytes) (blockchainTx : Option EthTransaction) (log : List Event) :
    ∃ out, EthTxStore.addStored c base parse now t hash content shortID network flags
        timestamp networkChainID sender blockchainTx log = some out ∧
      out.1.Reprocess = (base.Add t.BxTxStore hash content shortID network false flags
        timestamp networkChainID sender).1.Reprocess := by
  unfold EthTxStore.addStored
  simp only
  split_ifs with h1 h2
  · exact ⟨_, rfl, rfl⟩
  · exact ⟨_, rfl, rfl⟩
  · have h2' : t.nonceTracker.isReuseNonceActive network = true := by
      simpa using h2
    obtain ⟨config, hc⟩ := config_of_active _ _ h2'
    split
    · exact ⟨_, rfl, rfl⟩
    · rename_i ethTx _
      obtain ⟨⟨dup, h, nt'⟩, hto⟩ := track_total t.nonceTracker now ethTx network config hc
      rw [hto]
      simp only
      split_ifs
      · exact ⟨_, rfl, rfl⟩
      · exact ⟨_, rfl, rfl⟩

/-- `addStored` appends its calls to the log, the call of the base store first. -/
theorem addStored_log {σ : Type} (c : Consts) (base : BaseStore σ)
    (parse : BxTransaction → Bytes → Option EthTransaction) (now : Int) (t : EthTxStore σ)
    (hash content : Bytes) (shortID network flags : Nat) (timestamp networkChainID : Int)
    (sender : Bytes) (blockchainTx : Option EthTransaction) (log : List Event) :
    ∃ out, EthTxStore.addStored c base parse now t hash content shortID network flags
        timestamp networkChainID sender blockchainTx log = some out ∧
      ∃ rest, out.2.2 = log ++ Event.storeAdd :: rest := by
  unfold EthTxStore.addStored
  simp only
  split_ifs with h1 h2
  · exact ⟨_, rfl, [], rfl⟩
  · exact ⟨_, rfl, [], rfl⟩
  · have h2' : t.nonceTracker.isReuseNonceActive network = true := by
      simpa using h2
    obtain ⟨config, hc⟩ := config_of_active _ _ h2'
    cases blockchainTx with
    | some ethTx =>
      obtain ⟨⟨dup, h, nt'⟩, hto⟩ := track_total t.nonceTracker now ethTx network config hc
      simp only [hto]
      split_ifs
      · exact ⟨_, rfl, [Event.track], by simp⟩
      · exact ⟨_, rfl, [Event.track], by simp⟩
    | none =>
      simp only
      cases hp : parse (base.Add t.BxTxStore hash content shortID network false flags
          timestamp networkChainID sender).1.Transaction sender with
      | none => exact ⟨_, rfl, [Event.parse sender], by simp⟩
      | some ethTx =>
        obtain ⟨⟨dup, h, nt'⟩, hto⟩ := track_total t.nonceTracker now ethTx network config hc
        simp only [hto]
        split_ifs
        · exact ⟨_, rfl, [Event.parse sender, Event.track], by simp⟩
        · exact ⟨_, rfl, [Event.parse sender, Event.track], by simp⟩

/-- `add` returns, and it never sets `Reprocess` itself: a result produced without a call
of the base store has `Reprocess` false, and a result with `Reprocess` true has it from
the base store. -/
theorem add_reprocess {σ : Type} (c : Consts) (base : BaseStore σ)
    (parse : BxTransaction → Bytes → Option EthTransaction) (now : Int) (t : EthTxStore σ)
    (hash content : Bytes) (shortID network : Nat) (validate : Bool) (flags : Nat)
    (timestamp networkChainID : Int) (sender : Bytes) :
    ∃ out, EthTxStore.add c base parse now t hash content shortID network validate flags
        timestamp networkChainID sender = some out ∧
      (Event.storeAdd ∉ out.2.2 → out.1.Reprocess = false) ∧
      (out.1.Reprocess = true →
        ∃ sender', (base.Add t.BxTxStore hash content shortID network false flags timestamp
          networkChainID sender').1.Reprocess = true) := by
  have key : ∀ (sender' : Bytes) (blockchainTx : Option EthTransaction) (log : List Event),
      ∃ out, EthTxStore.addStored c base parse now t hash content shortID network
          (NewBxTransaction hash network flags timestamp).flags timestamp networkChainID
          sender' blockchainTx log = some out ∧
        (Event.storeAdd ∉ out.2.2 → out.1.Reprocess = false) ∧
        (out.1.Reprocess = true →
          ∃ sender', (base.Add t.BxTxStore hash content shortID network false flags timestamp
            networkChainID sender').1.Reprocess = true) := by
    intro sender' blockchainTx log
    obtain ⟨out, ho, hr⟩ := addStored_reprocess c base parse now t hash content shortID
      network (NewBxTransaction hash network flags timestamp).flags timestamp
      networkChainID sender' blockchainTx log
    obtain ⟨out', ho', rest, hl⟩ := addStored_log c base parse now t hash content shortID
      network (NewBxTransaction hash network flags timestamp).flags timestamp
      networkChainID sender' blockchainTx log
    rw [ho] at ho'
    cases ho'
    refine ⟨out, ho, fun hn => ?_, fun h => ⟨sender', ?_⟩⟩
    · exfalso
      apply hn
      rw [hl]
      simp
    · rw [hr] at h
      exact h
  unfold EthTxStore.add
  simp only
  split_ifs with h1
  · split
    · exact ⟨_, rfl, fun _ => rfl, fun h => by simp at h⟩
    · split_ifs
      · exact ⟨_, rfl, fun _ => rfl, fun h => by simp at h⟩
      · exact key (copyInto sender ‹EthTransaction›.From) (some ‹EthTransaction›)
          [Event.parse EmptySender]
  · exact key sender none []

/-- C9 (as stated, refuted): with a base store that reports new content and sets
`Reprocess`, nonce checking active, no validation requested and a content the decoder
rejects when `add` parses the stored transaction, `EthTxStore.Add` returns a result
with `FailedValidation = true` and `Reprocess = true`. -/
theorem Add_flag_stripping_counterexample :
    ∃ result t' log,
      EthTxStore.Add sampleConsts reprocessStore (fun _ _ => none) 1000
        ⟨(), emptyTracker 5 sampleNetwork⟩ [2] [5, 0] 0 5 false 4 950 1 EmptySender
        = some (result, t', log) ∧
      result.FailedValidation = true ∧ result.Reprocess = true :=
  ⟨_, _, _, rfl, rfl, rfl⟩

/-- C9 (amended): for every input, `EthTxStore.Add` returns a result; if its transaction
carries the reused-nonce flag then it does not carry the deliver-to-node flag and
`Reprocess` is false; a result produced without a call of the base store, as every
result of a validation that fails on the decoder or on the chain ID is, has `Reprocess`
false; and `Reprocess` is true only if the base store reported it so. -/
theorem Add_flag_stripping {σ : Type} (c : Consts) (base : BaseStore σ)
    (parse : BxTransaction → Bytes → Option EthTransaction) (now : Int) (t : EthTxStore σ)
    (hash content : Bytes) (shortID network : Nat) (validate : Bool) (flags : Nat)
    (timestamp networkChainID : Int) (sender : Bytes) :
    ∃ result t' log,
      EthTxStore.Add c base parse now t hash content shortID network validate flags
        timestamp networkChainID sender = some (result, t', log) ∧
      (IsReuseSenderNonce c result.Transaction.flags = true →
        ShouldDeliverToNode c result.Transaction.flags = false ∧ result.Reprocess = false) ∧
      (Event.storeAdd ∉ log → result.Reprocess = false) ∧
      (result.Reprocess = true →
        ∃ sender', (base.Add t.BxTxStore hash content shortID network false flags timestamp
          networkChainID sender').1.Reprocess = true) := by
  obtain ⟨⟨r, t', log⟩, ho, hn, hr⟩ := add_reprocess c base parse now t hash content shortID
    network validate flags timestamp networkChainID sender
  unfold EthTxStore.Add
  rw [ho]
  simp only [Option.map_some']
  by_cases hflag : IsReuseSenderNonce c r.Transaction.flags = true
  · refine ⟨_, t', log, by rw [if_pos hflag], ?_, fun _ => rfl, fun h => by simp at h⟩
    intro _
    refine ⟨?_, rfl⟩
    simp [ShouldDeliverToNode, BxTransaction.RemoveFlags, clearFlags_and]
  · refine ⟨r, t', log, by rw [if_neg hflag], fun h => absurd h hflag, hn, hr⟩

theorem Add_flag_stripping_witness :
    ∃ result t' log,
      EthTxStore.Add sampleConsts reprocessStore sampleParse 1000
        ⟨(), occupiedTracker 5 sampleNetwork 900 (sampleTx [1] [7] 5 200 20)⟩
        [2] [5, 0] 0 5 true 4 950 1 EmptySender = some (result, t', log) ∧
      IsReuseSenderNonce sampleConsts result.Transaction.flags = true ∧
      ShouldDeliverToNode sampleConsts result.Transaction.flags = false ∧
      result.Reprocess = false := by
  obtain ⟨result, t', log, h1, h2, _, _⟩ :=
    Add_flag_stripping sampleConsts reprocessStore sampleParse 1000
      ⟨(), occupiedTracker 5 sampleNetwork 900 (sampleTx [1] [7] 5 200 20)⟩
      [2] [5, 0] 0 5 true 4 950 1 EmptySender
  have hflag : IsReuseSenderNonce sampleConsts result.Transaction.flags = true := by
    have e : EthTxStore.Add sampleConsts reprocessStore sampleParse 1000
        ⟨(), occupiedTracker 5 sampleNetwork 900 (sampleTx [1] [7] 5 200 20)⟩
        [2] [5, 0] 0 5 true 4 950 1 EmptySender
        = some ((EthTxStore.Add sampleConsts reprocessStore sampleParse 1000
            ⟨(), occupiedTracker 5 sampleNetwork 900 (sampleTx [1] [7] 5 200 20)⟩
            [2] [5, 0] 0 5 true 4 950 1 EmptySender).get rfl) := by simp
    rw [e] at h1
    cases h1
    rfl
  exact ⟨result, t', log, h1, hflag, (h2 hflag).1, (h2 hflag).2⟩

/-- C10: when validation is requested and the store holds no content for the hash,
`EthTxStore.add` returns a result with `FailedValidation = true` without calling the base
store's `Add` and without touching the store or the nonce tracker, if and only if the
decoder fails on the content or the parsed chain ID and the network chain ID are both
non-zero and differ; when `validate` is false or the store already holds content, the
first call `add` makes is the base store's `Add`, so no parsing or chain-ID check
precedes it. -/
theorem add_validation_failure_iff {σ : Type} (c : Consts) (base : BaseStore σ)
    (parse : BxTransaction → Bytes → Option EthTransaction) (now : Int) (t : EthTxStore σ)
    (hash content : Bytes) (shortID network : Nat) (validate : Bool) (flags : Nat)
    (timestamp networkChainID : Int) (sender : Bytes) :
    (validate = true ∧ base.HasContent t.BxTxStore hash = false →
      ∃ result t' log,
        EthTxStore.add c base parse now t hash content shortID network validate flags
          timestamp networkChainID sender = some (result, t', log) ∧
        ((result.FailedValidation = true ∧ Event.storeAdd ∉ log ∧ Event.track ∉ log ∧
            t'.BxTxStore = t.BxTxStore ∧ t'.nonceTracker = t.nonceTracker) ↔
          (parse { NewBxTransaction hash network flags timestamp with content := content }
              EmptySender = none ∨
            ∃ ethTx,
              parse { NewBxTransaction hash network flags timestamp with content := content }
                EmptySender = some ethTx ∧
              ethTx.ChainID ≠ 0 ∧ networkChainID ≠ 0 ∧ ethTx.ChainID ≠ networkChainID))) ∧
    (validate = false ∨ base.HasContent t.BxTxStore hash = true →
      ∃ result t' log,
        EthTxStore.add c base parse now t hash content shortID network validate flags
          timestamp networkChainID sender = some (result, t', log) ∧
        log.head? = some Event.storeAdd) := by
  constructor
  · rintro ⟨hv, hh⟩
    unfold EthTxStore.add
    simp only [hv, hh, Bool.not_false, Bool.and_self, if_true]
    cases hp : parse { NewBxTransaction hash network flags timestamp with content := content }
        EmptySender with
    | none =>
      refine ⟨_, t, [Event.parse EmptySender], rfl, ?_⟩
      simp
    | some ethTx =>
      simp only
      by_cases hm : networkChainID ≠ 0 ∧ ethTx.ChainID ≠ 0 ∧ networkChainID ≠ ethTx.ChainID
      · rw [if_pos hm]
        refine ⟨_, t, [Event.parse EmptySender], rfl, ?_⟩
        simp only [List.mem_singleton, not_false_eq_true, and_self, reduceCtorEq,
          false_or, true_iff, Option.some.injEq, exists_eq_left']
        exact ⟨hm.2.1, hm.1, fun h => hm.2.2 h.symm⟩
      · rw [if_neg hm]
        obtain ⟨⟨r, t', log⟩, ho, rest, hl⟩ := addStored_log c base parse now t hash content
          shortID network (NewBxTransaction hash network flags timestamp).flags timestamp
          networkChainID (copyInto sender ethTx.From) (some ethTx) [Event.parse EmptySender]
        refine ⟨r, t', log, ho, ?_⟩
        simp only [] at hl
        constructor
        · rintro ⟨_, hno, _⟩
          exfalso
          apply hno
          rw [hl]
          simp
        · rintro (h | ⟨e, he, h1, h2, h3⟩)
          · cases h
          · cases he
            exfalso
            exact hm ⟨h2, h1, fun h => h3 h.symm⟩
  · intro hcond
    have hc : (validate && !base.HasContent t.BxTxStore hash) = false := by
      rcases hcond with h | h
      · simp [h]
      · simp [h]
    unfold EthTxStore.add
    simp only [hc, Bool.false_eq_true, if_false]
    obtain ⟨⟨r, t', log⟩, ho, rest, hl⟩ := addStored_log c base parse now t hash content
      shortID network (NewBxTransaction hash network flags timestamp).flags timestamp
      networkChainID sender none []
    refine ⟨r, t', log, ho, ?_⟩
    simp only [] at hl
    rw [hl]
    rfl

theorem add_validation_failure_iff_witness :
    (∃ result t' log,
      EthTxStore.add sampleConsts sampleStore sampleParse 1000
          ⟨(), emptyTracker 5 sampleNetwork⟩ [2] [5] 0 5 true 4 950 7 EmptySender
        = some (result, t', log) ∧
      ((result.FailedValidation = true ∧ Event.storeAdd ∉ log ∧ Event.track ∉ log ∧
          t'.BxTxStore = () ∧ t'.nonceTracker = emptyTracker 5 sampleNetwork) ↔
        (sampleParse { NewBxTransaction [2] 5 4 950 with content := [5] } EmptySender = none ∨
          ∃ ethTx,
            sampleParse { NewBxTransaction [2] 5 4 950 with content := [5] } EmptySender
              = some ethTx ∧
            ethTx.ChainID ≠ 0 ∧ (7 : Int) ≠ 0 ∧ ethTx.ChainID ≠ 7))) ∧
    (∃ result t' log,
      EthTxStore.add sampleConsts sampleStore sampleParse 1000
          ⟨(), emptyTracker 5 sampleNetwork⟩ [2] [5] 0 5 false 4 950 7 EmptySender
        = some (result, t', log) ∧
      log.head? = some Event.storeAdd) :=
  ⟨(add_validation_failure_iff sampleConsts sampleStore sampleParse 1000
      ⟨(), emptyTracker 5 sampleNetwork⟩ [2] [5] 0 5 true 4 950 7 EmptySender).1
      ⟨rfl, rfl⟩,
   (add_validation_failure_iff sampleConsts sampleStore sampleParse 1000
      ⟨(), emptyTracker 5 sampleNetwork⟩ [2] [5] 0 5 false 4 950 7 EmptySender).2
      (Or.inl rfl)⟩

/-! ## Buffers -/

theorem zeros_length (n : Nat) : (zeros n).length = n := by simp [zeros]

theorem putLE_length (k v : Nat) : (putLE k v).length = k := by
  induction k generalizing v with
  | zero => rfl
  | succ k ih => simp [putLE, ih]

theorem getLE_putLE (k v : Nat) : getLE (putLE k v) = v % 256 ^ k := by
  induction k generalizing v with
  | zero => simp [putLE, getLE, Nat.mod_one]
  | succ k ih =>
    simp only [putLE, getLE, ih]
    rw [pow_succ, Nat.mul_comm (256 ^ k) 256, Nat.mod_mul]

theorem tail_drop (n k : Nat) (b : Byte) (h : k ≤ n) :
    (zeros n ++ [b]).drop k = zeros (n - k) ++ [b] := by
  simp [zeros, List.drop_append_eq_append_drop, List.drop_replicate, Nat.sub_eq_zero_of_le h]

theorem putAt_run (pre bs : Bytes) (n : Nat) (b : Byte) (offset : Nat)
    (ho : offset = pre.length) (h : bs.length ≤ n) :
    putAt (pre ++ (zeros n ++ [b])) offset bs
      = some ((pre ++ bs) ++ (zeros (n - bs.length) ++ [b])) := by
  subst ho
  have hlen : pre.length + bs.length ≤ (pre ++ (zeros n ++ [b])).length := by
    simp [zeros_length]; omega
  simp only [putAt, if_pos hlen, List.take_left', List.drop_append, tail_drop n _ b h,
    List.append_assoc]

theorem copyAt_run (pre src : Bytes) (n : Nat) (b : Byte) (offset : Nat)
    (ho : offset = pre.length) (h : src.length ≤ n) :
    copyAt (pre ++ (zeros n ++ [b])) offset src
      = some ((pre ++ src) ++ (zeros (n - src.length) ++ [b])) := by
  subst ho
  have hlen : pre.length ≤ (pre ++ (zeros n ++ [b])).length := by simp
  have hmin : min ((pre ++ (zeros n ++ [b])).length - pre.length) src.length = src.length := by
    simp [zeros_length]; omega
  simp only [copyAt, if_pos hlen, hmin, List.take_left', List.drop_append, tail_drop n _ b h,
    List.append_assoc, List.take_length]
theorem padTo_length (w : Nat) (src : Bytes) : (padTo w src).length = w := by
  simp [padTo, zeros_length]; omega

theorem padTo_of_length (w : Nat) (src : Bytes) (h : src.length = w) : padTo w src = src := by
  subst h
  unfold padTo zeros
  rw [List.take_length, Nat.sub_self]
  exact List.append_nil src

theorem zeros_add (a b : Nat) : zeros (a + b) = zeros a ++ zeros b := by
  unfold zeros
  exact List.replicate_add a b 0

theorem copySlot_run (pre src : Bytes) (n w : Nat) (b : Byte) (offset : Nat)
    (ho : offset = pre.length) (h : w ≤ n) :
    copySlot (pre ++ (zeros n ++ [b])) offset w src
      = some ((pre ++ padTo w src) ++ (zeros (n - w) ++ [b])) := by
  subst ho
  have hlen : pre.length + w ≤ (pre ++ (zeros n ++ [b])).length := by
    simp [zeros_length]; omega
  have hk : min w src.length ≤ n := by omega
  have h1 : src.take (min w src.length) = src.take w := by
    by_cases hs : src.length ≤ w
    · rw [List.take_of_length_le hs, List.take_of_length_le (by omega)]
    · rw [show min w src.length = w by omega]
  have h2 : zeros (n - min w src.length) = zeros (w - src.length) ++ zeros (n - w) := by
    rw [← zeros_add]
    congr 1
    omega
  simp only [copySlot, if_pos hlen, List.take_left', List.drop_append, tail_drop n _ b hk,
    List.append_assoc, padTo, h1, h2]

theorem headerBytes_length (c : Consts) (x : Ext) (m : Tx) (protocol : Nat) :
    (Tx.headerBytes c x m protocol).length = c.BroadcastHeaderLen := by
  simp [Tx.headerBytes, zeros_length]

theorem header_pack_run (c : Consts) (x : Ext) (m : Tx) (protocol L : Nat)
    (hL : L = Tx.size c m protocol) (h : c.BroadcastHeaderLen + 1 ≤ L) :
    BroadcastHeader.Pack c x m.header (zeros L) protocol
      = some (Tx.headerBytes c x m protocol
          ++ (zeros (L - c.BroadcastHeaderLen - 1) ++ [x.controlByte])) := by
  have hz : zeros L = [] ++ (zeros (L - 1) ++ [(0 : Byte)]) := by
    simp only [zeros, List.nil_append]
    rw [show [(0 : Byte)] = List.replicate 1 0 from rfl, ← List.replicate_add]
    congr 1; omega
  have hsz : BroadcastHeader.Size c ≤ (zeros L).length := by
    simp [BroadcastHeader.Size, ControlByteLen, zeros_length]; omega
  have hpad : padTo c.BroadcastHeaderLen
      (x.packHeader m.header L protocol ++ zeros c.BroadcastHeaderLen)
        = Tx.headerBytes c x m protocol := by
    have : c.BroadcastHeaderLen - (x.packHeader m.header L protocol
        ++ zeros c.BroadcastHeaderLen).length = 0 := by
      simp [zeros_length]
    simp only [padTo, Tx.headerBytes, zeros_length, this, ← hL]
    simp [zeros]
  have hlast : ∀ (pre : Bytes) (b0 b : Byte),
      putAt (pre ++ [b0]) ((pre ++ [b0]).length - ControlByteLen) [b] = some (pre ++ [b]) := by
    intro pre b0 b
    simp [putAt, ControlByteLen]
  unfold BroadcastHeader.Pack
  rw [if_pos hsz]
  simp only [zeros_length]
  conv_lhs => rw [hz]
  rw [copySlot_run [] _ (L - 1) c.BroadcastHeaderLen 0 0 rfl (by omega), hpad]
  simp only [Option.some_bind, List.nil_append]
  rw [← List.append_assoc, hlast, List.append_assoc]
  rw [show L - 1 - c.BroadcastHeaderLen = L - c.BroadcastHeaderLen - 1 by omega]
/-! ## `Pack` writes the layout -/

theorem packHead_run (c : Consts) (x : Ext) (m : Tx) (protocol n : Nat)
    (hsize : Tx.size c m protocol = c.BroadcastHeaderLen + 6 + n + 1) :
    Tx.packHead c x m protocol
      = some ((Tx.headerBytes c x m protocol ++ putLE 4 (m.shortID % 2 ^ 32)
            ++ putLE 2 (Tx.wireFlags c m protocol % 2 ^ 16)) ++ (zeros n ++ [x.controlByte]),
          c.BroadcastHeaderLen + ShortIDLen + TxFlagsLen) := by
  unfold Tx.packHead
  simp only [Option.bind_eq_bind, Option.pure_def]
  rw [header_pack_run c x m protocol _ rfl (by omega)]
  simp only [Option.some_bind]
  rw [show Tx.size c m protocol - c.BroadcastHeaderLen - 1 = 6 + n by omega,
    putAt_run _ _ _ _ _ (headerBytes_length c x m protocol).symm
      (by rw [putLE_length]; omega)]
  simp only [Option.some_bind]
  rw [putAt_run _ _ _ _ _ (by simp [headerBytes_length, putLE_length, ShortIDLen])
      (by rw [putLE_length, putLE_length]; omega)]
  simp only [Option.some_bind, putLE_length, Tx.wireFlags]
  rw [show 6 + n - 4 - 2 = n by omega]

theorem timestampBytes_length (x : Ext) (m : Tx) (protocol : Nat) :
    (Tx.timestampBytes x m protocol).length
      = if protocol < 21 then 4 else if protocol < 25 then 8 else 4 := by
  unfold Tx.timestampBytes FullTxTimeStampProtocol
  split_ifs <;> simp [putLE_length]

theorem packTimestamp_run (x : Ext) (m : Tx) (protocol : Nat) (pre : Bytes) (n : Nat)
    (b : Byte) (offset : Nat) (ho : offset = pre.length)
    (hn : (Tx.timestampBytes x m protocol).length ≤ n) :
    Tx.packTimestamp x m protocol (pre ++ (zeros n ++ [b])) offset
      = some ((pre ++ Tx.timestampBytes x m protocol)
            ++ (zeros (n - (Tx.timestampBytes x m protocol).length) ++ [b]),
          offset + (Tx.timestampBytes x m protocol).length) := by
  unfold Tx.packTimestamp Tx.timestampBytes at *
  split_ifs at hn ⊢ <;>
    (rw [putAt_run _ _ _ _ _ ho hn]
     simp [putLE_length, UInt32Len, TimestampLen, ShortTimestampLen])

theorem packWalletIDs_run (c : Consts) (ws : List Bytes) (pre : Bytes) (n : Nat) (b : Byte)
    (offset : Nat) (ho : offset = pre.length) (hn : c.WalletIDLen * ws.length ≤ n) :
    packWalletIDs c (pre ++ (zeros n ++ [b])) offset ws
      = some ((pre ++ (ws.map (padTo c.WalletIDLen)).flatten)
            ++ (zeros (n - c.WalletIDLen * ws.length) ++ [b]),
          offset + c.WalletIDLen * ws.length) := by
  induction ws generalizing pre n offset with
  | nil => simp [packWalletIDs]
  | cons w ws ih =>
    simp only [List.length_cons, Nat.mul_succ] at hn
    unfold packWalletIDs
    rw [copySlot_run pre w n c.WalletIDLen b offset ho (by omega)]
    simp only [Option.some_bind]
    rw [ih (pre ++ padTo c.WalletIDLen w) (n - c.WalletIDLen) (offset + c.WalletIDLen)
      (by simp [ho, padTo_length]) (by omega)]
    simp only [List.map_cons, List.flatten_cons, List.append_assoc, List.length_cons,
      Nat.mul_succ, Option.some.injEq, Prod.mk.injEq]
    rw [show n - c.WalletIDLen - c.WalletIDLen * ws.length
        = n - (c.WalletIDLen * ws.length + c.WalletIDLen) by omega]
    exact ⟨rfl, by omega⟩

theorem flatten_padTo_length (w : Nat) (ws : List Bytes) :
    ((ws.map (padTo w)).flatten).length = w * ws.length := by
  induction ws with
  | nil => simp
  | cons a ws ih => simp [ih, padTo_length, Nat.mul_succ]; omega

theorem packNextValidator_run (c : Consts) (m : Tx) (protocol : Nat) (pre : Bytes) (n : Nat)
    (b : Byte) (offset : Nat) (ho : offset = pre.length)
    (hn : (Tx.nextValidatorBytes c m protocol).length ≤ n)
    (hw : m.walletIDs ≠ [] ∨ ¬ (c.NextValidatorProtocol ≤ protocol ∧
      protocol < c.NextValidatorMultipleProtocol ∧ IsNextValidator c m.flags = true)) :
    Tx.packNextValidator c m protocol (pre ++ (zeros n ++ [b])) offset
      = some ((pre ++ Tx.nextValidatorBytes c m protocol)
            ++ (zeros (n - (Tx.nextValidatorBytes c m protocol).length) ++ [b]),
          offset + (Tx.nextValidatorBytes c m protocol).length) := by
  unfold Tx.packNextValidator Tx.nextValidatorBytes at *
  split_ifs at hn ⊢ with h1 h2 h3 h4
  · simp only [List.length_append, putLE_length, flatten_padTo_length] at hn ⊢
    rw [putAt_run _ _ _ _ _ ho (by rw [putLE_length]; omega)]
    simp only [Option.some_bind, putLE_length]
    rw [packWalletIDs_run c m.walletIDs _ _ b _ (by simp [ho, putLE_length, UInt16Len])
      (by omega)]
    simp only [List.append_assoc, UInt16Len, Option.some.injEq, Prod.mk.injEq]
    rw [show n - 2 - c.WalletIDLen * m.walletIDs.length
        = n - (2 + c.WalletIDLen * m.walletIDs.length) by omega]
    exact ⟨rfl, by omega⟩
  · simp
  · rcases hw with hw | hw
    · obtain ⟨w, ws, hws⟩ := List.exists_cons_of_ne_nil hw
      simp only [List.length_append, putLE_length, padTo_length] at hn ⊢
      rw [putAt_run _ _ _ _ _ ho (by rw [putLE_length]; omega)]
      simp only [Option.some_bind, putLE_length, hws, List.headD_cons]
      rw [copySlot_run _ w _ c.WalletIDLen b _ (by simp [ho, putLE_length, UInt16Len])
        (by omega)]
      simp only [List.append_assoc, UInt16Len, Option.map_some', Option.some.injEq,
        Prod.mk.injEq]
      rw [show n - 2 - c.WalletIDLen = n - (2 + c.WalletIDLen) by omega]
      exact ⟨rfl, by omega⟩
    · exact absurd ⟨h3, by omega, h4⟩ hw
  · simp
  · simp

theorem packAccountID_run (c : Consts) (m : Tx) (protocol : Nat) (pre : Bytes) (n : Nat)
    (b : Byte) (offset : Nat) (ho : offset = pre.length)
    (hA : m.accountID.length = c.AccountIDLen)
    (hn : (Tx.accountIDBytes m protocol).length ≤ n) :
    Tx.packAccountID c m protocol (pre ++ (zeros n ++ [b])) offset
      = some ((pre ++ Tx.accountIDBytes m protocol)
            ++ (zeros (n - (Tx.accountIDBytes m protocol).length) ++ [b]),
          offset + (Tx.accountIDBytes m protocol).length) := by
  unfold Tx.packAccountID Tx.accountIDBytes at *
  split_ifs at hn ⊢
  · simp
  · rw [copyAt_run _ _ _ _ _ ho hn]
    simp [hA]

theorem packContent_run (m : Tx) (protocol : Nat) (pre : Bytes) (n : Nat)
    (b : Byte) (offset : Nat) (ho : offset = pre.length)
    (hn : m.content.length + (Tx.senderBytes m protocol).length = n) :
    Tx.packContent m protocol (pre ++ (zeros n ++ [b])) offset
      = some (pre ++ m.content ++ Tx.senderBytes m protocol ++ [b]) := by
  unfold Tx.packContent Tx.senderBytes at *
  by_cases hc : m.content.length > 0
  · rw [if_pos hc]
    by_cases hp : protocol < SenderProtocol
    · have hs : ¬ (m.content.length > 0 ∧ ¬ protocol < SenderProtocol) := fun h => h.2 hp
      rw [if_neg hs] at hn ⊢
      rw [copyAt_run _ _ _ _ _ ho (by omega)]
      simp only [Option.some_bind, if_pos hp, List.append_nil, Option.some.injEq]
      simp only [List.length_nil, Nat.add_zero] at hn
      rw [hn, Nat.sub_self]
      simp [zeros]
    · have hs : m.content.length > 0 ∧ ¬ protocol < SenderProtocol := ⟨hc, hp⟩
      rw [if_pos hs] at hn ⊢
      rw [copyAt_run _ _ _ _ _ ho (by omega)]
      simp only [Option.some_bind, if_neg hp]
      rw [copyAt_run _ _ _ _ _ (by simp [ho]) (by omega)]
      rw [show n - m.content.length - m.sender.length = 0 by omega]
      simp [zeros]
  · have hs : ¬ (m.content.length > 0 ∧ ¬ protocol < SenderProtocol) := fun h => hc h.1
    have h0 : m.content = [] := List.eq_nil_of_length_eq_zero (by omega)
    rw [if_neg hc]
    rw [if_neg hs] at hn ⊢
    simp only [h0, List.length_nil, Nat.add_zero] at hn ⊢
    subst hn
    simp [zeros]

theorem wire_length (c : Consts) (x : Ext) (m : Tx) (protocol : Nat) :
    (Tx.wire c x m protocol).length
      = c.BroadcastHeaderLen + 6 + ((Tx.timestampBytes x m protocol).length
          + (Tx.nextValidatorBytes c m protocol).length + (Tx.accountIDBytes m protocol).length
          + m.content.length + (Tx.senderBytes m protocol).length) + 1 := by
  simp only [Tx.wire, List.length_append, headerBytes_length, putLE_length,
    List.length_singleton]
  omega

/-- Whenever `size` returns the length of the layout, `Pack` returns the layout. -/
theorem Pack_eq_wire (c : Consts) (x : Ext) (m : Tx) (protocol : Nat)
    (hA : m.accountID.length = c.AccountIDLen)
    (hw : m.walletIDs ≠ [] ∨ ¬ (c.NextValidatorProtocol ≤ protocol ∧
      protocol < c.NextValidatorMultipleProtocol ∧ IsNextValidator c m.flags = true))
    (hsize : Tx.size c m protocol = (Tx.wire c x m protocol).length) :
    Tx.Pack c x m protocol = some (Tx.wire c x m protocol) := by
  rw [wire_length] at hsize
  unfold Tx.Pack
  rw [packHead_run c x m protocol _ hsize]
  simp only [Option.some_bind]
  rw [packTimestamp_run x m protocol _ _ _ _
    (by simp [headerBytes_length, putLE_length, ShortIDLen, TxFlagsLen]) (by omega)]
  simp only [Option.some_bind]
  rw [packNextValidator_run c m protocol _ _ _ _
    (by simp [headerBytes_length, putLE_length, ShortIDLen, TxFlagsLen]; omega) (by omega) hw]
  simp only [Option.some_bind]
  rw [packAccountID_run c m protocol _ _ _ _
    (by simp [headerBytes_length, putLE_length, ShortIDLen, TxFlagsLen]; omega) hA (by omega)]
  simp only [Option.some_bind]
  rw [packContent_run m protocol _ _ _ _
    (by simp [headerBytes_length, putLE_length, ShortIDLen, TxFlagsLen]; omega) (by omega)]
  simp [Tx.wire]

theorem nextValidatorBytes_length (c : Consts) (m : Tx) (protocol : Nat)
    (hC : Tx.ConsistentWith c m protocol)
    (hord : c.NextValidatorProtocol ≤ c.NextValidatorMultipleProtocol)
    (hslip : ¬ (c.NextValidatorProtocol ≤ protocol ∧ protocol < c.NextValidatorMultipleProtocol ∧
      IsNextValidator c m.flags = true)) :
    (Tx.nextValidatorBytes c m protocol).length
      = if protocol ≥ c.NextValidatorMultipleProtocol ∧ IsNextValidator c m.flags = true
        then 2 + 2 * c.WalletIDLen else 0 := by
  obtain ⟨_, _, _, hset, _⟩ := hC
  unfold Tx.nextValidatorBytes
  by_cases h1 : protocol ≥ c.NextValidatorMultipleProtocol
  · by_cases h2 : IsNextValidator c m.flags = true
    · have := (hset (by omega) h2).1
      rw [if_pos h1, if_pos h2, if_pos ⟨h1, h2⟩, List.length_append, putLE_length,
        flatten_padTo_length, this, Nat.mul_comm]
    · simp [h1, h2]
  · by_cases h2 : IsNextValidator c m.flags = true
    · have h3 : ¬ protocol ≥ c.NextValidatorProtocol := fun h => hslip ⟨h, by omega, h2⟩
      simp [h1, h2, h3]
    · simp [h1, h2]

theorem size_eq_wire_length (c : Consts) (x : Ext) (m : Tx) (protocol : Nat)
    (h19 : 19 ≤ protocol) (hT : Tx.WellTyped c m) (hC : Tx.ConsistentWith c m protocol)
    (hord : c.NextValidatorProtocol ≤ c.NextValidatorMultipleProtocol ∧
      c.NextValidatorMultipleProtocol ≤ 25)
    (hslip : ¬ (c.NextValidatorProtocol ≤ protocol ∧ protocol < 25 ∧
      IsNextValidator c m.flags = true))
    (hbound : (Tx.wire c x m protocol).length < 2 ^ 32) :
    Tx.size c m protocol = (Tx.wire c x m protocol).length := by
  have hnv := nextValidatorBytes_length c m protocol hC hord.1
    (fun h => hslip ⟨h.1, by omega, h.2.2⟩)
  obtain ⟨hA, hS, _, _, _⟩ := hT
  rw [wire_length] at hbound ⊢
  rw [timestampBytes_length, hnv] at hbound ⊢
  unfold Tx.size Tx.accountIDBytes Tx.senderBytes BroadcastHeader.Size ShortIDLen TxFlagsLen
    ShortTimestampLen TimestampLen ControlByteLen SenderProtocol SenderLen UInt16Len at *
  by_cases hf : IsNextValidator c m.flags = true
  · simp only [hf, and_true, Bool.and_true, decide_eq_true_eq, ge_iff_le] at hbound hslip ⊢
    split_ifs at hbound ⊢ <;> (try simp only [List.length_nil] at hbound ⊢) <;> omega
  · simp only [hf, and_false, Bool.and_false, if_false, Bool.false_eq_true] at hbound ⊢
    split_ifs at hbound ⊢ <;> (try simp only [List.length_nil] at hbound ⊢) <;> omega

/-! ## `Unpack` reads the layout -/

theorem drop_take_mid (pre bs rest : Bytes) (offset k : Nat) (ho : offset = pre.length)
    (hk : k = bs.length) : ((pre ++ (bs ++ rest)).drop offset).take k = bs := by
  subst ho hk
  simp

theorem readLE_mid (pre bs rest : Bytes) (offset k : Nat) (ho : offset = pre.length)
    (hk : k = bs.length) : readLE (pre ++ (bs ++ rest)) offset k = getLE bs := by
  unfold readLE
  rw [drop_take_mid pre bs rest offset k ho hk]

theorem getLE_putLE_of_lt (k v : Nat) (h : v < 256 ^ k) : getLE (putLE k v) = v := by
  rw [getLE_putLE, Nat.mod_eq_of_lt h]

theorem checkBufSize_ok (buf : Bytes) (offset size : Nat) (h : offset + size ≤ buf.length) :
    checkBufSize buf offset size = .ok () := by
  unfold checkBufSize
  rw [if_neg (by omega)]

theorem unpackHead_run (c : Consts) (x : Ext) (m : Tx) (buf H rest : Bytes)
    (protocol s f : Nat)
    (hbuf : buf = H ++ (putLE 4 s ++ (putLE 2 f ++ rest)))
    (hH : H.length = c.BroadcastHeaderLen) (hs : s < 2 ^ 32) (hf : f < 2 ^ 16) :
    Tx.unpackHead c x m buf protocol
      = .ok ({ m with header := x.unpackHeader buf protocol, shortID := s, flags := f },
          c.BroadcastHeaderLen + ShortIDLen + TxFlagsLen) := by
  have hlen : buf.length = c.BroadcastHeaderLen + 6 + rest.length := by
    rw [hbuf]; simp [hH, putLE_length]; omega
  have hc1 : checkBufSize buf 0 (BroadcastHeader.Size c) = .ok () :=
    checkBufSize_ok buf 0 _ (by simp [BroadcastHeader.Size, ControlByteLen]; omega)
  have hc2 : checkBufSize buf c.BroadcastHeaderLen (ShortIDLen + TxFlagsLen) = .ok () :=
    checkBufSize_ok buf _ _ (by simp [ShortIDLen, TxFlagsLen]; omega)
  have h1 : readLE buf c.BroadcastHeaderLen 4 = s := by
    rw [hbuf, readLE_mid H _ _ _ _ hH.symm (putLE_length 4 s).symm,
      getLE_putLE_of_lt 4 s (by norm_num; omega)]
  have h2 : readLE buf (c.BroadcastHeaderLen + ShortIDLen) 2 = f := by
    have : buf = (H ++ putLE 4 s) ++ (putLE 2 f ++ rest) := by rw [hbuf]; simp
    rw [this, readLE_mid _ _ _ _ _ (by simp [hH, putLE_length, ShortIDLen])
      (putLE_length 2 f).symm, getLE_putLE_of_lt 2 f (by norm_num; omega)]
  simp only [Tx.unpackHead, BroadcastHeader.Unpack, hc1, hc2, h1, h2]
  rfl

theorem unpackTimestamp_run (x : Ext) (now : Int) (m m0 : Tx) (buf pre rest : Bytes)
    (protocol offset : Nat)
    (hbuf : buf = pre ++ (Tx.timestampBytes x m0 protocol ++ rest))
    (ho : offset = pre.length) :
    Tx.unpackTimestamp x now m buf protocol offset
      = .ok ({ m with timestamp := Tx.decodedTimestamp x now protocol m0.timestamp },
          offset + (Tx.timestampBytes x m0 protocol).length) := by
  have hlen : buf.length = offset + (Tx.timestampBytes x m0 protocol).length + rest.length := by
    rw [hbuf]; simp [ho]; omega
  unfold Tx.unpackTimestamp Tx.decodedTimestamp
  unfold Tx.timestampBytes at hbuf hlen ⊢
  split_ifs at hbuf hlen ⊢ with h1 h2
  · rw [putLE_length] at hlen
    rw [checkBufSize_ok buf _ _ (by simp [UInt32Len]; omega)]
    rw [hbuf, readLE_mid pre _ _ _ _ ho (putLE_length 4 _).symm,
      getLE_putLE_of_lt 4 _ (by norm_num; omega)]
    simp [putLE_length, UInt32Len]
  · rw [putLE_length] at hlen
    rw [checkBufSize_ok buf _ _ (by simp [TimestampLen]; omega)]
    rw [hbuf, readLE_mid pre _ _ _ _ ho (putLE_length 8 _).symm,
      getLE_putLE_of_lt 8 _ (by norm_num; omega)]
    simp [putLE_length, TimestampLen]
  · rw [putLE_length] at hlen
    rw [checkBufSize_ok buf _ _ (by simp [ShortTimestampLen]; omega)]
    rw [hbuf, readLE_mid pre _ _ _ _ ho (putLE_length 4 _).symm,
      getLE_putLE_of_lt 4 _ (by have := packShortTimestamp_lt m0.timestamp; norm_num; omega)]
    simp [putLE_length, ShortTimestampLen]

theorem unpackNextValidator_run (c : Consts) (m m0 : Tx) (buf pre rest : Bytes)
    (protocol offset : Nat)
    (hfl : c.NextValidatorProtocol ≤ protocol → m.flags = m0.flags)
    (hm : m.walletIDs = [] ∧ m.fallback = 0) (hfb : m0.fallback < 2 ^ 16)
    (hC : Tx.ConsistentWith c m0 protocol)
    (hord : c.NextValidatorProtocol ≤ c.NextValidatorMultipleProtocol)
    (hslip : ¬ (c.NextValidatorProtocol ≤ protocol ∧ protocol < c.NextValidatorMultipleProtocol ∧
      IsNextValidator c m0.flags = true))
    (hbuf : buf = pre ++ (Tx.nextValidatorBytes c m0 protocol ++ rest))
    (ho : offset = pre.length) :
    Tx.unpackNextValidator c m buf protocol offset
      = .ok ({ m with walletIDs := m0.walletIDs, fallback := m0.fallback },
          offset + (Tx.nextValidatorBytes c m0 protocol).length) := by
  obtain ⟨_, _, hlow, hset, hclear⟩ := hC
  obtain ⟨hmw, hmf⟩ := hm
  unfold Tx.unpackNextValidator
  unfold Tx.nextValidatorBytes at hbuf ⊢
  by_cases h1 : protocol ≥ c.NextValidatorMultipleProtocol
  · have hp : c.NextValidatorProtocol ≤ protocol := by omega
    have hflags := hfl hp
    by_cases h2 : IsNextValidator c m0.flags = true
    · obtain ⟨hlen, hws⟩ := hset hp h2
      obtain ⟨w0, w1, hw⟩ : ∃ w0 w1, m0.walletIDs = [w0, w1] := by
        match hm0 : m0.walletIDs, hlen with
        | [a, b], _ => exact ⟨a, b, rfl⟩
      have hw0 : w0.length = c.WalletIDLen := hws w0 (by simp [hw])
      have hw1 : w1.length = c.WalletIDLen := hws w1 (by simp [hw])
      simp only [if_pos h1, if_pos h2, hw, List.map_cons, List.map_nil, List.flatten_cons,
        List.flatten_nil, List.append_nil, padTo_of_length _ _ hw0, padTo_of_length _ _ hw1]
        at hbuf ⊢
      have hlenb : buf.length = offset + 2 + c.WalletIDLen + c.WalletIDLen + rest.length := by
        rw [hbuf]; simp [ho, putLE_length, hw0, hw1]; omega
      have hc : checkBufSize buf offset (UInt16Len + c.WalletIDLen + c.WalletIDLen) = .ok () :=
        checkBufSize_ok buf _ _ (by simp [UInt16Len]; omega)
      have hr : readLE buf offset 2 = m0.fallback := by
        have : buf = pre ++ (putLE 2 (m0.fallback % 2 ^ 16) ++ (w0 ++ w1 ++ rest)) := by
          rw [hbuf]; simp
        rw [this, readLE_mid pre _ _ _ _ ho (putLE_length 2 _).symm,
          getLE_putLE_of_lt 2 _ (by norm_num; omega), Nat.mod_eq_of_lt hfb]
      have hs0 : (buf.drop (offset + UInt16Len)).take c.WalletIDLen = w0 := by
        have : buf = (pre ++ putLE 2 (m0.fallback % 2 ^ 16)) ++ (w0 ++ (w1 ++ rest)) := by
          rw [hbuf]; simp
        rw [this, drop_take_mid _ w0 _ _ _ (by simp [ho, putLE_length, UInt16Len]) hw0.symm]
      have hs1 : (buf.drop (offset + UInt16Len + c.WalletIDLen)).take c.WalletIDLen = w1 := by
        have : buf = (pre ++ putLE 2 (m0.fallback % 2 ^ 16) ++ w0) ++ (w1 ++ rest) := by
          rw [hbuf]; simp
        rw [this, drop_take_mid _ w1 _ _ _
          (by simp [ho, putLE_length, UInt16Len, hw0]; omega) hw1.symm]
      have hf : IsNextValidator c m.flags = true := by rw [hflags]; exact h2
      simp only [hf, if_true, hc, hr, hs0, hs1]
      simp [Tx.SetWalletID, putLE_length, hw0, hw1, UInt16Len, bind, Except.bind, pure,
        Except.pure]
      omega
    · have h2' : IsNextValidator c m0.flags = false := by simpa using h2
      obtain ⟨hw, hf0⟩ := hclear hp h2'
      have hf : ¬ IsNextValidator c m.flags = true := by rw [hflags]; exact h2
      simp [h1, h2, hf, hw, hf0, hmf, pure, Except.pure]
  · by_cases h3 : protocol ≥ c.NextValidatorProtocol
    · have hflags := hfl h3
      have h2 : ¬ IsNextValidator c m0.flags = true := fun h => hslip ⟨h3, by omega, h⟩
      have h2' : IsNextValidator c m0.flags = false := by simpa using h2
      obtain ⟨hw, hf0⟩ := hclear h3 h2'
      have hf : ¬ IsNextValidator c m.flags = true := by rw [hflags]; exact h2
      simp [h1, h3, h2, hf, hw, hf0, hmf, pure, Except.pure]
    · obtain ⟨hw, hf0⟩ := hlow (by omega)
      simp only [if_neg h1, if_neg h3, List.length_nil, Nat.add_zero, pure, Except.pure]
      congr 2
      cases m
      simp_all

theorem unpackAccountID_run (c : Consts) (m m0 : Tx) (buf pre rest : Bytes)
    (protocol offset : Nat)
    (hm : m.accountID = zeros c.AccountIDLen) (hA : m0.accountID.length = c.AccountIDLen)
    (hC : protocol < 22 → m0.accountID = zeros c.AccountIDLen)
    (hbuf : buf = pre ++ (Tx.accountIDBytes m0 protocol ++ rest))
    (ho : offset = pre.length) :
    Tx.unpackAccountID c m buf protocol offset
      = .ok ({ m with accountID := m0.accountID },
          offset + (Tx.accountIDBytes m0 protocol).length) := by
  unfold Tx.unpackAccountID
  unfold Tx.accountIDBytes at hbuf ⊢
  by_cases h : protocol < 22
  · simp only [if_pos h, List.length_nil, Nat.add_zero, pure, Except.pure]
    congr 2
    cases m
    simp_all
  · simp only [if_neg h] at hbuf ⊢
    have hle : offset ≤ buf.length := by rw [hbuf]; simp [ho]
    have hd : buf.drop offset = m0.accountID ++ rest := by
      rw [hbuf, ho]; simp
    have hcp : copyInto m.accountID (buf.drop offset) = m0.accountID := by
      rw [hd, hm]
      unfold copyInto
      have : min (zeros c.AccountIDLen).length (m0.accountID ++ rest).length
          = m0.accountID.length := by
        simp [zeros_length, hA]
      rw [this, List.take_left' rfl, List.drop_of_length_le (by simp [zeros_length, hA])]
      simp
    simp only [if_pos hle, hcp, hA, pure, Except.pure]

theorem sliceTo_run (buf pre mid suf : Bytes) (lo : Nat) (hi : Int)
    (hbuf : buf = pre ++ (mid ++ suf)) (ho : lo = pre.length)
    (hhi : hi = ((pre.length + mid.length : Nat) : Int)) :
    sliceTo buf lo hi = .ok mid := by
  subst hbuf ho hhi
  unfold sliceTo
  rw [if_pos (by push_cast; omega)]
  simp only [Int.toNat_ofNat]
  rw [← List.append_assoc, List.take_left' (by simp), List.drop_left]

theorem unpackContent_run (m m0 : Tx) (buf pre : Bytes) (b : Byte) (protocol offset : Nat)
    (hm : m.sender = zeros SenderLen) (hS : m0.sender.length = SenderLen)
    (hC : protocol < SenderProtocol ∨ m0.content = [] → m0.sender = zeros SenderLen)
    (hbuf : buf = pre ++ (m0.content ++ (Tx.senderBytes m0 protocol ++ [b])))
    (ho : offset = pre.length) :
    Tx.unpackContent m buf protocol offset
      = .ok { m with content := m0.content, sender := m0.sender } := by
  unfold Tx.unpackContent
  unfold Tx.senderBytes at hbuf
  by_cases hnosender : protocol < SenderProtocol ∨ m0.content = []
  · have hs : ¬ (m0.content.length > 0 ∧ ¬ protocol < SenderProtocol) := by
      rintro ⟨h1, h2⟩
      rcases hnosender with h | h
      · exact h2 h
      · simp [h] at h1
    rw [if_neg hs] at hbuf
    simp only [List.nil_append] at hbuf
    have hlen : buf.length = offset + m0.content.length + 1 := by
      rw [hbuf]; simp [ho]; omega
    have hcond : (buf.length : Int) - offset - ControlByteLen = 0 ∨ protocol < SenderProtocol := by
      rcases hnosender with h | h
      · exact Or.inr h
      · left
        simp [hlen, h, ControlByteLen]
    rw [if_pos hcond, sliceTo_run buf pre m0.content [b] offset _ hbuf ho
      (by simp [hlen, ho, ControlByteLen])]
    simp only [bind, Except.bind, pure, Except.pure]
    rw [← hC hnosender] at hm
    congr 1
    cases m
    simp_all
  · have hs : m0.content.length > 0 ∧ ¬ protocol < SenderProtocol := by
      constructor
      · rcases hc : m0.content with _ | ⟨a, l⟩
        · exact absurd (Or.inr hc) hnosender
        · simp
      · exact fun h => hnosender (Or.inl h)
    rw [if_pos hs] at hbuf
    have hlen : buf.length = offset + m0.content.length + SenderLen + 1 := by
      rw [hbuf]; simp [ho, hS]; omega
    have hcond : ¬ ((buf.length : Int) - offset - ControlByteLen = 0 ∨
        protocol < SenderProtocol) := by
      rintro (h | h)
      · simp only [hlen, ControlByteLen, SenderLen] at h
        push_cast at h
        omega
      · exact hs.2 h
    rw [if_neg hcond, sliceTo_run buf pre m0.content (m0.sender ++ [b]) offset _ hbuf ho
      (by simp only [hlen, ho, ControlByteLen, SenderLen]; push_cast; omega)]
    simp only [bind, Except.bind, pure, Except.pure]
    have hle : offset + m0.content.length ≤ buf.length := by omega
    have hd : buf.drop (offset + m0.content.length) = m0.sender ++ [b] := by
      rw [hbuf, ho, ← List.append_assoc, List.drop_left' (by simp)]
    have hcp : copyInto m.sender (buf.drop (offset + m0.content.length)) = m0.sender := by
      rw [hd, hm]
      unfold copyInto
      have : min (zeros SenderLen).length (m0.sender ++ [b]).length = m0.sender.length := by
        simp [zeros_length, hS]
      rw [this, List.take_left' rfl, List.drop_of_length_le (by simp [zeros_length, hS])]
      simp
    simp only [if_pos hle, hcp]

/-! ## C1, C2, C3: the wire codec -/

theorem wireFlags_lt (c : Consts) (m : Tx) (protocol : Nat) (h : m.flags < 2 ^ 16) :
    Tx.wireFlags c m protocol < 2 ^ 16 := by
  unfold Tx.wireFlags
  split_ifs
  · exact lt_of_le_of_lt Nat.and_le_left h
  · exact h

theorem wireFlags_of_ge (c : Consts) (m : Tx) (protocol : Nat) (h : 20 ≤ protocol) :
    Tx.wireFlags c m protocol = m.flags := by
  unfold Tx.wireFlags
  rw [if_neg (by omega)]

/-- `Unpack` of the layout of `m` on a fresh receiver. -/
theorem Unpack_wire (c : Consts) (x : Ext) (now : Int) (m : Tx) (protocol : Nat)
    (hT : Tx.WellTyped c m) (hC : Tx.ConsistentWith c m protocol)
    (hord : 20 ≤ c.NextValidatorProtocol ∧
      c.NextValidatorProtocol ≤ c.NextValidatorMultipleProtocol)
    (hslip : ¬ (c.NextValidatorProtocol ≤ protocol ∧
      protocol < c.NextValidatorMultipleProtocol ∧ IsNextValidator c m.flags = true)) :
    Tx.Unpack c x now (Tx.empty c) (Tx.wire c x m protocol) protocol
      = .ok { m with
          header := x.unpackHeader (Tx.wire c x m protocol) protocol
          flags := Tx.wireFlags c m protocol
          timestamp := Tx.decodedTimestamp x now protocol m.timestamp
          quota := 0 } := by
  obtain ⟨hA, hS, hsid, hfl, hfb⟩ := hT
  have hwf := wireFlags_lt c m protocol hfl
  have e1 : m.shortID % 2 ^ 32 = m.shortID := Nat.mod_eq_of_lt hsid
  have e2 : Tx.wireFlags c m protocol % 2 ^ 16 = Tx.wireFlags c m protocol :=
    Nat.mod_eq_of_lt hwf
  unfold Tx.Unpack
  rw [unpackHead_run c x (Tx.empty c) (Tx.wire c x m protocol)
    (Tx.headerBytes c x m protocol)
    (Tx.timestampBytes x m protocol ++ Tx.nextValidatorBytes c m protocol
      ++ Tx.accountIDBytes m protocol ++ m.content ++ Tx.senderBytes m protocol
      ++ [x.controlByte])
    protocol m.shortID (Tx.wireFlags c m protocol)
    (by simp only [Tx.wire, e1, e2, List.append_assoc])
    (headerBytes_length c x m protocol) hsid hwf]
  simp only [Except.bind]
  rw [unpackTimestamp_run x now _ m (Tx.wire c x m protocol)
    (Tx.headerBytes c x m protocol ++ putLE 4 (m.shortID % 2 ^ 32)
      ++ putLE 2 (Tx.wireFlags c m protocol % 2 ^ 16))
    (Tx.nextValidatorBytes c m protocol
      ++ Tx.accountIDBytes m protocol ++ m.content ++ Tx.senderBytes m protocol
      ++ [x.controlByte]) protocol _
    (by simp [Tx.wire])
    (by simp [headerBytes_length, putLE_length, ShortIDLen, TxFlagsLen])]
  simp only []
  rw [unpackNextValidator_run c _ m (Tx.wire c x m protocol)
    (Tx.headerBytes c x m protocol ++ putLE 4 (m.shortID % 2 ^ 32)
      ++ putLE 2 (Tx.wireFlags c m protocol % 2 ^ 16) ++ Tx.timestampBytes x m protocol)
    (Tx.accountIDBytes m protocol ++ m.content ++ Tx.senderBytes m protocol
      ++ [x.controlByte]) protocol _
    (fun h => wireFlags_of_ge c m protocol (by omega))
    ⟨rfl, rfl⟩ hfb hC hord.2 hslip
    (by simp [Tx.wire])
    (by simp [headerBytes_length, putLE_length, ShortIDLen, TxFlagsLen]; omega)]
  simp only []
  rw [unpackAccountID_run c _ m (Tx.wire c x m protocol)
    (Tx.headerBytes c x m protocol ++ putLE 4 (m.shortID % 2 ^ 32)
      ++ putLE 2 (Tx.wireFlags c m protocol % 2 ^ 16) ++ Tx.timestampBytes x m protocol
      ++ Tx.nextValidatorBytes c m protocol)
    (m.content ++ Tx.senderBytes m protocol ++ [x.controlByte]) protocol _
    rfl hA hC.1
    (by simp [Tx.wire])
    (by simp [headerBytes_length, putLE_length, ShortIDLen, TxFlagsLen]; omega)]
  simp only []
  rw [unpackContent_run _ m (Tx.wire c x m protocol)
    (Tx.headerBytes c x m protocol ++ putLE 4 (m.shortID % 2 ^ 32)
      ++ putLE 2 (Tx.wireFlags c m protocol % 2 ^ 16) ++ Tx.timestampBytes x m protocol
      ++ Tx.nextValidatorBytes c m protocol ++ Tx.accountIDBytes m protocol)
    x.controlByte protocol _
    rfl hS hC.2.1
    (by simp [Tx.wire])
    (by simp [headerBytes_length, putLE_length, ShortIDLen, TxFlagsLen]; omega)]
  rfl

theorem decodeTimestamp_pack_eq (t now : Int) (ht0 : 0 ≤ t) (ht : t < 2 ^ 63)
    (h1 : now - t ≤ 798046510081) (h2 : t - now ≤ 798046510081) :
    decodeTimestamp now (packShortTimestamp t) = t - t % 1024 := by
  rw [decodeTimestamp_unfold now _ (packShortTimestamp_lt t), packShortTimestamp_cast]
  simp only [wrapI64]
  split_ifs <;> omega

/-- `Pack` followed by `Unpack` on a fresh receiver, for a transaction whose layout has
the length `size` computes. -/
theorem Unpack_Pack (c : Consts) (x : Ext) (now : Int) (m : Tx) (protocol : Nat)
    (h19 : 19 ≤ protocol)
    (hconst : 20 ≤ c.NextValidatorProtocol ∧
      c.NextValidatorProtocol ≤ c.NextValidatorMultipleProtocol ∧
      c.NextValidatorMultipleProtocol ≤ 25)
    (hT : Tx.WellTyped c m) (hC : Tx.ConsistentWith c m protocol)
    (hslip : ¬ (c.NextValidatorProtocol ≤ protocol ∧ protocol < 25 ∧
      IsNextValidator c m.flags = true))
    (hbound : (Tx.wire c x m protocol).length < 2 ^ 32) :
    Tx.Pack c x m protocol = some (Tx.wire c x m protocol) ∧
    Tx.Unpack c x now (Tx.empty c) (Tx.wire c x m protocol) protocol
      = .ok { m with
          header := x.unpackHeader (Tx.wire c x m protocol) protocol
          flags := Tx.wireFlags c m protocol
          timestamp := Tx.decodedTimestamp x now protocol m.timestamp
          quota := 0 } := by
  have hslip' : ¬ (c.NextValidatorProtocol ≤ protocol ∧
      protocol < c.NextValidatorMultipleProtocol ∧ IsNextValidator c m.flags = true) :=
    fun h => hslip ⟨h.1, by omega, h.2.2⟩
  exact ⟨Pack_eq_wire c x m protocol hT.1 (Or.inr hslip')
      (size_eq_wire_length c x m protocol h19 hT hC ⟨hconst.2.1, hconst.2.2⟩ hslip hbound),
    Unpack_wire c x now m protocol hT hC ⟨hconst.1, hconst.2.1⟩ hslip'⟩

set_option maxRecDepth 100000 in
/-- C1 (as stated, refuted): at protocol 25, a transaction consistent with the protocol
whose timestamp is not a multiple of 1024 ns is packed and unpacked, with the decoder's
clock five seconds later, into a transaction with a different timestamp. -/
theorem Pack_Unpack_roundtrip_counterexample :
    Tx.WellTyped sampleConsts (sampleMsg 0 [1, 2, 3] 1759218604441600777 (zeros 36)) ∧
    Tx.ConsistentWith sampleConsts (sampleMsg 0 [1, 2, 3] 1759218604441600777 (zeros 36)) 25 ∧
    ∃ buf m',
      Tx.Pack sampleConsts sampleExt (sampleMsg 0 [1, 2, 3] 1759218604441600777 (zeros 36)) 25
        = some buf ∧
      Tx.Unpack sampleConsts sampleExt 1759218609441600777 (Tx.empty sampleConsts) buf 25
        = .ok m' ∧
      m'.timestamp = 1759218604441600000 ∧
      m'.timestamp ≠ (sampleMsg 0 [1, 2, 3] 1759218604441600777 (zeros 36)).timestamp :=
  ⟨by decide, by decide, _, _, rfl, rfl, rfl, by decide⟩

/-- C1 (amended): for every protocol version `V ≥ 19` and every transaction `T` whose
optional fields are consistent with `V`'s feature set, whose message is shorter than
`2^32` bytes and which, below protocol 25, carries no fallback and wallet-ID fields
(next-validator flag clear, or `V` below `NextValidatorProtocol`), `Pack(T, V)` returns a
buffer and `Unpack` of it on a fresh receiver succeeds and yields `T`'s short ID, `T`'s
flags after `V`'s flag mask, fallback, wallet IDs, account ID, content and sender; the
timestamp it yields is the decoding of the packed timestamp field, which from protocol
25 on is `T`'s timestamp with its low ten bits cleared whenever the decoder's clock is
within `2^42 - 3600000000000 - 1023` ns of it. -/
theorem Pack_Unpack_roundtrip (c : Consts) (x : Ext) (now : Int) (T : Tx) (V : Nat)
    (h19 : 19 ≤ V)
    (hconst : 20 ≤ c.NextValidatorProtocol ∧
      c.NextValidatorProtocol ≤ c.NextValidatorMultipleProtocol ∧
      c.NextValidatorMultipleProtocol ≤ 25)
    (hT : Tx.WellTyped c T) (hC : Tx.ConsistentWith c T V)
    (hnv : ¬ (c.NextValidatorProtocol ≤ V ∧ V < 25 ∧ IsNextValidator c T.flags = true))
    (hlen : (Tx.wire c x T V).length < 2 ^ 32) :
    ∃ buf T',
      Tx.Pack c x T V = some buf ∧
      Tx.Unpack c x now (Tx.empty c) buf V = .ok T' ∧
      T'.shortID = T.shortID ∧
      T'.flags = (if V < 20 then T.flags &&& legacyFlagMask c else T.flags) ∧
      T'.fallback = T.fallback ∧ T'.walletIDs = T.walletIDs ∧
      T'.accountID = T.accountID ∧ T'.content = T.content ∧ T'.sender = T.sender ∧
      T'.timestamp = Tx.decodedTimestamp x now V T.timestamp ∧
      (25 ≤ V → 0 ≤ T.timestamp → T.timestamp < 2 ^ 63 →
        now - T.timestamp ≤ 798046510081 → T.timestamp - now ≤ 798046510081 →
        T'.timestamp = T.timestamp - T.timestamp % 1024) := by
  obtain ⟨hp, hu⟩ := Unpack_Pack c x now T V h19 hconst hT hC hnv hlen
  refine ⟨_, _, hp, hu, rfl, rfl, rfl, rfl, rfl, rfl, rfl, rfl, ?_⟩
  intro hV h0 h63 h1 h2
  show Tx.decodedTimestamp x now V T.timestamp = _
  unfold Tx.decodedTimestamp FullTxTimeStampProtocol
  rw [if_neg (by omega), if_neg (by omega)]
  exact decodeTimestamp_pack_eq T.timestamp now h0 h63 h1 h2

set_option maxRecDepth 100000 in
theorem Pack_Unpack_roundtrip_witness :
    ∃ buf T',
      Tx.Pack sampleConsts sampleExt
        { sampleMsg 256 [1, 2, 3] 1759218604441600777 (List.replicate 36 7) with
            shortID := 77, fallback := 9
            walletIDs := [List.replicate 42 3, List.replicate 42 4]
            sender := List.replicate 20 5 } 25 = some buf ∧
      Tx.Unpack sampleConsts sampleExt 1759218609441600777 (Tx.empty sampleConsts) buf 25
        = .ok T' ∧
      T'.shortID = 77 ∧
      T'.flags = (if 25 < 20 then 256 &&& legacyFlagMask sampleConsts else 256) ∧
      T'.fallback = 9 ∧ T'.walletIDs = [List.replicate 42 3, List.replicate 42 4] ∧
      T'.accountID = List.replicate 36 7 ∧ T'.content = [1, 2, 3] ∧
      T'.sender = List.replicate 20 5 ∧
      T'.timestamp = Tx.decodedTimestamp sampleExt 1759218609441600777 25 1759218604441600777 ∧
      (25 ≤ 25 → (0 : Int) ≤ 1759218604441600777 → (1759218604441600777 : Int) < 2 ^ 63 →
        (1759218609441600777 : Int) - 1759218604441600777 ≤ 798046510081 →
        (1759218604441600777 : Int) - 1759218609441600777 ≤ 798046510081 →
        T'.timestamp = 1759218604441600777 - 1759218604441600777 % 1024) :=
  Pack_Unpack_roundtrip sampleConsts sampleExt 1759218609441600777
    { sampleMsg 256 [1, 2, 3] 1759218604441600777 (List.replicate 36 7) with
        shortID := 77, fallback := 9
        walletIDs := [List.replicate 42 3, List.replicate 42 4]
        sender := List.replicate 20 5 } 25
    (by decide) (by decide) (by decide) (by decide) (by decide) (by decide)

theorem take_append_ge (A B : Bytes) (k : Nat) (h : A.length ≤ k) :
    (A ++ B).take k = A ++ B.take (k - A.length) := by
  rw [List.take_append_eq_append_take, List.take_of_length_le h]

theorem checkBufSize_short (buf : Bytes) (offset size : Nat) (h : buf.length < offset + size) :
    checkBufSize buf offset size = .error (.bufferTooSmall offset size buf.length) := by
  unfold checkBufSize
  rw [if_pos h]

theorem unpackHead_short (c : Consts) (x : Ext) (m : Tx) (buf : Bytes) (protocol : Nat)
    (h : buf.length < c.BroadcastHeaderLen + 6) :
    ∃ offset size, Tx.unpackHead c x m buf protocol
      = .error (.bufferTooSmall offset size buf.length) := by
  by_cases h1 : buf.length < c.BroadcastHeaderLen + 1
  · refine ⟨0, BroadcastHeader.Size c, ?_⟩
    have hc := checkBufSize_short buf 0 (BroadcastHeader.Size c)
      (by simp [BroadcastHeader.Size, ControlByteLen]; omega)
    simp only [Tx.unpackHead, BroadcastHeader.Unpack, hc]
    rfl
  · refine ⟨c.BroadcastHeaderLen, ShortIDLen + TxFlagsLen, ?_⟩
    have hc1 := checkBufSize_ok buf 0 (BroadcastHeader.Size c)
      (by simp [BroadcastHeader.Size, ControlByteLen]; omega)
    have hc2 := checkBufSize_short buf c.BroadcastHeaderLen (ShortIDLen + TxFlagsLen)
      (by simp [ShortIDLen, TxFlagsLen]; omega)
    simp only [Tx.unpackHead, BroadcastHeader.Unpack, hc1, hc2]
    rfl

theorem unpackTimestamp_short (x : Ext) (now : Int) (m m0 : Tx) (buf : Bytes)
    (protocol offset : Nat)
    (h : buf.length < offset + (Tx.timestampBytes x m0 protocol).length) :
    ∃ size, Tx.unpackTimestamp x now m buf protocol offset
      = .error (.bufferTooSmall offset size buf.length) := by
  rw [timestampBytes_length] at h
  unfold Tx.unpackTimestamp FullTxTimeStampProtocol
  split_ifs at h ⊢
  · exact ⟨UInt32Len, by rw [checkBufSize_short buf _ _ (by simp [UInt32Len]; omega)]; rfl⟩
  · exact ⟨TimestampLen, by rw [checkBufSize_short buf _ _ (by simp [TimestampLen]; omega)]; rfl⟩
  · exact ⟨ShortTimestampLen,
      by rw [checkBufSize_short buf _ _ (by simp [ShortTimestampLen]; omega)]; rfl⟩

theorem unpackNextValidator_short (c : Consts) (m : Tx) (buf : Bytes) (protocol offset : Nat)
    (hp : protocol ≥ c.NextValidatorMultipleProtocol)
    (hf : IsNextValidator c m.flags = true)
    (h : buf.length < offset + (2 + 2 * c.WalletIDLen)) :
    ∃ size, Tx.unpackNextValidator c m buf protocol offset
      = .error (.bufferTooSmall offset size buf.length) := by
  refine ⟨UInt16Len + c.WalletIDLen + c.WalletIDLen, ?_⟩
  have hc := checkBufSize_short buf offset (UInt16Len + c.WalletIDLen + c.WalletIDLen)
    (by simp [UInt16Len]; omega)
  unfold Tx.unpackNextValidator
  simp only [if_pos hp, hf, if_true, hc]
  rfl

/-- The length-checked fields: for every protocol version `V ≥ 19`, every transaction
`T` that `Pack` lays out in full (as in the round trip) and every prefix of `Pack(T, V)`
that ends before the end of the fields a length check precedes, which are the header,
the short ID, the flags, the timestamp, the fallback and the wallet IDs, `Unpack` on any
receiver returns the buffer-too-small error, naming an offset, a required size and the
length of the prefix. -/
theorem Unpack_prefix_bufferTooSmall (c : Consts) (x : Ext) (now : Int) (r T : Tx)
    (V k : Nat) (h19 : 19 ≤ V)
    (hconst : 20 ≤ c.NextValidatorProtocol ∧
      c.NextValidatorProtocol ≤ c.NextValidatorMultipleProtocol ∧
      c.NextValidatorMultipleProtocol ≤ 25)
    (hT : Tx.WellTyped c T) (hC : Tx.ConsistentWith c T V)
    (hnv : ¬ (c.NextValidatorProtocol ≤ V ∧ V < 25 ∧ IsNextValidator c T.flags = true))
    (hlen : (Tx.wire c x T V).length < 2 ^ 32)
    (hk : k < c.BroadcastHeaderLen + 6 + (Tx.timestampBytes x T V).length
      + (Tx.nextValidatorBytes c T V).length) :
    ∃ buf, Tx.Pack c x T V = some buf ∧ k < buf.length ∧
      ∃ offset size,
        Tx.Unpack c x now r (buf.take k) V = .error (.bufferTooSmall offset size k) := by
  obtain ⟨hp, _⟩ := Unpack_Pack c x now T V h19 hconst hT hC hnv hlen
  have hwl := wire_length c x T V
  have hkl : k < (Tx.wire c x T V).length := by omega
  have hpl : ((Tx.wire c x T V).take k).length = k := by
    rw [List.length_take]; omega
  obtain ⟨hA, hS, hsid, hfl, hfb⟩ := hT
  have hwf := wireFlags_lt c T V hfl
  have e1 : T.shortID % 2 ^ 32 = T.shortID := Nat.mod_eq_of_lt hsid
  have e2 : Tx.wireFlags c T V % 2 ^ 16 = Tx.wireFlags c T V := Nat.mod_eq_of_lt hwf
  refine ⟨_, hp, hkl, ?_⟩
  by_cases hcA : k < c.BroadcastHeaderLen + 6
  · obtain ⟨offset, size, he⟩ := unpackHead_short c x r ((Tx.wire c x T V).take k) V
      (by rw [hpl]; exact hcA)
    refine ⟨offset, size, ?_⟩
    unfold Tx.Unpack
    rw [he, hpl]
    rfl
  · have hsplit : Tx.wire c x T V
        = (Tx.headerBytes c x T V ++ putLE 4 T.shortID ++ putLE 2 (Tx.wireFlags c T V))
          ++ (Tx.timestampBytes x T V ++ (Tx.nextValidatorBytes c T V
            ++ (Tx.accountIDBytes T V ++ T.content ++ Tx.senderBytes T V
              ++ [x.controlByte]))) := by
      simp only [Tx.wire, e1, e2, List.append_assoc]
    have hpre : (Tx.headerBytes c x T V ++ putLE 4 T.shortID
        ++ putLE 2 (Tx.wireFlags c T V)).length = c.BroadcastHeaderLen + 6 := by
      simp [headerBytes_length, putLE_length]
    have hhead : ∀ rest, (Tx.wire c x T V).take k
          = (Tx.headerBytes c x T V ++ putLE 4 T.shortID ++ putLE 2 (Tx.wireFlags c T V))
            ++ rest →
        Tx.unpackHead c x r ((Tx.wire c x T V).take k) V
          = .ok ({ r with header := x.unpackHeader ((Tx.wire c x T V).take k) V,
                          shortID := T.shortID, flags := Tx.wireFlags c T V },
              c.BroadcastHeaderLen + ShortIDLen + TxFlagsLen) := fun rest hr =>
      unpackHead_run c x r _ (Tx.headerBytes c x T V) rest V T.shortID (Tx.wireFlags c T V)
        (by rw [hr]; simp only [List.append_assoc]) (headerBytes_length c x T V) hsid hwf
    by_cases hcB : k < c.BroadcastHeaderLen + 6 + (Tx.timestampBytes x T V).length
    · have htake := take_append_ge _ (Tx.timestampBytes x T V ++ (Tx.nextValidatorBytes c T V
            ++ (Tx.accountIDBytes T V ++ T.content ++ Tx.senderBytes T V
              ++ [x.controlByte]))) k (by rw [hpre]; omega)
      rw [← hsplit] at htake
      obtain ⟨size, he⟩ := unpackTimestamp_short x now
        { r with header := x.unpackHeader ((Tx.wire c x T V).take k) V,
                 shortID := T.shortID, flags := Tx.wireFlags c T V } T
        ((Tx.wire c x T V).take k) V (c.BroadcastHeaderLen + ShortIDLen + TxFlagsLen)
        (by rw [hpl]; simp only [ShortIDLen, TxFlagsLen]; omega)
      refine ⟨c.BroadcastHeaderLen + ShortIDLen + TxFlagsLen, size, ?_⟩
      unfold Tx.Unpack
      rw [hhead _ htake]
      simp only [Except.bind]
      rw [he, hpl]
    · have hsplit2 : Tx.wire c x T V
          = (Tx.headerBytes c x T V ++ putLE 4 T.shortID ++ putLE 2 (Tx.wireFlags c T V)
              ++ Tx.timestampBytes x T V)
            ++ (Tx.nextValidatorBytes c T V
              ++ (Tx.accountIDBytes T V ++ T.content ++ Tx.senderBytes T V
                ++ [x.controlByte])) := by
        rw [hsplit]; simp only [List.append_assoc]
      have htake := take_append_ge
        (Tx.headerBytes c x T V ++ putLE 4 T.shortID ++ putLE 2 (Tx.wireFlags c T V)
              ++ Tx.timestampBytes x T V)
        (Tx.nextValidatorBytes c T V
          ++ (Tx.accountIDBytes T V ++ T.content ++ Tx.senderBytes T V
            ++ [x.controlByte])) k
        (by rw [List.length_append, hpre]; omega)
      rw [← hsplit2] at htake
      obtain ⟨Z, hZ⟩ : ∃ Z, (Tx.wire c x T V).take k
          = (Tx.headerBytes c x T V ++ putLE 4 T.shortID ++ putLE 2 (Tx.wireFlags c T V)
              ++ Tx.timestampBytes x T V) ++ Z := ⟨_, htake⟩
      have hnvl := nextValidatorBytes_length c T V hC hconst.2.1
        (fun h => hnv ⟨h.1, by omega, h.2.2⟩)
      have hcond : V ≥ c.NextValidatorMultipleProtocol ∧ IsNextValidator c T.flags = true := by
        by_contra hne
        rw [if_neg hne] at hnvl
        omega
      rw [if_pos hcond] at hnvl
      have hflags : Tx.wireFlags c T V = T.flags := wireFlags_of_ge c T V (by omega)
      obtain ⟨size, he⟩ := unpackNextValidator_short c
        { r with header := x.unpackHeader ((Tx.wire c x T V).take k) V,
                 shortID := T.shortID, flags := Tx.wireFlags c T V,
                 timestamp := Tx.decodedTimestamp x now V T.timestamp }
        ((Tx.wire c x T V).take k) V
        (c.BroadcastHeaderLen + ShortIDLen + TxFlagsLen + (Tx.timestampBytes x T V).length)
        hcond.1 (by show IsNextValidator c (Tx.wireFlags c T V) = true; rw [hflags]; exact hcond.2)
        (by rw [hpl]; simp only [ShortIDLen, TxFlagsLen]; omega)
      refine ⟨c.BroadcastHeaderLen + ShortIDLen + TxFlagsLen
        + (Tx.timestampBytes x T V).length, size, ?_⟩
      unfold Tx.Unpack
      rw [hhead (Tx.timestampBytes x T V ++ Z) (by rw [hZ]; simp only [List.append_assoc])]
      simp only [Except.bind]
      rw [unpackTimestamp_run x now _ T ((Tx.wire c x T V).take k)
        (Tx.headerBytes c x T V ++ putLE 4 T.shortID ++ putLE 2 (Tx.wireFlags c T V))
        Z V _ (by rw [hZ]; simp only [List.append_assoc])
        (by rw [hpre]; simp [ShortIDLen, TxFlagsLen])]
      simp only []
      rw [he, hpl]

set_option maxRecDepth 100000 in
/-- Two prefixes of a packed message: of the 142 bytes `Pack` returns at protocol 25
for a transaction with content `[1, 2, 3]`, the prefix of 141 bytes is unpacked without
an error into a transaction with content `[1, 2]`, and on the prefix of 100 bytes, which
ends inside the account ID, `Unpack` panics on a slice out of range; neither returns the
buffer-too-small error. -/
theorem Unpack_prefix_counterexample :
    ∃ buf m',
      Tx.Pack sampleConsts sampleExt (sampleMsg 0 [1, 2, 3] 0 (zeros 36)) 25 = some buf ∧
      buf.length = 142 ∧
      Tx.Unpack sampleConsts sampleExt 0 (Tx.empty sampleConsts) (buf.take 141) 25 = .ok m' ∧
      m'.content = [1, 2] ∧
      Tx.Unpack sampleConsts sampleExt 0 (Tx.empty sampleConsts) (buf.take 100) 25
        = .error .outOfRange :=
  ⟨_, _, rfl, rfl, rfl, rfl, rfl⟩

set_option maxRecDepth 100000 in
theorem Unpack_prefix_bufferTooSmall_witness :
    ∃ buf, Tx.Pack sampleConsts sampleExt (sampleMsg 0 [1, 2, 3] 0 (zeros 36)) 25 = some buf ∧
      80 < buf.length ∧
      ∃ offset size,
        Tx.Unpack sampleConsts sampleExt 0 (Tx.empty sampleConsts) (buf.take 80) 25
          = .error (.bufferTooSmall offset size 80) :=
  Unpack_prefix_bufferTooSmall sampleConsts sampleExt 0 (Tx.empty sampleConsts)
    (sampleMsg 0 [1, 2, 3] 0 (zeros 36)) 25 80
    (by decide) (by decide) (by decide) (by decide) (by decide) (by decide) (by decide)

set_option maxRecDepth 100000 in
/-- C3 (evaluated at the failing input): at protocol 24 a transaction built as `NewTx`
builds it, with the next-validator flag and no content, gets a buffer of 123 bytes from
`size`, which leaves out the fallback and the wallet IDs, and `Pack` panics on the slice
`buf[88:130]` of the first wallet ID. -/
theorem Pack_nextValidator_protocol24_panics :
    Tx.size sampleConsts (sampleMsg 256 [] 0 (zeros 36)) 24 = 123 ∧
    IsNextValidator sampleConsts (sampleMsg 256 [] 0 (zeros 36)).flags = true ∧
    Tx.Pack sampleConsts sampleExt (sampleMsg 256 [] 0 (zeros 36)) 24 = none :=
  ⟨by decide, by decide, rfl⟩

/-! ## C11, C12, C13: the nonce policy of the orchestrator -/

/-- When the base store reports no new content or a failed validation, or nonce checking
is not active for the network, `addStored` returns the base store's result and leaves
the nonce tracker alone. -/
theorem addStored_of_skip {σ : Type} (c : Consts) (base : BaseStore σ)
    (parse : BxTransaction → Bytes → Option EthTransaction) (now : Int) (t : EthTxStore σ)
    (hash content : Bytes) (shortID network flags : Nat) (timestamp networkChainID : Int)
    (sender : Bytes) (blockchainTx : Option EthTransaction) (log : List Event)
    (hskip :
      (base.Add t.BxTxStore hash content shortID network false flags timestamp networkChainID
          sender).1.NewContent = false ∨
      (base.Add t.BxTxStore hash content shortID network false flags timestamp networkChainID
          sender).1.FailedValidation = true ∨
      t.nonceTracker.isReuseNonceActive network = false) :
    EthTxStore.addStored c base parse now t hash content shortID network flags timestamp
        networkChainID sender blockchainTx log =
      some ((base.Add t.BxTxStore hash content shortID network false flags timestamp
          networkChainID sender).1,
        { t with BxTxStore := (base.Add t.BxTxStore hash content shortID network false flags
            timestamp networkChainID sender).2 },
        log ++ [Event.storeAdd]) := by
  unfold EthTxStore.addStored
  simp only
  split_ifs with h1 h2
  · rfl
  · rfl
  · exfalso
    rcases hskip with h | h | h
    · simp [h] at h1
    · simp [h] at h1
    · simp [h] at h2

/-- When the base store reports new content that passed validation, nonce checking is
active and the transaction at hand is `ethTx`, `addStored` consults the tracker and
annotates the result according to its verdict. -/
theorem addStored_of_track {σ : Type} (c : Consts) (base : BaseStore σ)
    (parse : BxTransaction → Bytes → Option EthTransaction) (now : Int) (t : EthTxStore σ)
    (hash content : Bytes) (shortID network flags : Nat) (timestamp networkChainID : Int)
    (sender : Bytes) (blockchainTx : Option EthTransaction) (log : List Event)
    (ethTx : EthTransaction) (seen : Bool) (otherTx : Option Bytes) (nt' : nonceTracker)
    (hnew : (base.Add t.BxTxStore hash content shortID network false flags timestamp
        networkChainID sender).1.NewContent = true)
    (hfv : (base.Add t.BxTxStore hash content shortID network false flags timestamp
        networkChainID sender).1.FailedValidation = false)
    (hact : t.nonceTracker.isReuseNonceActive network = true)
    (hparsed : blockchainTx = some ethTx ∨
      (blockchainTx = none ∧
        parse (base.Add t.BxTxStore hash content shortID network false flags timestamp
          networkChainID sender).1.Transaction sender = some ethTx))
    (htrack : t.nonceTracker.track now ethTx network = some (seen, otherTx, nt')) :
    ∃ log',
      EthTxStore.addStored c base parse now t hash content shortID network flags timestamp
          networkChainID sender blockchainTx log =
        some (
          (if seen = true then
            { (base.Add t.BxTxStore hash content shortID network false flags timestamp
                networkChainID sender).1 with
              Nonce := ethTx.Nonce
              Transaction := (base.Add t.BxTxStore hash content shortID network false flags
                timestamp networkChainID sender).1.Transaction.AddFlags c.TFReusedNonce
              DebugData := some (DebugData.reuseNonce
                (base.Add t.BxTxStore hash content shortID network false flags timestamp
                  networkChainID sender).1.Transaction.hash ethTx.From ethTx.Nonce otherTx
                networkChainID) }
          else
            { (base.Add t.BxTxStore hash content shortID network false flags timestamp
                networkChainID sender).1 with Nonce := ethTx.Nonce }),
          { BxTxStore := (base.Add t.BxTxStore hash content shortID network false flags
              timestamp networkChainID sender).2, nonceTracker := nt' },
          log') := by
  unfold EthTxStore.addStored
  simp only [hnew, hfv, hact, Bool.not_true, Bool.or_self, Bool.false_eq_true, if_false]
  rcases hparsed with h | ⟨h, hp⟩
  · subst h
    simp only [htrack]
    cases seen
    · exact ⟨_, rfl⟩
    · exact ⟨_, rfl⟩
  · subst h
    simp only [hp, htrack]
    cases seen
    · exact ⟨_, rfl⟩
    · exact ⟨_, rfl⟩

/-- C12: for every call of `EthTxStore.add` that reaches the base store (validation was
not requested, or the content was already held, or it passed; `sender'` is the sender
handed to the base store), if the base store's result has `NewContent = false` or
`FailedValidation = true`, or nonce checking is not active for the network, then `add`
returns exactly the base store's result, the nonce tracker is unchanged, and `track`
was not called; and for every call at all on a network without active nonce checking,
`add` returns with the nonce tracker unchanged and without a call of `track`. -/
theorem add_tracker_untouched {σ : Type} (c : Consts) (base : BaseStore σ)
    (parse : BxTransaction → Bytes → Option EthTransaction) (now : Int) (t : EthTxStore σ)
    (hash content : Bytes) (shortID network : Nat) (validate : Bool) (flags : Nat)
    (timestamp networkChainID : Int) (sender sender' : Bytes) :
    (((validate = true ∧ base.HasContent t.BxTxStore hash = false ∧
        ∃ ethTx,
          parse { NewBxTransaction hash network flags timestamp with content := content }
            EmptySender = some ethTx ∧
          ¬ (networkChainID ≠ 0 ∧ ethTx.ChainID ≠ 0 ∧ networkChainID ≠ ethTx.ChainID) ∧
          sender' = copyInto sender ethTx.From) ∨
      ((validate = false ∨ base.HasContent t.BxTxStore hash = true) ∧ sender' = sender)) →
     ((base.Add t.BxTxStore hash content shortID network false flags timestamp networkChainID
          sender').1.NewContent = false ∨
      (base.Add t.BxTxStore hash content shortID network false flags timestamp networkChainID
          sender').1.FailedValidation = true ∨
      t.nonceTracker.isReuseNonceActive network = false) →
     ∃ log,
      EthTxStore.add c base parse now t hash content shortID network validate flags timestamp
          networkChainID sender =
        some ((base.Add t.BxTxStore hash content shortID network false flags timestamp
            networkChainID sender').1,
          { BxTxStore := (base.Add t.BxTxStore hash content shortID network false flags
              timestamp networkChainID sender').2, nonceTracker := t.nonceTracker },
          log) ∧
      Event.track ∉ log) ∧
    (t.nonceTracker.isReuseNonceActive network = false →
      ∃ result t' log,
        EthTxStore.add c base parse now t hash content shortID network validate flags timestamp
          networkChainID sender = some (result, t', log) ∧
        t'.nonceTracker = t.nonceTracker ∧ Event.track ∉ log) := by
  constructor
  · intro hpath hskip
    rcases hpath with ⟨hv, hh, ethTx, hp, hm, hs⟩ | ⟨hc, hs⟩
    · subst hs
      refine ⟨[Event.parse EmptySender] ++ [Event.storeAdd], ?_, by simp⟩
      unfold EthTxStore.add
      simp only [hv, hh, Bool.not_false, Bool.and_self, if_true, hp, if_neg hm]
      exact addStored_of_skip c base parse now t hash content shortID network flags timestamp
        networkChainID (copyInto sender ethTx.From) (some ethTx) [Event.parse EmptySender] hskip
    · subst hs
      have hc' : (validate && !base.HasContent t.BxTxStore hash) = false := by
        rcases hc with h | h
        · simp [h]
        · simp [h]
      refine ⟨[] ++ [Event.storeAdd], ?_, by simp⟩
      unfold EthTxStore.add
      simp only [hc', Bool.false_eq_true, if_false]
      exact addStored_of_skip c base parse now t hash content shortID network flags timestamp
        networkChainID sender' none [] hskip
  · intro hoff
    unfold EthTxStore.add
    simp only
    split_ifs with h1
    · cases hp : parse { NewBxTransaction hash network flags timestamp with content := content }
          EmptySender with
      | none => exact ⟨_, t, [Event.parse EmptySender], rfl, rfl, by simp⟩
      | some ethTx =>
        simp only
        split_ifs with hm
        · exact ⟨_, t, [Event.parse EmptySender], rfl, rfl, by simp⟩
        · exact ⟨_, _, _, addStored_of_skip c base parse now t hash content shortID network _
            timestamp networkChainID (copyInto sender ethTx.From) (some ethTx)
            [Event.parse EmptySender] (Or.inr (Or.inr hoff)), rfl, by simp⟩
    · exact ⟨_, _, _, addStored_of_skip c base parse now t hash content shortID network _
        timestamp networkChainID sender none [] (Or.inr (Or.inr hoff)), rfl, by simp⟩

theorem add_tracker_untouched_witness :
    ∃ log,
      EthTxStore.add sampleConsts sampleStore sampleParse 1000
          ⟨(), occupiedTracker 5 sampleNetwork 900 (sampleTx [1] [7] 5 200 20)⟩
          [2] [5, 0] 0 6 false 4 950 1 EmptySender =
        some ((sampleStore.Add () [2] [5, 0] 0 6 false 4 950 1 EmptySender).1,
          { BxTxStore := (sampleStore.Add () [2] [5, 0] 0 6 false 4 950 1 EmptySender).2
            nonceTracker := occupiedTracker 5 sampleNetwork 900 (sampleTx [1] [7] 5 200 20) },
          log) ∧
      Event.track ∉ log :=
  (add_tracker_untouched sampleConsts sampleStore sampleParse 1000
    ⟨(), occupiedTracker 5 sampleNetwork 900 (sampleTx [1] [7] 5 200 20)⟩
    [2] [5, 0] 0 6 false 4 950 1 EmptySender EmptySender).1
    (Or.inr ⟨Or.inl rfl, rfl⟩) (Or.inr (Or.inr rfl))

/-- C11: for every call of `EthTxStore.add` that reaches the base store with the parsed
transaction `ethTx` (`sender'` is the sender handed to the base store), if the base
store reports new content without failed validation, nonce checking is active for the
network and `track` returns the verdict `seen`, then `add` returns a result with
`Nonce = ethTx.Nonce` and `FailedValidation = false`; when `seen` is true the result's
transaction is the base store's with the reused-nonce flag added and the debug data
names the hash, sender, nonce, occupant and network; when `seen` is false the
transaction and the debug data are the base store's. -/
theorem add_reused_nonce_annotation {σ : Type} (c : Consts) (base : BaseStore σ)
    (parse : BxTransaction → Bytes → Option EthTransaction) (now : Int) (t : EthTxStore σ)
    (hash content : Bytes) (shortID network : Nat) (validate : Bool) (flags : Nat)
    (timestamp networkChainID : Int) (sender sender' : Bytes)
    (ethTx : EthTransaction) (seen : Bool) (otherTx : Option Bytes) (nt' : nonceTracker)
    (hpath :
      (validate = true ∧ base.HasContent t.BxTxStore hash = false ∧
        parse { NewBxTransaction hash network flags timestamp with content := content }
          EmptySender = some ethTx ∧
        ¬ (networkChainID ≠ 0 ∧ ethTx.ChainID ≠ 0 ∧ networkChainID ≠ ethTx.ChainID) ∧
        sender' = copyInto sender ethTx.From) ∨
      ((validate = false ∨ base.HasContent t.BxTxStore hash = true) ∧ sender' = sender ∧
        parse (base.Add t.BxTxStore hash content shortID network false flags timestamp
          networkChainID sender).1.Transaction sender = some ethTx))
    (hnew : (base.Add t.BxTxStore hash content shortID network false flags timestamp
        networkChainID sender').1.NewContent = true)
    (hfv : (base.Add t.BxTxStore hash content shortID network false flags timestamp
        networkChainID sender').1.FailedValidation = false)
    (hact : t.nonceTracker.isReuseNonceActive network = true)
    (htrack : t.nonceTracker.track now ethTx network = some (seen, otherTx, nt')) :
    ∃ result t' log,
      EthTxStore.add c base parse now t hash content shortID network validate flags timestamp
          networkChainID sender = some (result, t', log) ∧
      result.Nonce = ethTx.Nonce ∧ result.FailedValidation = false ∧
      t'.nonceTracker = nt' ∧
      (seen = true →
        result.Transaction =
          (base.Add t.BxTxStore hash content shortID network false flags timestamp
            networkChainID sender').1.Transaction.AddFlags c.TFReusedNonce ∧
        result.Transaction.flags &&& c.TFReusedNonce = c.TFReusedNonce ∧
        result.DebugData = some (DebugData.reuseNonce
          (base.Add t.BxTxStore hash content shortID network false flags timestamp
            networkChainID sender').1.Transaction.hash ethTx.From ethTx.Nonce otherTx
          networkChainID)) ∧
      (seen = false →
        result.Transaction =
          (base.Add t.BxTxStore hash content shortID network false flags timestamp
            networkChainID sender').1.Transaction ∧
        result.DebugData =
          (base.Add t.BxTxStore hash content shortID network false flags timestamp
            networkChainID sender').1.DebugData) := by
  have key : ∀ (blockchainTx : Option EthTransaction) (log : List Event),
      (blockchainTx = some ethTx ∨
        (blockchainTx = none ∧
          parse (base.Add t.BxTxStore hash content shortID network false flags timestamp
            networkChainID sender').1.Transaction sender' = some ethTx)) →
      ∃ result t' log',
        EthTxStore.addStored c base parse now t hash content shortID network flags timestamp
            networkChainID sender' blockchainTx log = some (result, t', log') ∧
        result.Nonce = ethTx.Nonce ∧ result.FailedValidation = false ∧
        t'.nonceTracker = nt' ∧
        (seen = true →
          result.Transaction =
            (base.Add t.BxTxStore hash content shortID network false flags timestamp
              networkChainID sender').1.Transaction.AddFlags c.TFReusedNonce ∧
          result.Transaction.flags &&& c.TFReusedNonce = c.TFReusedNonce ∧
          result.DebugData = some (DebugData.reuseNonce
            (base.Add t.BxTxStore hash content shortID network false flags timestamp
              networkChainID sender').1.Transaction.hash ethTx.From ethTx.Nonce otherTx
            networkChainID)) ∧
        (seen = false →
          result.Transaction =
            (base.Add t.BxTxStore hash content shortID network false flags timestamp
              networkChainID sender').1.Transaction ∧
          result.DebugData =
            (base.Add t.BxTxStore hash content shortID network false flags timestamp
              networkChainID sender').1.DebugData) := by
    intro blockchainTx log hparsed
    obtain ⟨log', hrun⟩ := addStored_of_track c base parse now t hash content shortID network
      flags timestamp networkChainID sender' blockchainTx log ethTx seen otherTx nt' hnew hfv
      hact hparsed htrack
    cases seen
    · simp only [Bool.false_eq_true, if_false] at hrun
      exact ⟨_, _, log', hrun, rfl, hfv, rfl, fun h => Bool.noConfusion h, fun _ => ⟨rfl, rfl⟩⟩
    · simp only [if_true] at hrun
      refine ⟨_, _, log', hrun, rfl, hfv, rfl, fun _ => ⟨rfl, ?_, rfl⟩, fun h => Bool.noConfusion h⟩
      simp only [BxTransaction.AddFlags]
      apply Nat.eq_of_testBit_eq
      intro i
      simp only [Nat.testBit_and, Nat.testBit_or]
      cases (base.Add t.BxTxStore hash content shortID network false flags timestamp
        networkChainID sender').1.Transaction.flags.testBit i <;>
        cases c.TFReusedNonce.testBit i <;> rfl
  rcases hpath with ⟨hv, hh, hp, hm, hs⟩ | ⟨hc, hs, hp⟩
  · subst hs
    unfold EthTxStore.add
    simp only [hv, hh, Bool.not_false, Bool.and_self, if_true, hp, if_neg hm]
    exact key (some ethTx) [Event.parse EmptySender] (Or.inl rfl)
  · subst hs
    have hc' : (validate && !base.HasContent t.BxTxStore hash) = false := by
      rcases hc with h | h
      · simp [h]
      · simp [h]
    unfold EthTxStore.add
    simp only [hc', Bool.false_eq_true, if_false]
    exact key none [] (Or.inr ⟨rfl, hp⟩)

theorem add_reused_nonce_annotation_witness :
    ∃ result t' log,
      EthTxStore.add sampleConsts sampleStore sampleParse 1000
          ⟨(), occupiedTracker 5 sampleNetwork 900 (sampleTx [1] [7] 5 200 20)⟩
          [2] [5, 0] 0 5 true 4 950 1 EmptySender = some (result, t', log) ∧
      result.Nonce = 5 ∧ result.FailedValidation = false ∧
      t'.nonceTracker = occupiedTracker 5 sampleNetwork 900 (sampleTx [1] [7] 5 200 20) ∧
      (true = true →
        result.Transaction =
          (sampleStore.Add () [2] [5, 0] 0 5 false 4 950 1
            (copyInto EmptySender [7])).1.Transaction.AddFlags sampleConsts.TFReusedNonce ∧
        result.Transaction.flags &&& sampleConsts.TFReusedNonce = sampleConsts.TFReusedNonce ∧
        result.DebugData = some (DebugData.reuseNonce [2] [7] 5 (some [1]) 1)) ∧
      (true = false →
        result.Transaction =
          (sampleStore.Add () [2] [5, 0] 0 5 false 4 950 1
            (copyInto EmptySender [7])).1.Transaction ∧
        result.DebugData =
          (sampleStore.Add () [2] [5, 0] 0 5 false 4 950 1
            (copyInto EmptySender [7])).1.DebugData) :=
  add_reused_nonce_annotation sampleConsts sampleStore sampleParse 1000
    ⟨(), occupiedTracker 5 sampleNetwork 900 (sampleTx [1] [7] 5 200 20)⟩
    [2] [5, 0] 0 5 true 4 950 1 EmptySender (copyInto EmptySender [7])
    (sampleTx [2] [7] 5 100 10) true (some [1])
    (occupiedTracker 5 sampleNetwork 900 (sampleTx [1] [7] 5 200 20))
    (Or.inl ⟨rfl, rfl, rfl, by decide, rfl⟩) rfl rfl rfl rfl

/-- C13: `isReuseNonceActive` returns true if and only if the configuration has an entry
for the network and the entry has `EnableCheckSenderNonce` set; for a network without an
entry it returns false. -/
theorem isReuseNonceActive_iff (nt : nonceTracker) (networkNum : Nat) :
    (nt.isReuseNonceActive networkNum = true ↔
      ∃ config, nt.networkConfig networkNum = some config ∧
        config.EnableCheckSenderNonce = true) ∧
    (nt.networkConfig networkNum = none → nt.isReuseNonceActive networkNum = false) := by
  unfold nonceTracker.isReuseNonceActive
  cases hc : nt.networkConfig networkNum with
  | none => simp
  | some config => simp

theorem isReuseNonceActive_iff_witness :
    ((emptyTracker 5 sampleNetwork).isReuseNonceActive 5 = true ∧
      (emptyTracker 5 sampleNetwork).isReuseNonceActive 6 = false) :=
  ⟨(isReuseNonceActive_iff (emptyTracker 5 sampleNetwork) 5).1.2 ⟨sampleNetwork, rfl, rfl⟩,
   (isReuseNonceActive_iff (emptyTracker 5 sampleNetwork) 6).2 rfl⟩

/-! ## C14: thresholds and expiry of `setTransaction` -/

theorem truncMag_shift (q k : Nat) (e : Int) :
    truncMag q (e + k) = truncMag (q * 2 ^ k) e := by
  unfold truncMag
  by_cases he : 0 ≤ e
  · have h1 : 0 ≤ e + k := by omega
    rw [if_pos he, if_pos h1]
    have h2 : (e + k).toNat = k + e.toNat := by omega
    rw [h2, Nat.pow_add, Nat.mul_assoc]
  · rw [if_neg he]
    by_cases h1 : 0 ≤ e + k
    · rw [if_pos h1]
      have h2 : k = (e + k).toNat + (-e).toNat := by omega
      conv_rhs => rw [h2, Nat.pow_add, ← Nat.mul_assoc]
      rw [Nat.mul_div_cancel _ (Nat.pow_pos (by decide))]
    · rw [if_neg h1]
      have h2 : (-e).toNat = (-(e + k)).toNat + k := by omega
      rw [h2, Nat.pow_add, Nat.mul_div_mul_right _ _ (Nat.pow_pos (by decide))]

theorem roundMant_exact (prec mag : Nat) (h : 2 ^ (bitLen mag - prec) ∣ mag) :
    (roundMant prec mag).1 * 2 ^ (roundMant prec mag).2 = mag := by
  unfold roundMant
  split_ifs with h1
  · simp
  · have hr : mag % 2 ^ (bitLen mag - prec) = 0 := Nat.mod_eq_zero_of_dvd h
    have hhalf : 0 < 2 ^ (bitLen mag - prec - 1) := Nat.pow_pos (by decide)
    have hc : ¬ (mag % 2 ^ (bitLen mag - prec) > 2 ^ (bitLen mag - prec - 1) ∨
        (mag % 2 ^ (bitLen mag - prec) = 2 ^ (bitLen mag - prec - 1) ∧
          mag / 2 ^ (bitLen mag - prec) % 2 = 1)) := by
      rw [hr]
      omega
    simp only [if_neg hc]
    exact Nat.div_mul_cancel h

/-- Whenever the exact product fits the precision, the threshold of the code is the
truncated product of the specification. -/
theorem scaleCap_eq_specThreshold (cap : Int) (factor : Float64)
    (h : FitsPrecision cap factor) : scaleCap cap factor = specThreshold cap factor := by
  unfold FitsPrecision at h
  have hx := roundMant_exact _ _ h
  have ht := truncMag_shift
    (roundMant (max (bitLen cap.natAbs) 64) (cap * factor.mant).natAbs).1
    (roundMant (max (bitLen cap.natAbs) 64) (cap * factor.mant).natAbs).2 factor.exp
  rw [hx] at ht
  unfold scaleCap specThreshold
  simp only [ht]
  unfold truncMag
  by_cases hneg : cap * factor.mant < 0
  · have hp : cap * factor.mant = -((cap * factor.mant).natAbs : Int) := by omega
    rw [if_pos hneg]
    by_cases he : 0 ≤ factor.exp
    · rw [if_pos he, if_pos he]
      conv_rhs => rw [hp]
      push_cast
      ring
    · rw [if_neg he, if_neg he]
      conv_rhs => rw [hp]
      rw [Int.neg_tdiv]
      congr 1
      rw [Int.tdiv_eq_ediv (by omega) (by positivity)]
      push_cast
      rfl
  · have hp : cap * factor.mant = ((cap * factor.mant).natAbs : Int) := by omega
    rw [if_neg hneg]
    by_cases he : 0 ≤ factor.exp
    · rw [if_pos he, if_pos he]
      conv_rhs => rw [hp]
      push_cast
      ring
    · rw [if_neg he, if_neg he]
      conv_rhs => rw [hp]
      rw [Int.tdiv_eq_ediv (by omega) (by positivity)]
      push_cast
      rfl

theorem fitsPrecision_one (cap : Int) : FitsPrecision cap ⟨1, 0⟩ := by
  unfold FitsPrecision
  simp only [Int.mul_one]
  rw [show bitLen cap.natAbs - max (bitLen cap.natAbs) 64 = 0 by omega]
  simp

theorem specThreshold_one (cap : Int) : specThreshold cap ⟨1, 0⟩ = cap := by
  simp [specThreshold]

theorem wrapI64_of_isI64 (x : Int) (h : IsI64 x) : wrapI64 x = x := by
  unfold IsI64 at h
  unfold wrapI64
  omega

set_option maxRecDepth 100000 in
/-- C14 (counterexample): with the factor `1.001` (the `float64` nearest to it,
`2254051613498933 * 2^-51`) and an effective gas fee cap of `9079837959001`, the entry
`setTransaction` stores has the fee-cap threshold `9088917796960`, while the cap
multiplied by the factor and truncated is `9088917796959`. -/
theorem setTransaction_thresholds_counterexample :
    ∃ nt',
      (emptyTracker 5
          { EnableCheckSenderNonce := true
            AllowGasPriceChangeReuseSenderNonce := ⟨2254051613498933, -51⟩
            AllowTimeReuseSenderNonce := 60 }).setTransaction 1000
        (sampleTx [1] [7] 5 9079837959001 9079837959001) 5 = some nt' ∧
      (nt'.getTransaction [7] 5).map trackedTx.gasFeeCap = some 9088917796960 ∧
      specThreshold 9079837959001 ⟨2254051613498933, -51⟩ = 9088917796959 :=
  ⟨_, rfl, rfl, rfl⟩

/-- C14: for every tracker, clock reading, transaction `tx` and network with a
configuration entry (factor `f`, delay `d` seconds), `setTransaction` returns, and the
entry stored under `(tx.From, tx.Nonce)` holds `tx`; its thresholds are the products of
the effective caps and `f` rounded to `max(cap.BitLen(), 64)` bits and then truncated,
which is the cap multiplied by `f` and truncated whenever the exact product fits that
precision, and the cap itself for `f = 1`; its expiry is `now` plus `d` seconds in
`int64` nanoseconds, which is `now + d * 10^9` whenever that product is in range. -/
theorem setTransaction_thresholds (nt : nonceTracker) (now : Int) (tx : EthTransaction)
    (network : Nat) (config : BlockchainNetwork)
    (hc : nt.networkConfig network = some config) :
    ∃ nt' entry,
      nt.setTransaction now tx network = some nt' ∧
      nt'.getTransaction tx.From tx.Nonce = some entry ∧
      entry.tx = tx ∧
      entry.gasFeeCap
        = scaleCap tx.EffectiveGasFeeCap config.AllowGasPriceChangeReuseSenderNonce ∧
      entry.gasTipCap
        = scaleCap tx.EffectiveGasTipCap config.AllowGasPriceChangeReuseSenderNonce ∧
      (FitsPrecision tx.EffectiveGasFeeCap config.AllowGasPriceChangeReuseSenderNonce →
        entry.gasFeeCap
          = specThreshold tx.EffectiveGasFeeCap config.AllowGasPriceChangeReuseSenderNonce) ∧
      (FitsPrecision tx.EffectiveGasTipCap config.AllowGasPriceChangeReuseSenderNonce →
        entry.gasTipCap
          = specThreshold tx.EffectiveGasTipCap config.AllowGasPriceChangeReuseSenderNonce) ∧
      (config.AllowGasPriceChangeReuseSenderNonce = ⟨1, 0⟩ →
        entry.gasFeeCap = tx.EffectiveGasFeeCap ∧ entry.gasTipCap = tx.EffectiveGasTipCap) ∧
      entry.expireTime = now + wrapI64 (config.AllowTimeReuseSenderNonce * 1000000000) ∧
      (IsI64 (config.AllowTimeReuseSenderNonce * 1000000000) →
        entry.expireTime = now + config.AllowTimeReuseSenderNonce * 1000000000) := by
  refine ⟨_, trackedOf config now tx, setTransaction_of_config nt now tx network config hc,
    ?_, rfl, rfl, rfl, ?_, ?_, ?_, rfl, ?_⟩
  · simp [nonceTracker.getTransaction, mapStore_same]
  · intro h
    exact scaleCap_eq_specThreshold _ _ h
  · intro h
    exact scaleCap_eq_specThreshold _ _ h
  · intro h
    simp only [trackedOf, h]
    rw [scaleCap_eq_specThreshold _ _ (fitsPrecision_one _), specThreshold_one,
      scaleCap_eq_specThreshold _ _ (fitsPrecision_one _), specThreshold_one]
    exact ⟨rfl, rfl⟩
  · intro h
    simp only [trackedOf, wrapI64_of_isI64 _ h]

theorem setTransaction_thresholds_witness :
    ∃ nt' entry,
      (emptyTracker 5 sampleNetwork).setTransaction 1000 (sampleTx [1] [7] 5 100 10) 5
        = some nt' ∧
      nt'.getTransaction [7] 5 = some entry ∧
      entry.gasFeeCap = 100 ∧ entry.gasTipCap = 10 ∧ entry.expireTime = 1000 + 60 * 1000000000 :=
  let ⟨nt', entry, h1, h2, _, _, _, _, _, h8, _, h10⟩ :=
    setTransaction_thresholds (emptyTracker 5 sampleNetwork) 1000 (sampleTx [1] [7] 5 100 10) 5
      sampleNetwork rfl
  ⟨nt', entry, h1, h2, (h8 rfl).1, (h8 rfl).2, h10 (by decide)⟩

/-! ## C20: the sweep of the nonce tracker -/

theorem cleanRange_apply (now : Int) (keys : List Bytes) (m : Bytes → Option trackedTx)
    (k : Bytes) :
    cleanRange now m keys k =
      match m k with
      | none => none
      | some tracked => if k ∈ keys ∧ now > tracked.expireTime then none else some tracked := by
  induction keys generalizing m with
  | nil =>
    unfold cleanRange
    cases m k <;> simp
  | cons key rest ih =>
    unfold cleanRange
    cases hkey : m key with
    | none =>
      simp only
      rw [ih m]
      by_cases hk : k = key
      · subst hk
        simp [hkey]
      · simp [hk]
    | some tr =>
      simp only
      by_cases hexp : now > tr.expireTime
      · rw [if_pos hexp, ih (mapDelete m key)]
        by_cases hk : k = key
        · subst hk
          simp [mapDelete, hkey, hexp]
        · simp [mapDelete, hk]
      · rw [if_neg hexp, ih m]
        by_cases hk : k = key
        · subst hk
          simp [hkey, hexp]
        · simp [hk]

/-- C20: for every tracker state and clock reading `now`, the map after `clean` holds
exactly the entries of the prior map whose expiry is not strictly before `now`, each
unchanged; every entry whose expiry is before `now` is gone; the configuration is
untouched; and the map is the one the `Range` loop leaves, whatever the order in which
`Range` visits the keys of the map. -/
theorem clean_keeps_unexpired (nt : nonceTracker) (now : Int) :
    (∀ k v, (nt.clean now).addressNonceToTx k = some v ↔
      nt.addressNonceToTx k = some v ∧ ¬ v.expireTime < now) ∧
    (∀ k v, nt.addressNonceToTx k = some v → v.expireTime < now →
      (nt.clean now).addressNonceToTx k = none) ∧
    (nt.clean now).networkConfig = nt.networkConfig ∧
    (∀ keys : List Bytes, (∀ k, nt.addressNonceToTx k ≠ none → k ∈ keys) →
      cleanRange now nt.addressNonceToTx keys = (nt.clean now).addressNonceToTx) := by
  refine ⟨?_, ?_, rfl, ?_⟩
  · intro k v
    unfold nonceTracker.clean
    simp only
    cases h : nt.addressNonceToTx k with
    | none => simp
    | some tracked =>
      simp only [Option.some.injEq]
      by_cases hexp : now > tracked.expireTime
      · rw [if_pos hexp]
        constructor
        · intro h'
          cases h'
        · rintro ⟨rfl, h2⟩
          exact absurd hexp h2
      · rw [if_neg hexp]
        constructor
        · intro h'
          cases h'
          exact ⟨rfl, hexp⟩
        · rintro ⟨rfl, _⟩
          rfl
  · intro k v h hexp
    unfold nonceTracker.clean
    simp only [h]
    rw [if_pos hexp]
  · intro keys hkeys
    funext k
    rw [cleanRange_apply]
    unfold nonceTracker.clean
    simp only
    cases h : nt.addressNonceToTx k with
    | none => rfl
    | some tracked =>
      have hk : k ∈ keys := hkeys k (by rw [h]; simp)
      simp [hk]

theorem clean_keeps_unexpired_witness :
    ((occupiedTracker 5 sampleNetwork 1000 (sampleTx [1] [7] 5 100 10)).clean
        60000001000).getTransaction [7] 5
      = some (trackedOf sampleNetwork 1000 (sampleTx [1] [7] 5 100 10)) ∧
    ((occupiedTracker 5 sampleNetwork 1000 (sampleTx [1] [7] 5 100 10)).clean
        60000001001).getTransaction [7] 5 = none :=
  ⟨((clean_keeps_unexpired (occupiedTracker 5 sampleNetwork 1000 (sampleTx [1] [7] 5 100 10))
      60000001000).1 _ _).2 ⟨rfl, by decide⟩,
   (clean_keeps_unexpired (occupiedTracker 5 sampleNetwork 1000 (sampleTx [1] [7] 5 100 10))
      60000001001).2.1 _ _ rfl (by decide)⟩

/-! ## C16: construction -/

/-- C16: for every hash, content, network, flags and account ID, `NewTx` panics if and
only if exactly one of "the flags have the paid bit" and "the account ID is non-empty"
holds; when it returns, the transaction carries the given flags, network, content and
hash and the clock reading, has two empty wallet-ID slots, is paid if and only if the
account ID is non-empty, and stores the account ID cut or zero-padded to `AccountIDLen`
bytes. -/
theorem NewTx_invariant (c : Consts) (now : Int) (hash content : Bytes)
    (networkNum flags : Nat) (accountID : Bytes) :
    (NewTx c now hash content networkNum flags accountID = none ↔
      ((IsPaid c flags = true ∧ accountID = []) ∨
        (IsPaid c flags = false ∧ accountID ≠ []))) ∧
    (∀ tx, NewTx c now hash content networkNum flags accountID = some tx →
      tx.flags = flags ∧ tx.header.networkNum = networkNum ∧ tx.content = content ∧
      tx.header.hash = hash ∧ tx.timestamp = now ∧ tx.walletIDs = [[], []] ∧
      (IsPaid c tx.flags = true ↔ accountID ≠ []) ∧
      tx.accountID = copyInto (zeros c.AccountIDLen) accountID) := by
  unfold NewTx EmptyAccountID
  by_cases hid : accountID = []
  · subst hid
    cases hp : IsPaid c flags
    · refine ⟨by simp [hp], ?_⟩
      intro tx htx
      simp [hp] at htx
      subst htx
      simp [hp, Tx.empty, copyInto]
    · refine ⟨by simp [hp], ?_⟩
      intro tx htx
      simp [hp] at htx
  · cases hp : IsPaid c flags
    · refine ⟨by simp [hp, hid], ?_⟩
      intro tx htx
      simp [hp, hid] at htx
    · refine ⟨by simp [hp, hid], ?_⟩
      intro tx htx
      simp [hp, hid] at htx
      subst htx
      simp [hp, hid, Tx.empty, Tx.SetAccountID]

theorem NewTx_invariant_witness :
    NewTx sampleConsts 1000 (zeros 32) [1, 2] 5 0 [97] = none ∧
    ((NewTx sampleConsts 1000 (zeros 32) [1, 2] 5 1 [97]).map Tx.accountID)
      = some ([97] ++ zeros 35) :=
  ⟨(NewTx_invariant sampleConsts 1000 (zeros 32) [1, 2] 5 0 [97]).1.2
      (Or.inr ⟨rfl, by decide⟩),
   match h : NewTx sampleConsts 1000 (zeros 32) [1, 2] 5 1 [97] with
   | none => absurd h (by decide)
   | some tx => by
     rw [Option.map_some', ((NewTx_invariant sampleConsts 1000 (zeros 32) [1, 2] 5 1 [97]).2
       tx h).2.2.2.2.2.2.2]
     rfl⟩

/-! ## C17, C18, C19: clearing and cloning -/

theorem testBit_and_notFlags (flags mask i : Nat) :
    (flags &&& notFlags mask).testBit i
      = (flags.testBit i && (decide (i < 16) && !mask.testBit i)) := by
  simp only [notFlags, Nat.testBit_and, Nat.testBit_xor, Nat.testBit_two_pow_sub_one,
    Nat.testBit_mod_two_pow]
  cases flags.testBit i <;> cases mask.testBit i <;> cases decide (i < 16) <;> rfl

theorem testBit_of_uint16 (flags i : Nat) (h : flags < 2 ^ 16) :
    (flags.testBit i && decide (i < 16)) = flags.testBit i := by
  by_cases hi : i < 16
  · simp [hi]
  · have : flags.testBit i = false :=
      Nat.testBit_lt_two_pow (Nat.lt_of_lt_of_le h (Nat.pow_le_pow_right (by decide) (by omega)))
    simp [this]

/-- Clearing three masks in turn clears exactly the bits of the three masks. -/
theorem testBit_clear_three (flags a b d i : Nat) (h : flags < 2 ^ 16) :
    (flags &&& notFlags a &&& notFlags b &&& notFlags d).testBit i
      = (flags.testBit i && !(a.testBit i || b.testBit i || d.testBit i)) := by
  rw [testBit_and_notFlags, testBit_and_notFlags, testBit_and_notFlags]
  have := testBit_of_uint16 flags i h
  revert this
  cases flags.testBit i <;> cases a.testBit i <;> cases b.testBit i <;> cases d.testBit i <;>
    cases decide (i < 16) <;> simp

/-- C17: for every transaction `T`, `CompactClone` returns a transaction with no
content, an all-zero account ID, an all-zero source ID, two empty wallet IDs and the
flags of `T` with the bits of enterprise-sender, elite-sender and paid cleared, whose
hash, network number, short ID and timestamp are those of `T`. -/
theorem CompactClone_fields (c : Consts) (T : Tx) (hflags : T.flags < 2 ^ 16) :
    (T.CompactClone c).content = [] ∧
    (T.CompactClone c).accountID = zeros c.AccountIDLen ∧
    (T.CompactClone c).header.sourceID = zeros SourceIDLen ∧
    (T.CompactClone c).walletIDs = [[], []] ∧
    (∀ i, (T.CompactClone c).flags.testBit i =
      (T.flags.testBit i &&
        !(c.TFEnterpriseSender.testBit i || c.TFEliteSender.testBit i
          || c.TFPaidTx.testBit i))) ∧
    (T.CompactClone c).header.hash = T.header.hash ∧
    (T.CompactClone c).header.networkNum = T.header.networkNum ∧
    (T.CompactClone c).shortID = T.shortID ∧
    (T.CompactClone c).timestamp = T.timestamp :=
  ⟨rfl, rfl, rfl, rfl, fun i => testBit_clear_three T.flags _ _ _ i hflags, rfl, rfl, rfl, rfl⟩

theorem CompactClone_fields_witness :
    ((sampleMsg (1 + 4 + 8192) [1, 2] 1000 ([97] ++ zeros 35)).CompactClone sampleConsts).content
      = [] ∧
    ((sampleMsg (1 + 4 + 8192) [1, 2] 1000 ([97] ++ zeros 35)).CompactClone sampleConsts).flags
      = 4 :=
  ⟨(CompactClone_fields sampleConsts (sampleMsg (1 + 4 + 8192) [1, 2] 1000 ([97] ++ zeros 35))
      (by decide)).1, rfl⟩

/-- C18 (refuted): for every transaction `T` the clean clone has fallback zero, so it
differs from `T` in the fallback whenever `T` has one, although `Clone` copies the
fallback and `ClearInternalAttributes` leaves it alone; a transaction with the
next-validator flag and fallback `30` has a clean clone with fallback `0`. -/
theorem CleanClone_drops_fallback (c : Consts) (T : Tx) :
    (T.CleanClone c).fallback = 0 ∧
    (T.fallback ≠ 0 → (T.CleanClone c).fallback ≠ T.fallback) ∧
    T.Clone.fallback = T.fallback ∧
    (T.ClearInternalAttributes c).fallback = T.fallback ∧
    ({ sampleMsg 256 [1, 2] 1000 (zeros 36) with fallback := 30 } : Tx).fallback = 30 ∧
    (({ sampleMsg 256 [1, 2] 1000 (zeros 36) with fallback := 30 } : Tx).CleanClone
      sampleConsts).fallback = 0 :=
  ⟨rfl, fun h => Ne.symm h, rfl, rfl, rfl, rfl⟩

/-- The fields of a clean clone as the code computes them: for every transaction `T`,
`CleanClone` returns a transaction with the content
of `T`, an all-zero source ID, an all-zero account ID, two empty wallet IDs, the flags
of `T` with the bits of enterprise-sender, elite-sender and paid cleared, and fallback
zero, whose hash, network number, short ID, timestamp, sender and quota are those of
`T`. -/
theorem CleanClone_fields (c : Consts) (T : Tx) (hflags : T.flags < 2 ^ 16) :
    (T.CleanClone c).content = T.content ∧
    (T.CleanClone c).header.sourceID = zeros SourceIDLen ∧
    (T.CleanClone c).accountID = zeros c.AccountIDLen ∧
    (T.CleanClone c).walletIDs = [[], []] ∧
    (∀ i, (T.CleanClone c).flags.testBit i =
      (T.flags.testBit i &&
        !(c.TFEnterpriseSender.testBit i || c.TFEliteSender.testBit i
          || c.TFPaidTx.testBit i))) ∧
    (T.CleanClone c).fallback = 0 ∧
    (T.CleanClone c).header.hash = T.header.hash ∧
    (T.CleanClone c).header.networkNum = T.header.networkNum ∧
    (T.CleanClone c).shortID = T.shortID ∧
    (T.CleanClone c).timestamp = T.timestamp ∧
    (T.CleanClone c).sender = T.sender ∧
    (T.CleanClone c).quota = T.quota :=
  ⟨rfl, rfl, rfl, rfl, fun i => testBit_clear_three T.flags _ _ _ i hflags, rfl, rfl, rfl, rfl,
    rfl, rfl, rfl⟩

theorem CleanClone_fields_witness :
    (({ sampleMsg (1 + 256) [1, 2] 1000 ([97] ++ zeros 35) with fallback := 30 } :
      Tx).CleanClone sampleConsts).content = [1, 2] ∧
    (({ sampleMsg (1 + 256) [1, 2] 1000 ([97] ++ zeros 35) with fallback := 30 } :
      Tx).CleanClone sampleConsts).flags = 256 :=
  ⟨(CleanClone_fields sampleConsts
      { sampleMsg (1 + 256) [1, 2] 1000 ([97] ++ zeros 35) with fallback := 30 }
      (by decide)).1, rfl⟩

theorem isPaid_of_subset (c : Consts) (flags flags' : Nat)
    (hsub : ∀ i, flags'.testBit i = true → flags.testBit i = true)
    (h : IsPaid c flags = false) : IsPaid c flags' = false := by
  unfold IsPaid at h ⊢
  simp only [bne_eq_false_iff_eq] at h ⊢
  apply Nat.eq_of_testBit_eq
  intro i
  have hi : (flags &&& c.TFPaidTx).testBit i = false := by rw [h]; simp
  rw [Nat.testBit_and] at hi ⊢
  rw [Nat.zero_testBit]
  cases h1 : flags'.testBit i
  · rfl
  · rw [hsub i h1] at hi
    simpa using hi

/-- C19: for every transaction `T`, after `ClearProtectedAttributes` the short ID is the
empty short ID, the source ID is all zero, the flags are those of `T` with the bits of
deliver-to-node, enterprise-sender and elite-sender cleared, and the account ID is all
zero whenever the paid bit of `T` is clear (and the one of `T` whenever the paid bit is
still set after the clearing); timestamp, content, sender, hash, network number, wallet
IDs, fallback and quota are unchanged. -/
theorem ClearProtectedAttributes_fields (c : Consts) (T : Tx) (hflags : T.flags < 2 ^ 16) :
    (T.ClearProtectedAttributes c).shortID = ShortIDEmpty ∧
    (T.ClearProtectedAttributes c).header.sourceID = zeros SourceIDLen ∧
    (∀ i, (T.ClearProtectedAttributes c).flags.testBit i =
      (T.flags.testBit i &&
        !(c.TFDeliverToNode.testBit i || c.TFEnterpriseSender.testBit i
          || c.TFEliteSender.testBit i))) ∧
    (IsPaid c T.flags = false →
      (T.ClearProtectedAttributes c).accountID = zeros c.AccountIDLen) ∧
    (IsPaid c (T.ClearProtectedAttributes c).flags = true →
      (T.ClearProtectedAttributes c).accountID = T.accountID) ∧
    (T.ClearProtectedAttributes c).timestamp = T.timestamp ∧
    (T.ClearProtectedAttributes c).content = T.content ∧
    (T.ClearProtectedAttributes c).sender = T.sender ∧
    (T.ClearProtectedAttributes c).header.hash = T.header.hash ∧
    (T.ClearProtectedAttributes c).header.networkNum = T.header.networkNum ∧
    (T.ClearProtectedAttributes c).walletIDs = T.walletIDs ∧
    (T.ClearProtectedAttributes c).fallback = T.fallback ∧
    (T.ClearProtectedAttributes c).quota = T.quota := by
  have hbits := fun i => testBit_clear_three T.flags c.TFDeliverToNode c.TFEnterpriseSender
    c.TFEliteSender i hflags
  have hpaid : IsPaid c T.flags = false →
      IsPaid c (T.flags &&& notFlags c.TFDeliverToNode &&& notFlags c.TFEnterpriseSender
        &&& notFlags c.TFEliteSender) = false := by
    intro h
    refine isPaid_of_subset c T.flags _ (fun i hi => ?_) h
    rw [hbits i] at hi
    cases h1 : T.flags.testBit i
    · rw [h1] at hi
      simp at hi
    · rfl
  unfold Tx.ClearProtectedAttributes
  simp only
  split_ifs with hif
  · refine ⟨rfl, rfl, hbits, fun _ => rfl, fun h => ?_, rfl, rfl, rfl, rfl, rfl, rfl, rfl, rfl⟩
    rw [show IsPaid c (T.flags &&& notFlags c.TFDeliverToNode &&& notFlags c.TFEnterpriseSender
      &&& notFlags c.TFEliteSender) = true from h] at hif
    cases hif
  · refine ⟨rfl, rfl, hbits, fun h => ?_, fun _ => rfl, rfl, rfl, rfl, rfl, rfl, rfl, rfl, rfl⟩
    rw [hpaid h] at hif
    exact absurd rfl hif

theorem ClearProtectedAttributes_fields_witness :
    (({ sampleMsg (4 + 256 + 8192) [1, 2] 1000 ([97] ++ zeros 35) with shortID := 9 } :
      Tx).ClearProtectedAttributes sampleConsts).shortID = 0 ∧
    (({ sampleMsg (4 + 256 + 8192) [1, 2] 1000 ([97] ++ zeros 35) with shortID := 9 } :
      Tx).ClearProtectedAttributes sampleConsts).accountID = zeros 36 ∧
    (({ sampleMsg (4 + 256 + 8192) [1, 2] 1000 ([97] ++ zeros 35) with shortID := 9 } :
      Tx).ClearProtectedAttributes sampleConsts).flags = 256 :=
  ⟨(ClearProtectedAttributes_fields sampleConsts
      { sampleMsg (4 + 256 + 8192) [1, 2] 1000 ([97] ++ zeros 35) with shortID := 9 }
      (by decide)).1,
   (ClearProtectedAttributes_fields sampleConsts
      { sampleMsg (4 + 256 + 8192) [1, 2] 1000 ([97] ++ zeros 35) with shortID := 9 }
      (by decide)).2.2.2.1 rfl,
   rfl⟩

/-! ## C15: the flags field of a packed message -/

theorem take_of_splice (buf mid : Bytes) (offset k j : Nat) (hk : k ≤ offset)
    (ho : offset ≤ buf.length) :
    (buf.take offset ++ mid ++ buf.drop j).take k = buf.take k := by
  rw [List.append_assoc, List.take_append_of_le_length (by rw [List.length_take]; omega),
    List.take_take, Nat.min_eq_left hk]

theorem putAt_take (buf bs buf' : Bytes) (offset k : Nat)
    (h : putAt buf offset bs = some buf') (hk : k ≤ offset) : buf'.take k = buf.take k := by
  unfold putAt at h
  split_ifs at h with hlen
  cases h
  exact take_of_splice buf bs offset k _ hk (by omega)

theorem copyAt_take (buf src buf' : Bytes) (offset k : Nat)
    (h : copyAt buf offset src = some buf') (hk : k ≤ offset) : buf'.take k = buf.take k := by
  unfold copyAt at h
  split_ifs at h with hlen
  cases h
  exact take_of_splice buf _ offset k _ hk hlen

theorem copySlot_take (buf src buf' : Bytes) (offset width k : Nat)
    (h : copySlot buf offset width src = some buf') (hk : k ≤ offset) :
    buf'.take k = buf.take k := by
  unfold copySlot at h
  split_ifs at h with hlen
  cases h
  exact take_of_splice buf _ offset k _ hk (by omega)

theorem packWalletIDs_take (c : Consts) (ws : List Bytes) (buf buf' : Bytes)
    (offset offset' k : Nat) (h : packWalletIDs c buf offset ws = some (buf', offset'))
    (hk : k ≤ offset) : buf'.take k = buf.take k := by
  induction ws generalizing buf offset with
  | nil =>
    unfold packWalletIDs at h
    cases h
    rfl
  | cons w ws ih =>
    unfold packWalletIDs at h
    obtain ⟨b1, h1, h2⟩ := Option.bind_eq_some.mp h
    rw [ih b1 (offset + c.WalletIDLen) h2 (by omega)]
    exact copySlot_take buf w b1 offset c.WalletIDLen k h1 hk

theorem packTimestamp_take (x : Ext) (m : Tx) (protocol : Nat) (buf buf' : Bytes)
    (offset offset' k : Nat)
    (h : Tx.packTimestamp x m protocol buf offset = some (buf', offset')) (hk : k ≤ offset) :
    buf'.take k = buf.take k ∧ offset ≤ offset' := by
  unfold Tx.packTimestamp at h
  split_ifs at h <;>
    (obtain ⟨b1, h1, h2⟩ := Option.map_eq_some'.mp h
     cases h2
     exact ⟨putAt_take _ _ _ _ _ h1 hk, by omega⟩)

theorem packNextValidator_take (c : Consts) (m : Tx) (protocol : Nat) (buf buf' : Bytes)
    (offset offset' k : Nat)
    (h : Tx.packNextValidator c m protocol buf offset = some (buf', offset'))
    (hk : k ≤ offset) : buf'.take k = buf.take k := by
  unfold Tx.packNextValidator at h
  split_ifs at h
  · obtain ⟨b1, h1, h2⟩ := Option.bind_eq_some.mp h
    rw [packWalletIDs_take c _ b1 buf' _ offset' k h2 (by omega)]
    exact putAt_take _ _ _ _ _ h1 hk
  · cases h
    rfl
  · obtain ⟨b1, h1, h2⟩ := Option.bind_eq_some.mp h
    cases hw : m.walletIDs with
    | nil => simp [hw] at h2
    | cons w ws =>
      simp only [hw] at h2
      obtain ⟨b2, h3, h4⟩ := Option.map_eq_some'.mp h2
      cases h4
      rw [copySlot_take _ _ _ _ _ k h3 (by omega)]
      exact putAt_take _ _ _ _ _ h1 hk
  · cases h
    rfl
  · cases h
    rfl

theorem packNextValidator_offset (c : Consts) (m : Tx) (protocol : Nat) (buf buf' : Bytes)
    (offset offset' : Nat)
    (h : Tx.packNextValidator c m protocol buf offset = some (buf', offset')) :
    offset ≤ offset' := by
  have hw : ∀ (ws : List Bytes) (b b' : Bytes) (o o' : Nat),
      packWalletIDs c b o ws = some (b', o') → o ≤ o' := by
    intro ws
    induction ws with
    | nil =>
      intro b b' o o' h
      unfold packWalletIDs at h
      cases h
      exact Nat.le_refl _
    | cons w ws ih =>
      intro b b' o o' h
      unfold packWalletIDs at h
      obtain ⟨b1, _, h2⟩ := Option.bind_eq_some.mp h
      have := ih b1 b' _ o' h2
      omega
  unfold Tx.packNextValidator at h
  split_ifs at h
  · obtain ⟨b1, _, h2⟩ := Option.bind_eq_some.mp h
    have := hw _ _ _ _ _ h2
    omega
  · cases h
    exact Nat.le_refl _
  · obtain ⟨b1, _, h2⟩ := Option.bind_eq_some.mp h
    cases hws : m.walletIDs with
    | nil => simp [hws] at h2
    | cons w ws =>
      simp only [hws] at h2
      obtain ⟨b2, _, h4⟩ := Option.map_eq_some'.mp h2
      cases h4
      omega
  · cases h
    exact Nat.le_refl _
  · cases h
    exact Nat.le_refl _

theorem packAccountID_take (c : Consts) (m : Tx) (protocol : Nat) (buf buf' : Bytes)
    (offset offset' k : Nat)
    (h : Tx.packAccountID c m protocol buf offset = some (buf', offset')) (hk : k ≤ offset) :
    buf'.take k = buf.take k ∧ offset ≤ offset' := by
  unfold Tx.packAccountID at h
  split_ifs at h
  · cases h
    exact ⟨rfl, Nat.le_refl _⟩
  · obtain ⟨b1, h1, h2⟩ := Option.map_eq_some'.mp h
    cases h2
    exact ⟨copyAt_take _ _ _ _ _ h1 hk, by omega⟩

theorem packContent_take (m : Tx) (protocol : Nat) (buf buf' : Bytes) (offset k : Nat)
    (h : Tx.packContent m protocol buf offset = some buf') (hk : k ≤ offset) :
    buf'.take k = buf.take k := by
  unfold Tx.packContent at h
  split_ifs at h
  · obtain ⟨b1, h1, h2⟩ := Option.bind_eq_some.mp h
    cases h2
    exact copyAt_take _ _ _ _ _ h1 hk
  · obtain ⟨b1, h1, h2⟩ := Option.bind_eq_some.mp h
    rw [copyAt_take _ _ _ _ _ h2 (by omega)]
    exact copyAt_take _ _ _ _ _ h1 hk
  · cases h
    rfl

theorem readLE_of_take (buf buf' : Bytes) (offset n : Nat)
    (h : buf'.take (offset + n) = buf.take (offset + n)) :
    readLE buf' offset n = readLE buf offset n := by
  unfold readLE
  have e : ∀ b : Bytes, (b.drop offset).take n = (b.take (offset + n)).drop offset := by
    intro b
    rw [List.drop_take, Nat.add_sub_cancel_left]
  rw [e buf', e buf, h]

theorem putAt_readLE (buf buf' : Bytes) (offset k v : Nat)
    (h : putAt buf offset (putLE k v) = some buf') :
    readLE buf' offset k = v % 256 ^ k := by
  unfold putAt at h
  split_ifs at h with hlen
  cases h
  unfold readLE
  have h1 : (buf.take offset).length = offset := by
    rw [List.length_take]
    rw [putLE_length] at hlen
    omega
  rw [List.append_assoc, List.drop_left' h1, List.take_left' (putLE_length k v), getLE_putLE]

/-- The flags field after the first phase of `Pack`. -/
theorem packHead_flags (c : Consts) (x : Ext) (m : Tx) (protocol : Nat) (buf : Bytes)
    (offset : Nat) (h : Tx.packHead c x m protocol = some (buf, offset)) :
    offset = c.BroadcastHeaderLen + ShortIDLen + TxFlagsLen ∧
    readLE buf (c.BroadcastHeaderLen + ShortIDLen) TxFlagsLen
      = Tx.wireFlags c m protocol % 2 ^ 16 := by
  unfold Tx.packHead at h
  simp only [Option.bind_eq_bind, Option.pure_def] at h
  obtain ⟨b1, _, h⟩ := Option.bind_eq_some.mp h
  obtain ⟨b2, _, h⟩ := Option.bind_eq_some.mp h
  obtain ⟨b3, h3, h⟩ := Option.bind_eq_some.mp h
  cases h
  refine ⟨rfl, ?_⟩
  have := putAt_readLE _ _ _ 2 _ h3
  rw [show (256 : Nat) ^ 2 = 2 ^ 16 by norm_num, Nat.mod_mod] at this
  exact this

/-- C15: for every transaction `T` and version `V`, every buffer `Pack` returns holds in
its 16-bit flags field exactly `T.flags AND (StatusMonitoring | PaidTx | NonceMonitoring
| RePropagate | EnterpriseSender)` when `V < 20` and exactly `T.flags` when `V >= 20`;
and `Pack` returns a buffer for every version from 19 on and every well-typed
transaction consistent with the version, outside the versions from
`NextValidatorProtocol` to 24 with the next-validator flag set. -/
theorem Pack_flags_field (c : Consts) (x : Ext) (T : Tx) (V : Nat)
    (hflags : T.flags < 2 ^ 16) :
    (∀ buf, Tx.Pack c x T V = some buf →
      readLE buf (c.BroadcastHeaderLen + ShortIDLen) TxFlagsLen
        = if V < 20 then T.flags &&& legacyFlagMask c else T.flags) ∧
    (19 ≤ V →
      c.NextValidatorProtocol ≤ c.NextValidatorMultipleProtocol ∧
        c.NextValidatorMultipleProtocol ≤ 25 →
      Tx.WellTyped c T → Tx.ConsistentWith c T V →
      ¬ (c.NextValidatorProtocol ≤ V ∧ V < 25 ∧ IsNextValidator c T.flags = true) →
      (Tx.wire c x T V).length < 2 ^ 32 →
      ∃ buf, Tx.Pack c x T V = some buf) := by
  constructor
  · intro buf h
    unfold Tx.Pack at h
    obtain ⟨⟨b1, o1⟩, h1, h⟩ := Option.bind_eq_some.mp h
    obtain ⟨⟨b2, o2⟩, h2, h⟩ := Option.bind_eq_some.mp h
    obtain ⟨⟨b3, o3⟩, h3, h⟩ := Option.bind_eq_some.mp h
    obtain ⟨⟨b4, o4⟩, h4, h⟩ := Option.bind_eq_some.mp h
    simp only at h2 h3 h4 h
    obtain ⟨ho1, hf⟩ := packHead_flags c x T V b1 o1 h1
    obtain ⟨t2, ho2⟩ := packTimestamp_take x T V b1 b2 o1 o2
      (c.BroadcastHeaderLen + ShortIDLen + TxFlagsLen) h2 (by omega)
    have t3 := packNextValidator_take c T V b2 b3 o2 o3
      (c.BroadcastHeaderLen + ShortIDLen + TxFlagsLen) h3 (by omega)
    have ho3 := packNextValidator_offset c T V b2 b3 o2 o3 h3
    obtain ⟨t4, ho4⟩ := packAccountID_take c T V b3 b4 o3 o4
      (c.BroadcastHeaderLen + ShortIDLen + TxFlagsLen) h4 (by omega)
    have t5 := packContent_take T V b4 buf o4
      (c.BroadcastHeaderLen + ShortIDLen + TxFlagsLen) h (by omega)
    rw [readLE_of_take b1 buf _ _ (by rw [t5, t4, t3, t2]), hf,
      Nat.mod_eq_of_lt (wireFlags_lt c T V hflags)]
    rfl
  · intro h19 hord hT hC hslip hlen
    have hsize := size_eq_wire_length c x T V h19 hT hC hord hslip hlen
    exact ⟨_, Pack_eq_wire c x T V hT.1
      (Or.inr (fun h => hslip ⟨h.1, by omega, h.2.2⟩)) hsize⟩

theorem Pack_flags_field_witness :
    ∃ buf,
      Tx.Pack sampleConsts sampleExt
        { sampleMsg (4 + 1024) [1, 2, 3] 5000000000 (zeros 36) with walletIDs := [] } 19
        = some buf ∧
      readLE buf (sampleConsts.BroadcastHeaderLen + ShortIDLen) TxFlagsLen = 1024 :=
  let ⟨buf, hb⟩ :=
    (Pack_flags_field sampleConsts sampleExt
      { sampleMsg (4 + 1024) [1, 2, 3] 5000000000 (zeros 36) with walletIDs := [] } 19
      (by decide)).2 (by decide) (by decide) (by decide) (by decide) (by decide) (by decide)
  ⟨buf, hb,
    ((Pack_flags_field sampleConsts sampleExt
      { sampleMsg (4 + 1024) [1, 2, 3] 5000000000 (zeros 36) with walletIDs := [] } 19
      (by decide)).1 buf hb).trans (by decide)⟩

/-! ## C24, C25, C26: decoded short timestamps -/

/-- C24: for every 32-bit field value `x` and every clock value `now` with
`0 <= now < 2^62`, the result `r` of `decodeTimestamp` satisfies `|r - now| < 1 hour`
(3600000000000 ns), and the overflow and the underflow correction are not both
applied. -/
theorem decodeTimestamp_near_clock (now : Int) (x : Nat) (hx : x < 2 ^ 32)
    (hlo : 0 ≤ now) (hhi : now < 2 ^ 62) :
    -3600000000000 < decodeTimestamp now x - now ∧
    decodeTimestamp now x - now < 3600000000000 ∧
    ¬ (overflowTaken now x = true ∧ underflowTaken now x = true) := by
  rw [decodeTimestamp_unfold now x hx, overflowTaken_unfold now x hx,
    underflowTaken_unfold now x hx]
  have hx' : ((x : Nat) : Int) < 4294967296 := by omega
  have hx0 : (0 : Int) ≤ (x : Int) := by omega
  generalize (x : Int) = y at hx' hx0 ⊢
  simp only [wrapI64, decide_eq_true_eq]
  split_ifs <;> omega

theorem decodeTimestamp_near_clock_witness :
    -3600000000000 < decodeTimestamp 1759218609441600777 4294967295 - 1759218609441600777 ∧
    decodeTimestamp 1759218609441600777 4294967295 - 1759218609441600777 < 3600000000000 ∧
    ¬ (overflowTaken 1759218609441600777 4294967295 = true ∧
      underflowTaken 1759218609441600777 4294967295 = true) :=
  decodeTimestamp_near_clock 1759218609441600777 4294967295 (by decide) (by decide)
    (by decide)

/-- C25: for every 32-bit field value `x` and every clock value `now` (in particular
for `0 <= now < 2^62`), the result `r` of `decodeTimestamp` has its low 10 bits zero
and `uint32(r >> 10) = x`: the packing step of `Pack` applied to `r` gives `x` back. -/
theorem decodeTimestamp_repack (now : Int) (x : Nat) (hx : x < 2 ^ 32) :
    decodeTimestamp now x % 1024 = 0 ∧ packShortTimestamp (decodeTimestamp now x) = x := by
  have hc := packShortTimestamp_cast (decodeTimestamp now x)
  suffices h : decodeTimestamp now x % 1024 = 0 ∧
      decodeTimestamp now x / 1024 % 2 ^ 32 = (x : Int) by
    refine ⟨h.1, ?_⟩
    rw [h.2] at hc
    exact_mod_cast hc
  rw [decodeTimestamp_unfold now x hx]
  have hx' : ((x : Nat) : Int) < 4294967296 := by omega
  have hx0 : (0 : Int) ≤ (x : Int) := by omega
  generalize (x : Int) = y at hx' hx0 ⊢
  simp only [wrapI64]
  split_ifs <;> omega

theorem decodeTimestamp_repack_witness :
    decodeTimestamp 1759218609441600777 4294967295 % 1024 = 0 ∧
    packShortTimestamp (decodeTimestamp 1759218609441600777 4294967295) = 4294967295 :=
  decodeTimestamp_repack 1759218609441600777 4294967295 (by decide)

/-- C26: for every timestamp `t` and clock value `now`, both in `[0, 2^62)`, with
`|now - t| <= 2^42 - 3600000000000 - 1024` ns (798046510080 ns, about 13.3 minutes),
`decodeTimestamp(uint32(t >> 10))` evaluated with the clock at `now` equals `t` with
its low 10 bits cleared, whether or not `t` and `now` lie on the same side of a
`2^42` ns boundary. -/
theorem decodeTimestamp_recovery_window (t now : Int) (ht0 : 0 ≤ t) (ht : t < 2 ^ 62)
    (hn0 : 0 ≤ now) (hn : now < 2 ^ 62)
    (h1 : now - t ≤ 798046510080) (h2 : t - now ≤ 798046510080) :
    decodeTimestamp now (packShortTimestamp t) = t - t % 1024 := by
  rw [decodeTimestamp_unfold now _ (packShortTimestamp_lt t), packShortTimestamp_cast]
  simp only [wrapI64]
  split_ifs <;> omega

theorem decodeTimestamp_recovery_window_witness :
    (1759218604441599999 : Int) / 2 ^ 42 ≠ 1759219402488110079 / 2 ^ 42 ∧
    decodeTimestamp 1759219402488110079 (packShortTimestamp 1759218604441599999)
      = 1759218604441599999 - 1759218604441599999 % 1024 :=
  ⟨by decide,
   decodeTimestamp_recovery_window 1759218604441599999 1759219402488110079 (by decide)
    (by decide) (by decide) (by decide) (by decide) (by decide)⟩

/-! ## C21: shutdown of the sweep -/

theorem step_not_returned (s s' : Shutdown) (m : Move) (h : s.step m = some s')
    (hs : s.stop ≠ .returned) : s'.stop ≠ .returned := by
  cases m with
  | baseStopReturns =>
    simp only [Shutdown.step] at h
    split_ifs at h
    cases h
    simp
  | alert =>
    simp only [Shutdown.step] at h
    split_ifs at h
    cases h
    exact hs
  | quitToLoop =>
    simp only [Shutdown.step] at h
    split_ifs at h
    cases h
    simp
  | quitToStop =>
    simp only [Shutdown.step] at h
    split_ifs at h with hc
    exfalso
    have := hc.1
    cases hl : s.loop <;> simp [hl, LoopPoint.quitOp] at this

theorem run_not_returned (moves : List Move) (s s' : Shutdown)
    (h : s.run moves = some s') (hs : s.stop ≠ .returned) : s'.stop ≠ .returned := by
  induction moves generalizing s with
  | nil =>
    simp only [Shutdown.run, Option.some.injEq] at h
    subst h
    exact hs
  | cons m rest ih =>
    simp only [Shutdown.run] at h
    obtain ⟨s1, h1, h2⟩ := Option.bind_eq_some.mp h
    exact ih s1 h2 (step_not_returned s s1 m h1 hs)

/-- C21 (refuted): in no execution of `EthTxStore.Stop` against the sweep goroutine
does `Stop` return. After `t.BxTxStore.Stop()` returns and the value sent on `quit` is
received by the loop, the loop has exited, `Stop` stands at `<-t.nonceTracker.quit`, no
step is enabled any more, and `clean()` does not run again; the loop never sends the
acknowledgement `Stop` waits for. -/
theorem Stop_never_returns :
    (∀ moves s, Shutdown.init.run moves = some s → s.stop ≠ .returned) ∧
    Shutdown.init.run [.baseStopReturns, .quitToLoop]
      = some { stop := .recvQuit, loop := .exited, cleans := 0 } ∧
    (∀ n m, Shutdown.step { stop := .recvQuit, loop := .exited, cleans := n } m = none) := by
  refine ⟨fun moves s h => run_not_returned moves _ s h (by simp [Shutdown.init]), rfl, ?_⟩
  intro n m
  cases m <;> rfl

/-! ## C22: versions below 19 -/

/-- C22 (refuted): for every transaction `T` and every version `V < 19`, `Tx.size` is
zero and `Pack` panics instead of returning an empty buffer; whatever the header
writes in place, the slice expression `buf[offset:]` of the short-ID write fails on the
zero-length buffer. -/
theorem Pack_unsupported_version_panics (c : Consts) (x : Ext) (T : Tx) (V : Nat)
    (hV : V < 19) :
    Tx.size c T V = 0 ∧ Tx.Pack c x T V = none ∧
    putAt (zeros (Tx.size c T V)) c.BroadcastHeaderLen (putLE 4 (T.shortID % 2 ^ 32))
      = none := by
  have hs : Tx.size c T V = 0 := by
    unfold Tx.size
    rw [if_pos hV]
  refine ⟨hs, ?_, ?_⟩
  · unfold Tx.Pack Tx.packHead
    simp [hs, BroadcastHeader.Pack, BroadcastHeader.Size, ControlByteLen, zeros]
  · rw [hs]
    simp [putAt, zeros, putLE_length]

theorem Pack_unsupported_version_panics_witness :
    Tx.size sampleConsts (sampleMsg 0 [1, 2, 3] 5000000000 (zeros 36)) 18 = 0 ∧
    Tx.Pack sampleConsts sampleExt (sampleMsg 0 [1, 2, 3] 5000000000 (zeros 36)) 18 = none ∧
    putAt (zeros (Tx.size sampleConsts (sampleMsg 0 [1, 2, 3] 5000000000 (zeros 36)) 18))
        sampleConsts.BroadcastHeaderLen
        (putLE 4 ((sampleMsg 0 [1, 2, 3] 5000000000 (zeros 36)).shortID % 2 ^ 32))
      = none :=
  Pack_unsupported_version_panics sampleConsts sampleExt
    (sampleMsg 0 [1, 2, 3] 5000000000 (zeros 36)) 18 (by decide)

/-! ## C23: wallet-ID slots -/

/-- C23: for every transaction with two wallet-ID slots, every index `i >= 2` and every
id, `SetWalletID(i, id)` returns without a panic and leaves the transaction unchanged;
for `i` in `{0, 1}` it returns without a panic, sets slot `i` to `id` and leaves the
other slot and every other field unchanged. -/
theorem SetWalletID_clamp (T : Tx) (w0 w1 id : Bytes) (hw : T.walletIDs = [w0, w1]) :
    (∀ i : Int, 2 ≤ i → T.SetWalletIDChecked i id = some T) ∧
    T.SetWalletIDChecked 0 id = some { T with walletIDs := [id, w1] } ∧
    T.SetWalletIDChecked 1 id = some { T with walletIDs := [w0, id] } ∧
    (∀ i : Nat, 2 ≤ i → T.SetWalletID i id = T) ∧
    T.SetWalletID 0 id = { T with walletIDs := [id, w1] } ∧
    T.SetWalletID 1 id = { T with walletIDs := [w0, id] } := by
  refine ⟨?_, ?_, ?_, ?_, ?_, ?_⟩
  · intro i hi
    simp [Tx.SetWalletIDChecked, hi]
  · simp [Tx.SetWalletIDChecked, hw]
  · simp [Tx.SetWalletIDChecked, hw]
  · intro i hi
    simp [Tx.SetWalletID, hi]
  · simp [Tx.SetWalletID, hw]
  · simp [Tx.SetWalletID, hw]

theorem SetWalletID_clamp_witness :
    (sampleMsg 0 [1] 1000 (zeros 36)).SetWalletIDChecked 5 [9] =
      some (sampleMsg 0 [1] 1000 (zeros 36)) ∧
    (sampleMsg 0 [1] 1000 (zeros 36)).SetWalletIDChecked 1 [9] =
      some { sampleMsg 0 [1] 1000 (zeros 36) with walletIDs := [[], [9]] } :=
  ⟨(SetWalletID_clamp (sampleMsg 0 [1] 1000 (zeros 36)) [] [] [9] rfl).1 5 (by decide),
   (SetWalletID_clamp (sampleMsg 0 [1] 1000 (zeros 36)) [] [] [9] rfl).2.2.1⟩

/-! ## C28: the tracker key -/

theorem foldl_formatUintAux (fuel n : Nat) (acc : Bytes) (h : n < fuel) :
    List.foldl (fun v (d : Byte) => 10 * v + (d.val - 48)) 0 (formatUintAux fuel n acc)
      = List.foldl (fun v (d : Byte) => 10 * v + (d.val - 48)) n acc := by
  induction fuel generalizing n acc with
  | zero => exact absurd h (Nat.not_lt_zero _)
  | succ fuel ih =>
    unfold formatUintAux
    by_cases hn : n < 10
    · rw [if_pos hn, List.foldl_cons]
      congr 1
      simp only [Nat.mul_zero, Nat.zero_add]
      omega
    · rw [if_neg hn, ih (n / 10) _ (by omega), List.foldl_cons]
      congr 1
      simp only
      omega

theorem digitsValue_formatUint (n : Nat) : digitsValue (formatUint n) = n := by
  unfold digitsValue formatUint
  rw [foldl_formatUintAux (n + 1) n [] (by omega)]
  rfl

theorem formatUint_injective (n n' : Nat) (h : formatUint n = formatUint n') : n = n' := by
  rw [← digitsValue_formatUint n, ← digitsValue_formatUint n', h]

/-- C28: for all 20-byte sender addresses `a`, `a'` and nonces `n`, `n'`, equal keys
`fromNonceKey(a, n) = fromNonceKey(a', n')` have `a = a'` and `n = n'`; hence storing an
entry under the key of one pair leaves the entry of every other pair as it was. -/
theorem fromNonceKey_injective (a a' : Bytes) (n n' : Nat)
    (ha : a.length = 20) (ha' : a'.length = 20) :
    (fromNonceKey a n = fromNonceKey a' n' → a = a' ∧ n = n') ∧
    (∀ (m : Bytes → Option trackedTx) (v : trackedTx), (a, n) ≠ (a', n') →
      mapStore m (fromNonceKey a n) v (fromNonceKey a' n') = m (fromNonceKey a' n')) := by
  have key : fromNonceKey a n = fromNonceKey a' n' → a = a' ∧ n = n' := by
    intro h
    unfold fromNonceKey at h
    rw [List.append_assoc, List.append_assoc] at h
    obtain ⟨h1, h2⟩ := List.append_inj h (by rw [ha, ha'])
    refine ⟨h1, formatUint_injective n n' ?_⟩
    simpa using h2
  refine ⟨key, ?_⟩
  intro m v hne
  apply mapStore_other
  intro heq
  apply hne
  obtain ⟨h1, h2⟩ := key heq.symm
  rw [h1, h2]

theorem fromNonceKey_injective_witness :
    mapStore (fun _ => none) (fromNonceKey (zeros 20) 5)
        (trackedOf sampleNetwork 1000 (sampleTx [1] (zeros 20) 5 100 10))
        (fromNonceKey (zeros 20) 15) = none :=
  (fromNonceKey_injective (zeros 20) (zeros 20) 5 15 rfl rfl).2 _ _ (by decide)

/-! ## C29: the configuration entry is present when `track` runs -/

/-- `addStored` returns, and it calls `track` only on a network with active nonce
checking. -/
theorem addStored_track_active {σ : Type} (c : Consts) (base : BaseStore σ)
    (parse : BxTransaction → Bytes → Option EthTransaction) (now : Int) (t : EthTxStore σ)
    (hash content : Bytes) (shortID network flags : Nat) (timestamp networkChainID : Int)
    (sender : Bytes) (blockchainTx : Option EthTransaction) (log : List Event)
    (hlog : Event.track ∉ log) :
    ∃ out, EthTxStore.addStored c base parse now t hash content shortID network flags
        timestamp networkChainID sender blockchainTx log = some out ∧
      (Event.track ∈ out.2.2 → t.nonceTracker.isReuseNonceActive network = true) := by
  unfold EthTxStore.addStored
  simp only
  split_ifs with h1 h2
  · exact ⟨_, rfl, fun h => absurd h (by simpa using hlog)⟩
  · exact ⟨_, rfl, fun h => absurd h (by simpa using hlog)⟩
  · have h2' : t.nonceTracker.isReuseNonceActive network = true := by
      simpa using h2
    obtain ⟨config, hc⟩ := config_of_active _ _ h2'
    cases blockchainTx with
    | some ethTx =>
      obtain ⟨⟨dup, h, nt'⟩, hto⟩ := track_total t.nonceTracker now ethTx network config hc
      simp only [hto]
      split_ifs
      · exact ⟨_, rfl, fun _ => h2'⟩
      · exact ⟨_, rfl, fun _ => h2'⟩
    | none =>
      simp only
      cases hp : parse (base.Add t.BxTxStore hash content shortID network false flags
          timestamp networkChainID sender).1.Transaction sender with
      | none => exact ⟨_, rfl, fun _ => h2'⟩
      | some ethTx =>
        obtain ⟨⟨dup, h, nt'⟩, hto⟩ := track_total t.nonceTracker now ethTx network config hc
        simp only [hto]
        split_ifs
        · exact ⟨_, rfl, fun _ => h2'⟩
        · exact ⟨_, rfl, fun _ => h2'⟩

/-- C29: every execution of `EthTxStore.add` returns without a panic, and `track` is
called in it only when `isReuseNonceActive(network)` is true; then the configuration
entry of the network is present, and neither `setTransaction` nor `track` can fail on
it, whatever the transaction and the clock reading. -/
theorem add_track_config_present {σ : Type} (c : Consts) (base : BaseStore σ)
    (parse : BxTransaction → Bytes → Option EthTransaction) (now : Int) (t : EthTxStore σ)
    (hash content : Bytes) (shortID network : Nat) (validate : Bool) (flags : Nat)
    (timestamp networkChainID : Int) (sender : Bytes) :
    (∃ result t' log,
      EthTxStore.add c base parse now t hash content shortID network validate flags timestamp
        networkChainID sender = some (result, t', log) ∧
      (Event.track ∈ log → t.nonceTracker.isReuseNonceActive network = true)) ∧
    (t.nonceTracker.isReuseNonceActive network = true →
      (∃ config, t.nonceTracker.networkConfig network = some config) ∧
      ∀ (now' : Int) (tx : EthTransaction),
        t.nonceTracker.setTransaction now' tx network ≠ none ∧
        t.nonceTracker.track now' tx network ≠ none) := by
  constructor
  · unfold EthTxStore.add
    simp only
    split_ifs with h1
    · cases hp : parse { NewBxTransaction hash network flags timestamp with content := content }
          EmptySender with
      | none => exact ⟨_, t, [Event.parse EmptySender], rfl, fun h => by simp at h⟩
      | some ethTx =>
        simp only
        split_ifs with hm
        · exact ⟨_, t, [Event.parse EmptySender], rfl, fun h => by simp at h⟩
        · obtain ⟨⟨r, t', log⟩, ho, hl⟩ := addStored_track_active c base parse now t hash
            content shortID network (NewBxTransaction hash network flags timestamp).flags
            timestamp networkChainID (copyInto sender ethTx.From) (some ethTx)
            [Event.parse EmptySender] (by simp)
          exact ⟨r, t', log, ho, hl⟩
    · obtain ⟨⟨r, t', log⟩, ho, hl⟩ := addStored_track_active c base parse now t hash
        content shortID network (NewBxTransaction hash network flags timestamp).flags
        timestamp networkChainID sender none [] (by simp)
      exact ⟨r, t', log, ho, hl⟩
  · intro hact
    obtain ⟨config, hc⟩ := config_of_active _ _ hact
    refine ⟨⟨config, hc⟩, fun now' tx => ⟨?_, ?_⟩⟩
    · rw [setTransaction_of_config _ now' tx network config hc]
      simp
    · obtain ⟨out, ho⟩ := track_total t.nonceTracker now' tx network config hc
      rw [ho]
      simp

theorem add_track_config_present_witness :
    ∃ result t' log,
      EthTxStore.add sampleConsts sampleStore sampleParse 1000
        ⟨(), emptyTracker 5 sampleNetwork⟩ [2] [5, 0] 0 5 true 4 950 1 EmptySender
        = some (result, t', log) ∧
      (Event.track ∈ log → (emptyTracker 5 sampleNetwork).isReuseNonceActive 5 = true) :=
  (add_track_config_present sampleConsts sampleStore sampleParse 1000
    ⟨(), emptyTracker 5 sampleNetwork⟩ [2] [5, 0] 0 5 true 4 950 1 EmptySender).1

/-! ## C30: bounded batches of the gRPC transaction feed -/

theorem processTx_length (f : NewTransactionNotification → Bool) (now : Int)
    (n : NewTransactionNotification) (pending : List PbTx) :
    pending.length ≤ (processTx f now n pending).length ∧
    (processTx f now n pending).length ≤ pending.length + 1 := by
  unfold processTx
  split_ifs <;> simp

theorem handleLoop_bounded (f : NewTransactionNotification → Bool) (steps : List FeedStep)
    (pending : List PbTx) (hp : pending.length < maxTxsInSingleResponse) :
    ∀ reply ∈ (handleLoop f pending steps).1, reply.length ≤ maxTxsInSingleResponse := by
  induction steps generalizing pending with
  | nil =>
    intro reply h
    simp [handleLoop] at h
  | cons step rest ih =>
    have hlen := processTx_length f step.now step.notification pending
    intro reply h
    unfold handleLoop at h
    simp only at h
    split_ifs at h with hsend hok
    · rcases List.mem_cons.mp h with h | h
      · rw [h]
        omega
      · exact ih [] (by simp [maxTxsInSingleResponse]) reply h
    · rw [List.mem_singleton.mp h]
      omega
    · exact ih _ (by
        have : ¬ (processTx f step.now step.notification pending).length
            = maxTxsInSingleResponse := fun h' => hsend (Or.inr h')
        omega) reply h

/-- C30: for every sequence of feed notifications, clock readings, channel lengths and
send outcomes, every reply `handleTransactions` hands to `stream.Send` holds at most
`maxTxsInSingleResponse` (50) transactions; each notification adds at most one
transaction to the pending batch; and after a successful send the loop goes on with an
empty batch. -/
theorem handleTransactions_bounded (f : NewTransactionNotification → Bool)
    (steps : List FeedStep) :
    (∀ reply ∈ (handleTransactions f steps).1, reply.length ≤ 50) ∧
    (∀ (now : Int) (n : NewTransactionNotification) (pending : List PbTx),
      (processTx f now n pending).length ≤ pending.length + 1) ∧
    (∀ (pending : List PbTx) (step : FeedStep) (rest : List FeedStep),
      (step.feedChanLen = 0 ∨
          (processTx f step.now step.notification pending).length = 50) →
        step.sendOk = true →
        handleLoop f pending (step :: rest) =
          (processTx f step.now step.notification pending :: (handleLoop f [] rest).1,
            (handleLoop f [] rest).2)) := by
  refine ⟨?_, fun now n pending => (processTx_length f now n pending).2, ?_⟩
  · exact handleLoop_bounded f steps [] (by simp [maxTxsInSingleResponse])
  · intro pending step rest hc hok
    conv_lhs => unfold handleLoop
    simp only [maxTxsInSingleResponse]
    rw [if_pos hc, if_pos hok]

theorem handleTransactions_bounded_witness :
    (handleTransactions (fun _ => true)
        ((List.replicate 51 ⟨⟨[7], false, [1]⟩, 1000, 3, true⟩)
          ++ [⟨⟨[7], false, [1]⟩, 1000, 0, true⟩])).1.map List.length = [50, 2] ∧
    ∀ reply ∈ (handleTransactions (fun _ => true)
        ((List.replicate 51 ⟨⟨[7], false, [1]⟩, 1000, 3, true⟩)
          ++ [⟨⟨[7], false, [1]⟩, 1000, 0, true⟩])).1, reply.length ≤ 50 :=
  ⟨by rfl,
   (handleTransactions_bounded (fun _ => true)
      ((List.replicate 51 ⟨⟨[7], false, [1]⟩, 1000, 3, true⟩)
        ++ [⟨⟨[7], false, [1]⟩, 1000, 0, true⟩])).1⟩

/-! ## C27: the fields of a round trip from protocol 25 on -/

theorem putAt_length (buf bs buf' : Bytes) (offset : Nat)
    (h : putAt buf offset bs = some buf') : buf'.length = buf.length := by
  unfold putAt at h
  split_ifs at h with hlen
  cases h
  simp only [List.length_append, List.length_take, List.length_drop]
  omega

theorem copyAt_length (buf src buf' : Bytes) (offset : Nat)
    (h : copyAt buf offset src = some buf') : buf'.length = buf.length := by
  unfold copyAt at h
  split_ifs at h with hlen
  cases h
  simp only [List.length_append, List.length_take, List.length_drop]
  omega

theorem copySlot_length (buf src buf' : Bytes) (offset width : Nat)
    (h : copySlot buf offset width src = some buf') : buf'.length = buf.length := by
  unfold copySlot at h
  split_ifs at h with hlen
  cases h
  simp only [List.length_append, List.length_take, List.length_drop]
  omega

theorem packWalletIDs_length (c : Consts) (ws : List Bytes) (buf buf' : Bytes)
    (offset offset' : Nat) (h : packWalletIDs c buf offset ws = some (buf', offset')) :
    buf'.length = buf.length := by
  induction ws generalizing buf offset with
  | nil =>
    unfold packWalletIDs at h
    cases h
    rfl
  | cons w ws ih =>
    unfold packWalletIDs at h
    obtain ⟨b1, h1, h2⟩ := Option.bind_eq_some.mp h
    rw [ih b1 (offset + c.WalletIDLen) h2]
    exact copySlot_length buf w b1 offset c.WalletIDLen h1

theorem packHead_length (c : Consts) (x : Ext) (m : Tx) (protocol : Nat) (buf : Bytes)
    (offset : Nat) (h : Tx.packHead c x m protocol = some (buf, offset)) :
    buf.length = Tx.size c m protocol := by
  unfold Tx.packHead at h
  simp only [Option.bind_eq_bind, Option.pure_def] at h
  obtain ⟨b1, h1, h⟩ := Option.bind_eq_some.mp h
  obtain ⟨b2, h2, h⟩ := Option.bind_eq_some.mp h
  obtain ⟨b3, h3, h⟩ := Option.bind_eq_some.mp h
  cases h
  rw [putAt_length _ _ _ _ h3, putAt_length _ _ _ _ h2]
  unfold BroadcastHeader.Pack at h1
  split_ifs at h1
  obtain ⟨b0, h0, h1⟩ := Option.bind_eq_some.mp h1
  rw [putAt_length _ _ _ _ h1, copySlot_length _ _ _ _ _ h0, zeros_length]

theorem packTimestamp_length (x : Ext) (m : Tx) (protocol : Nat) (buf buf' : Bytes)
    (offset offset' : Nat)
    (h : Tx.packTimestamp x m protocol buf offset = some (buf', offset')) :
    buf'.length = buf.length := by
  unfold Tx.packTimestamp at h
  split_ifs at h <;>
    (obtain ⟨b1, h1, h2⟩ := Option.map_eq_some'.mp h
     cases h2
     exact putAt_length _ _ _ _ h1)

theorem packNextValidator_length (c : Consts) (m : Tx) (protocol : Nat) (buf buf' : Bytes)
    (offset offset' : Nat)
    (h : Tx.packNextValidator c m protocol buf offset = some (buf', offset')) :
    buf'.length = buf.length := by
  unfold Tx.packNextValidator at h
  split_ifs at h
  · obtain ⟨b1, h1, h2⟩ := Option.bind_eq_some.mp h
    rw [packWalletIDs_length c _ b1 buf' _ offset' h2]
    exact putAt_length _ _ _ _ h1
  · cases h
    rfl
  · obtain ⟨b1, h1, h2⟩ := Option.bind_eq_some.mp h
    cases hw : m.walletIDs with
    | nil => simp [hw] at h2
    | cons w ws =>
      simp only [hw] at h2
      obtain ⟨b2, h3, h4⟩ := Option.map_eq_some'.mp h2
      cases h4
      rw [copySlot_length _ _ _ _ _ h3]
      exact putAt_length _ _ _ _ h1
  · cases h
    rfl
  · cases h
    rfl

theorem packAccountID_length (c : Consts) (m : Tx) (protocol : Nat) (buf buf' : Bytes)
    (offset offset' : Nat)
    (h : Tx.packAccountID c m protocol buf offset = some (buf', offset')) :
    buf'.length = buf.length := by
  unfold Tx.packAccountID at h
  split_ifs at h
  · cases h
    rfl
  · obtain ⟨b1, h1, h2⟩ := Option.map_eq_some'.mp h
    cases h2
    exact copyAt_length _ _ _ _ h1

theorem packContent_overrun (m : Tx) (protocol : Nat) (buf : Bytes) (offset : Nat)
    (hV : SenderProtocol ≤ protocol) (hc : 0 < m.content.length)
    (hbig : buf.length < m.content.length) :
    Tx.packContent m protocol buf offset = none := by
  unfold Tx.packContent
  rw [if_pos hc]
  cases h1 : copyAt buf offset m.content with
  | none => rfl
  | some b1 =>
    have hl := copyAt_length _ _ _ _ h1
    simp only [Option.some_bind, if_neg (Nat.not_lt.mpr hV)]
    unfold copyAt
    rw [if_neg (by omega)]

/-- When the length of the content exceeds the buffer `size` asks for, `Pack` panics
at the copy of the sender. -/
theorem Pack_overrun (c : Consts) (x : Ext) (m : Tx) (protocol : Nat)
    (hV : SenderProtocol ≤ protocol) (hc : 0 < m.content.length)
    (hbig : Tx.size c m protocol < m.content.length) :
    Tx.Pack c x m protocol = none := by
  unfold Tx.Pack
  cases h1 : Tx.packHead c x m protocol with
  | none => rfl
  | some s1 =>
    have l1 := packHead_length c x m protocol s1.1 s1.2 h1
    simp only [Option.some_bind]
    cases h2 : Tx.packTimestamp x m protocol s1.1 s1.2 with
    | none => rfl
    | some s2 =>
      have l2 := packTimestamp_length x m protocol s1.1 s2.1 s1.2 s2.2 h2
      simp only [Option.some_bind]
      cases h3 : Tx.packNextValidator c m protocol s2.1 s2.2 with
      | none => rfl
      | some s3 =>
        have l3 := packNextValidator_length c m protocol s2.1 s3.1 s2.2 s3.2 h3
        simp only [Option.some_bind]
        cases h4 : Tx.packAccountID c m protocol s3.1 s3.2 with
        | none => rfl
        | some s4 =>
          have l4 := packAccountID_length c m protocol s3.1 s4.1 s3.2 s4.2 h4
          simp only [Option.some_bind]
          exact packContent_overrun m protocol s4.1 s4.2 hV hc (by omega)

/-- C27 (as stated, refuted): a transaction with the next-validator flag clear and a
content of `2^32` bytes, at protocol 25: the `uint32` length arithmetic of `size` wraps
to a buffer of 119 bytes, and `Pack` panics at the copy of the sender. -/
theorem Pack_Unpack_fields_counterexample :
    0 < (sampleMsg 0 (List.replicate (2 ^ 32) 0) 1000 (zeros 36)).content.length ∧
    IsNextValidator sampleConsts (sampleMsg 0 (List.replicate (2 ^ 32) 0) 1000 (zeros 36)).flags
      = false ∧
    Tx.size sampleConsts (sampleMsg 0 (List.replicate (2 ^ 32) 0) 1000 (zeros 36)) 25 = 119 ∧
    Tx.Pack sampleConsts sampleExt (sampleMsg 0 (List.replicate (2 ^ 32) 0) 1000 (zeros 36)) 25
      = none := by
  have hlen : (sampleMsg 0 (List.replicate (2 ^ 32) 0) 1000 (zeros 36)).content.length
      = 2 ^ 32 := List.length_replicate _ _
  have hsize : Tx.size sampleConsts (sampleMsg 0 (List.replicate (2 ^ 32) 0) 1000 (zeros 36)) 25
      = 119 := by
    unfold Tx.size
    rw [hlen]
    rfl
  refine ⟨by rw [hlen]; norm_num, rfl, hsize, ?_⟩
  apply Pack_overrun
  · decide
  · rw [hlen]; norm_num
  · rw [hsize, hlen]; norm_num

theorem nextValidatorBytes_clear (c : Consts) (m : Tx) (protocol : Nat)
    (h : IsNextValidator c m.flags = false) : Tx.nextValidatorBytes c m protocol = [] := by
  unfold Tx.nextValidatorBytes
  simp [h]

theorem unpackNextValidator_clear (c : Consts) (m : Tx) (buf : Bytes) (protocol offset : Nat)
    (h : IsNextValidator c m.flags = false) :
    Tx.unpackNextValidator c m buf protocol offset
      = .ok ({ m with walletIDs :=
            if protocol ≥ c.NextValidatorMultipleProtocol ∨ protocol ≥ c.NextValidatorProtocol
            then [[], []] else m.walletIDs }, offset) := by
  unfold Tx.unpackNextValidator
  by_cases h1 : protocol ≥ c.NextValidatorMultipleProtocol
  · simp [h1, h]
    rfl
  · by_cases h2 : protocol ≥ c.NextValidatorProtocol
    · simp [h1, h2, h]
      rfl
    · simp [h1, h2]
      rfl

/-- The size `Tx.size` asks for is the length of the layout, from protocol 25 on and
with the next-validator flag clear. -/
theorem size_eq_wire_length_clear (c : Consts) (x : Ext) (m : Tx) (protocol : Nat)
    (hV : 25 ≤ protocol) (hT : Tx.WellTyped c m)
    (hnv : IsNextValidator c m.flags = false)
    (hlen : c.BroadcastHeaderLen + 31 + c.AccountIDLen + m.content.length < 2 ^ 32) :
    Tx.size c m protocol = (Tx.wire c x m protocol).length := by
  obtain ⟨hA, hS, _, _, _⟩ := hT
  rw [wire_length, timestampBytes_length, nextValidatorBytes_clear c m protocol hnv]
  unfold Tx.size Tx.accountIDBytes Tx.senderBytes BroadcastHeader.Size ShortIDLen TxFlagsLen
    ShortTimestampLen TimestampLen ControlByteLen SenderProtocol SenderLen UInt16Len at *
  simp only [hnv, Bool.and_false, Bool.false_eq_true, if_false, List.length_nil]
  split_ifs <;> (try simp only [List.length_nil]) <;> omega

/-- `Unpack` on the layout of a transaction with the next-validator flag clear, from
protocol 25 on. -/
theorem Unpack_wire_clear (c : Consts) (x : Ext) (now : Int) (m : Tx) (protocol : Nat)
    (hV : 25 ≤ protocol) (hT : Tx.WellTyped c m)
    (hnv : IsNextValidator c m.flags = false)
    (hs : m.content = [] → m.sender = zeros SenderLen) :
    ∃ T', Tx.Unpack c x now (Tx.empty c) (Tx.wire c x m protocol) protocol = .ok T' ∧
      T'.shortID = m.shortID ∧ T'.flags = m.flags ∧ T'.accountID = m.accountID ∧
      T'.content = m.content ∧ T'.sender = m.sender := by
  obtain ⟨hA, hS, hsid, hfl, hfb⟩ := hT
  have hwf := wireFlags_lt c m protocol hfl
  have hwe : Tx.wireFlags c m protocol = m.flags := wireFlags_of_ge c m protocol (by omega)
  have e1 : m.shortID % 2 ^ 32 = m.shortID := Nat.mod_eq_of_lt hsid
  have e2 : Tx.wireFlags c m protocol % 2 ^ 16 = Tx.wireFlags c m protocol :=
    Nat.mod_eq_of_lt hwf
  have hnvb := nextValidatorBytes_clear c m protocol hnv
  unfold Tx.Unpack
  rw [unpackHead_run c x (Tx.empty c) (Tx.wire c x m protocol)
    (Tx.headerBytes c x m protocol)
    (Tx.timestampBytes x m protocol ++ Tx.nextValidatorBytes c m protocol
      ++ Tx.accountIDBytes m protocol ++ m.content ++ Tx.senderBytes m protocol
      ++ [x.controlByte])
    protocol m.shortID (Tx.wireFlags c m protocol)
    (by simp only [Tx.wire, e1, e2, List.append_assoc])
    (headerBytes_length c x m protocol) hsid hwf]
  simp only [Except.bind]
  rw [unpackTimestamp_run x now _ m (Tx.wire c x m protocol)
    (Tx.headerBytes c x m protocol ++ putLE 4 (m.shortID % 2 ^ 32)
      ++ putLE 2 (Tx.wireFlags c m protocol % 2 ^ 16))
    (Tx.nextValidatorBytes c m protocol
      ++ Tx.accountIDBytes m protocol ++ m.content ++ Tx.senderBytes m protocol
      ++ [x.controlByte]) protocol _
    (by simp [Tx.wire])
    (by simp [headerBytes_length, putLE_length, ShortIDLen, TxFlagsLen])]
  simp only []
  rw [unpackNextValidator_clear c _ _ protocol _ (by rw [← hnv, ← hwe])]
  simp only []
  rw [unpackAccountID_run c _ m (Tx.wire c x m protocol)
    (Tx.headerBytes c x m protocol ++ putLE 4 (m.shortID % 2 ^ 32)
      ++ putLE 2 (Tx.wireFlags c m protocol % 2 ^ 16) ++ Tx.timestampBytes x m protocol)
    (m.content ++ Tx.senderBytes m protocol ++ [x.controlByte]) protocol _
    rfl hA (fun h => absurd h (by omega))
    (by simp [Tx.wire, hnvb])
    (by simp [headerBytes_length, putLE_length, ShortIDLen, TxFlagsLen]; omega)]
  simp only []
  rw [unpackContent_run _ m (Tx.wire c x m protocol)
    (Tx.headerBytes c x m protocol ++ putLE 4 (m.shortID % 2 ^ 32)
      ++ putLE 2 (Tx.wireFlags c m protocol % 2 ^ 16) ++ Tx.timestampBytes x m protocol
      ++ Tx.accountIDBytes m protocol)
    x.controlByte protocol _
    rfl hS (fun h => h.elim (fun h' => absurd h' (by unfold SenderProtocol; omega)) hs)
    (by simp [Tx.wire, hnvb])
    (by simp [headerBytes_length, putLE_length, ShortIDLen, TxFlagsLen]; omega)]
  exact ⟨_, rfl, rfl, hwe, rfl, rfl, rfl⟩

/-- C27 (amended): for every protocol version `V >= SenderProtocol` and every
transaction `T` with the next-validator flag clear whose message fits the `uint32`
length arithmetic (`BroadcastHeaderLen + 31 + AccountIDLen + len(content) < 2^32`),
`Pack(T, V)` returns a buffer and `Unpack` of it at `V` on a fresh receiver succeeds and
yields `T`'s short ID, flags, account ID and content; with non-empty content it yields
`T`'s sender, with empty content it leaves the sender of the receiver as it was. -/
theorem Pack_Unpack_fields (c : Consts) (x : Ext) (now : Int) (T : Tx) (V : Nat)
    (hV : SenderProtocol ≤ V) (hT : Tx.WellTyped c T)
    (hnv : IsNextValidator c T.flags = false)
    (hlen : c.BroadcastHeaderLen + 31 + c.AccountIDLen + T.content.length < 2 ^ 32) :
    ∃ buf T',
      Tx.Pack c x T V = some buf ∧
      Tx.Unpack c x now (Tx.empty c) buf V = .ok T' ∧
      T'.shortID = T.shortID ∧ T'.flags = T.flags ∧ T'.accountID = T.accountID ∧
      T'.content = T.content ∧
      (T.content ≠ [] → T'.sender = T.sender) ∧
      (T.content = [] → T'.sender = (Tx.empty c).sender) := by
  have hV' : 25 ≤ V := hV
  have hpack := Pack_eq_wire c x T V hT.1 (Or.inr (fun h => by rw [hnv] at h; simp at h))
    (size_eq_wire_length_clear c x T V hV' hT hnv hlen)
  by_cases hc : T.content = []
  · have hT0 : Tx.WellTyped c { T with sender := zeros SenderLen } :=
      ⟨hT.1, zeros_length _, hT.2.2.1, hT.2.2.2.1, hT.2.2.2.2⟩
    have hw : Tx.wire c x T V = Tx.wire c x { T with sender := zeros SenderLen } V := by
      simp [Tx.wire, Tx.headerBytes, Tx.size, Tx.wireFlags, Tx.timestampBytes,
        Tx.nextValidatorBytes, Tx.accountIDBytes, Tx.senderBytes, hc]
    obtain ⟨T', hu, h1, h2, h3, h4, h5⟩ := Unpack_wire_clear c x now
      { T with sender := zeros SenderLen } V hV' hT0 hnv (fun _ => rfl)
    rw [← hw] at hu
    exact ⟨_, T', hpack, hu, h1, h2, h3, h4, fun h => absurd hc h, fun _ => h5⟩
  · obtain ⟨T', hu, h1, h2, h3, h4, h5⟩ := Unpack_wire_clear c x now T V hV' hT hnv
      (fun h => absurd h hc)
    exact ⟨_, T', hpack, hu, h1, h2, h3, h4, fun _ => h5, fun h => absurd h hc⟩

theorem Pack_Unpack_fields_witness :
    ∃ buf T',
      Tx.Pack sampleConsts sampleExt
        { sampleMsg 1 [1, 2, 3] 1759218604441600777 (List.replicate 36 7) with
            shortID := 77, sender := List.replicate 20 5 } 25 = some buf ∧
      Tx.Unpack sampleConsts sampleExt 1759218609441600777 (Tx.empty sampleConsts) buf 25
        = .ok T' ∧
      T'.shortID = 77 ∧ T'.flags = 1 ∧ T'.accountID = List.replicate 36 7 ∧
      T'.content = [1, 2, 3] ∧
      (([1, 2, 3] : Bytes) ≠ [] → T'.sender = List.replicate 20 5) ∧
      (([1, 2, 3] : Bytes) = [] → T'.sender = (Tx.empty sampleConsts).sender) :=
  Pack_Unpack_fields sampleConsts sampleExt 1759218609441600777
    { sampleMsg 1 [1, 2, 3] 1759218604441600777 (List.replicate 36 7) with
        shortID := 77, sender := List.replicate 20 5 } 25
    (by decide) (by decide) (by decide) (by decide)

/-! ## C2: prefixes of a packed message -/

/-- The reads of the account ID, the content and the sender, which no length check
precedes, on a buffer that ends inside the account ID or less than 21 bytes after it
(and not exactly one byte after it): the slice expression of the content is out of
range. -/
theorem unpackTail_panics (c : Consts) (m : Tx) (buf : Bytes) (protocol offset : Nat)
    (hV : 25 ≤ protocol) (ho : offset ≤ buf.length)
    (h2 : buf.length < offset + c.AccountIDLen + 21)
    (h3 : buf.length ≠ offset + c.AccountIDLen + 1) :
    ((Tx.unpackAccountID c m buf protocol offset).bind fun s4 =>
      Tx.unpackContent s4.1 buf protocol s4.2) = .error .outOfRange := by
  unfold Tx.unpackAccountID
  rw [if_neg (by omega), if_pos ho]
  simp only [pure, Except.pure, Except.bind]
  unfold Tx.unpackContent
  have hc : ¬ (((buf.length : Nat) : Int) - ((offset + c.AccountIDLen : Nat) : Int)
      - ((ControlByteLen : Nat) : Int) = 0 ∨ protocol < SenderProtocol) := by
    unfold ControlByteLen SenderProtocol
    push_cast
    omega
  rw [if_neg hc]
  have hs : sliceTo buf (offset + c.AccountIDLen)
      (((buf.length : Nat) : Int) - ((SenderLen : Nat) : Int) - ((ControlByteLen : Nat) : Int))
        = .error .outOfRange := by
    unfold sliceTo
    rw [if_neg]
    unfold ControlByteLen SenderLen
    push_cast
    omega
  simp only [bind, Except.bind, hs]

/-- C2 (refuted): for every protocol version from 25 on and every transaction `T` with
the next-validator flag clear whose message fits the `uint32` length arithmetic, `Pack`
returns a buffer, and on every strict prefix of it that holds the header, the short ID,
the flags and the timestamp but ends inside the account ID or less than 21 bytes after
it (and not exactly one byte after it), `Unpack` on any receiver panics on a slice out
of range instead of returning the buffer-too-small error. -/
theorem Unpack_prefix_panics (c : Consts) (x : Ext) (now : Int) (r T : Tx) (V k : Nat)
    (hV : SenderProtocol ≤ V) (hT : Tx.WellTyped c T)
    (hnv : IsNextValidator c T.flags = false)
    (hlen : c.BroadcastHeaderLen + 31 + c.AccountIDLen + T.content.length < 2 ^ 32)
    (hk1 : c.BroadcastHeaderLen + 10 ≤ k)
    (hk2 : k < c.BroadcastHeaderLen + 10 + c.AccountIDLen + 21)
    (hk3 : k ≠ c.BroadcastHeaderLen + 10 + c.AccountIDLen + 1) :
    (∃ buf, Tx.Pack c x T V = some buf) ∧
    ∀ buf, Tx.Pack c x T V = some buf → k < buf.length →
      Tx.Unpack c x now r (buf.take k) V = .error .outOfRange := by
  have hV' : 25 ≤ V := hV
  have hpack := Pack_eq_wire c x T V hT.1 (Or.inr (fun h => by rw [hnv] at h; simp at h))
    (size_eq_wire_length_clear c x T V hV' hT hnv hlen)
  refine ⟨⟨_, hpack⟩, ?_⟩
  intro buf hb hk
  rw [hpack] at hb
  cases hb
  obtain ⟨hA, hS, hsid, hfl, hfb⟩ := hT
  have hwf := wireFlags_lt c T V hfl
  have hwe : Tx.wireFlags c T V = T.flags := wireFlags_of_ge c T V (by omega)
  have e1 : T.shortID % 2 ^ 32 = T.shortID := Nat.mod_eq_of_lt hsid
  have e2 : Tx.wireFlags c T V % 2 ^ 16 = Tx.wireFlags c T V := Nat.mod_eq_of_lt hwf
  have hts : (Tx.timestampBytes x T V).length = 4 := by
    rw [timestampBytes_length]
    simp only [if_neg (show ¬ V < 21 by omega), if_neg (show ¬ V < 25 by omega)]
  have hPlen : (Tx.headerBytes c x T V ++ putLE 4 T.shortID ++ putLE 2 (Tx.wireFlags c T V)
      ++ Tx.timestampBytes x T V).length = c.BroadcastHeaderLen + 10 := by
    simp only [List.length_append, headerBytes_length, putLE_length, hts]
  have hbuf : (Tx.wire c x T V).take k
      = Tx.headerBytes c x T V ++ (putLE 4 T.shortID ++ (putLE 2 (Tx.wireFlags c T V)
          ++ (Tx.timestampBytes x T V
            ++ (Tx.nextValidatorBytes c T V ++ Tx.accountIDBytes T V ++ T.content
              ++ Tx.senderBytes T V ++ [x.controlByte]).take
                (k - (c.BroadcastHeaderLen + 10))))) := by
    have hw : Tx.wire c x T V
        = (Tx.headerBytes c x T V ++ putLE 4 T.shortID ++ putLE 2 (Tx.wireFlags c T V)
            ++ Tx.timestampBytes x T V)
          ++ (Tx.nextValidatorBytes c T V ++ Tx.accountIDBytes T V ++ T.content
              ++ Tx.senderBytes T V ++ [x.controlByte]) := by
      simp only [Tx.wire, e1, e2, List.append_assoc]
    rw [hw, take_append_ge _ _ k (by rw [hPlen]; exact hk1), hPlen]
    simp only [List.append_assoc]
  have hblen : ((Tx.wire c x T V).take k).length = k := by
    rw [List.length_take]
    omega
  unfold Tx.Unpack
  rw [unpackHead_run c x r _ (Tx.headerBytes c x T V) _ V T.shortID (Tx.wireFlags c T V)
    hbuf (headerBytes_length c x T V) hsid hwf]
  simp only [Except.bind]
  rw [unpackTimestamp_run x now _ T _
    (Tx.headerBytes c x T V ++ putLE 4 T.shortID ++ putLE 2 (Tx.wireFlags c T V))
    ((Tx.nextValidatorBytes c T V ++ Tx.accountIDBytes T V ++ T.content
      ++ Tx.senderBytes T V ++ [x.controlByte]).take (k - (c.BroadcastHeaderLen + 10)))
    V _
    (by rw [hbuf]; simp only [List.append_assoc])
    (by simp [headerBytes_length, putLE_length, ShortIDLen, TxFlagsLen])]
  simp only []
  rw [unpackNextValidator_clear c _ _ V _ (by rw [← hnv, ← hwe])]
  simp only []
  exact unpackTail_panics c _ _ V _ hV'
    (by rw [hblen, hts]; unfold ShortIDLen TxFlagsLen; omega)
    (by rw [hblen, hts]; unfold ShortIDLen TxFlagsLen; omega)
    (by rw [hblen, hts]; unfold ShortIDLen TxFlagsLen; omega)

set_option maxRecDepth 100000 in
theorem Unpack_prefix_panics_witness :
    ∃ buf, Tx.Pack sampleConsts sampleExt (sampleMsg 0 [1, 2, 3] 0 (zeros 36)) 25 = some buf ∧
      buf.length = 142 ∧
      Tx.Unpack sampleConsts sampleExt 0 (Tx.empty sampleConsts) (buf.take 100) 25
        = .error .outOfRange :=
  ⟨_, rfl, rfl,
    (Unpack_prefix_panics sampleConsts sampleExt 0 (Tx.empty sampleConsts)
      (sampleMsg 0 [1, 2, 3] 0 (zeros 36)) 25 100
      (by decide) (by decide) (by decide) (by decide) (by decide) (by decide)
      (by decide)).2 _ rfl (by decide)⟩

end Gateway
